import Mathlib

/-!
# CommBench: registration, execution and measurement engine

A shallow embedding of `src/comm.h` and `src/commbench.h` (build with a GPU port,
`PORT_HIP` as in `src/main.cpp`, message passing over MPI).

* One process (rank) is modelled by its process-wide statics (`Context`) and the
  members of its `Comm<T>` object (`Comm`).
* The runtime calls a member function issues are returned as a list of `Call`s, in
  program order.  Diagnostic output (`printf`) is not recorded.
* Values delivered by blocking receives are inputs of the per-rank functions; the
  group-level definitions (`addAll`, `cycleMPI`, `cycleIPC`, ...) feed every receive with what the
  matching send of the peer rank carries.
* Pointers are byte addresses; `p + n` on a `T*` advances by `n * sizeof(T)` bytes.
-/

namespace CommBench

/-! ## Machine integers -/

/-- Value of a `size_t` expression: arithmetic modulo `2^64`. -/
def toSizeT (n : Nat) : Nat := n % 2 ^ 64

/-- Conversion of an unsigned value to a 32-bit `int` argument (two's complement). -/
def toInt32 (n : Nat) : Int :=
  if n % 2 ^ 32 < 2 ^ 31 then ((n % 2 ^ 32 : Nat) : Int) else ((n % 2 ^ 32 : Nat) : Int) - 2 ^ 32

/-- Value of a signed 64-bit `long` holding the integer `z` (two's complement wrap). -/
def toLong (z : Int) : Int :=
  if z % 2 ^ 64 < 2 ^ 63 then z % 2 ^ 64 else z % 2 ^ 64 - 2 ^ 64

/-- Conversion of a `long` to `size_t`. -/
def longToSizeT (z : Int) : Nat := (z % 2 ^ 64).toNat

/-! ## Data model -/

/-- The backends switched on in `comm.h`. -/
inductive library where
  | dummy
  | MPI
  | XCCL
  | IPC
  | IPC_get
  | numlib
  deriving DecidableEq, Repr

/-- The two message-passing contexts named in the source. -/
inductive Communicator where
  | comm_mpi
  | MPI_COMM_WORLD
  deriving DecidableEq, Repr

/-- A device address: the process owning the memory and the byte address in it.  A pointer
obtained by opening a memory handle names memory of another process. -/
structure DevPtr where
  proc : Nat
  addr : Nat
  deriving DecidableEq, Repr, Inhabited

/-- Pointer arithmetic on a `T*` held as a device address. -/
def DevPtr.offset (p : DevPtr) (bytes : Nat) : DevPtr := ⟨p.proc, p.addr + bytes⟩

/-- What a blocking control-channel message carries. -/
inductive Payload where
  | bufptr (p : Nat)
  | size (n : Nat)
  | memhandle (h : DevPtr)
  | ack (v : Nat)
  deriving DecidableEq, Repr

/-- The kind of value a blocking receive waits for. -/
inductive Kind where
  | bufptr
  | size
  | memhandle
  | ack
  | value
  deriving DecidableEq, Repr

/-- Which request array a `MPI_Waitall` completes. -/
inductive ReqArray where
  | sendrequest
  | recvrequest
  deriving DecidableEq, Repr

/-- Runtime calls issued by the functions of the benchmark (`ssend` is the `MPI_Ssend` of
`CommBench::send`, `wtime` the clock `omp_get_wtime`). -/
inductive Call where
  | barrier (comm : Communicator)
  | send (comm : Communicator) (dest : Nat) (p : Payload)
  | ssend (comm : Communicator) (dest : Nat)
  | wtime
  | recv (comm : Communicator) (src : Nat) (k : Kind)
  | isend (comm : Communicator) (buf : Nat) (bytes : Int) (dest : Nat) (req : Nat)
  | irecv (comm : Communicator) (buf : Nat) (bytes : Int) (src : Nat) (req : Nat)
  | waitall (n : Nat) (reqs : ReqArray)
  | allreduce (comm : Communicator)
  | allgather (comm : Communicator)
  | streamCreate (stream : Nat)
  | ipcGetMemHandle (buf : Nat)
  | ipcOpenMemHandle (h : DevPtr)
  | memcpyAsync (dst src : DevPtr) (bytes : Nat) (stream : Nat)
  | streamSynchronize (stream : Nat)
  | groupStart
  | groupEnd
  | xcclSend (buf : Nat) (bytes : Nat) (dest : Nat)
  | xcclRecv (buf : Nat) (bytes : Nat) (src : Nat)
  | xcclSynchronize
  deriving DecidableEq, Repr

/-- Process-wide statics of namespace `CommBench`. -/
structure Context where
  myid : Nat
  numproc : Nat
  printid : Int
  deriving DecidableEq, Repr

/-- Members of `Comm<T>`; `sizeofT` is `sizeof(T)` of the template argument. -/
structure Comm where
  lib : library
  sizeofT : Nat
  benchid : Nat
  numcomm : Nat
  numsend : Nat
  numrecv : Nat
  sendbuf : List Nat
  sendproc : List Nat
  sendcount : List Nat
  sendoffset : List Nat
  recvbuf : List Nat
  recvproc : List Nat
  recvcount : List Nat
  recvoffset : List Nat
  sendrequest : List Nat
  recvrequest : List Nat
  ack_sender : List Nat
  ack_recver : List Nat
  remotebuf : List DevPtr
  remoteoffset : List Nat
  stream_ipc : List Nat
  deriving DecidableEq, Repr

/-- State left by the constructor `Comm<T>::Comm(lib)`: `numsend = numrecv = 0` and every
registry empty.  The class declaration is not part of the sources; the start value of the
diagnostic counter `numcomm` is a parameter. -/
def Comm.new (lib : library) (sizeofT benchid numcomm0 : Nat) : Comm :=
  { lib := lib, sizeofT := sizeofT, benchid := benchid, numcomm := numcomm0,
    numsend := 0, numrecv := 0,
    sendbuf := [], sendproc := [], sendcount := [], sendoffset := [],
    recvbuf := [], recvproc := [], recvcount := [], recvoffset := [],
    sendrequest := [], recvrequest := [], ack_sender := [], ack_recver := [],
    remotebuf := [], remoteoffset := [], stream_ipc := [] }

/-- Arguments of the seven-argument `Comm<T>::add`, as passed on one rank. -/
structure AddArgs where
  sendbuf : Nat
  sendoffset : Nat
  recvbuf : Nat
  recvoffset : Nat
  count : Nat
  sendid : Nat
  recvid : Nat
  deriving DecidableEq, Repr

/-- The two values the blocking receives of a handle exchange deliver: the memory handle
and the offset transmitted by the peer. -/
structure HandleMsg where
  memhandle : DevPtr
  offset : Nat
  deriving DecidableEq, Repr, Inhabited

/-! ## `Comm<T>::add` -/

/-- The `REPORT` block of `add` (lines 150-175): buffers and offsets are sent to `printid`. -/
def addReport (ctx : Context) (a : AddArgs) : List Call :=
  if ctx.printid > -1 then
    (if ctx.myid = a.sendid then
        [Call.send .comm_mpi ctx.printid.toNat (.bufptr a.sendbuf),
         Call.send .comm_mpi ctx.printid.toNat (.size a.sendoffset)]
      else []) ++
    (if ctx.myid = a.recvid then
        [Call.send .comm_mpi ctx.printid.toNat (.bufptr a.recvbuf),
         Call.send .comm_mpi ctx.printid.toNat (.size a.recvoffset)]
      else []) ++
    (if (ctx.myid : Int) = ctx.printid then
        [Call.recv .comm_mpi a.sendid .bufptr, Call.recv .comm_mpi a.sendid .size,
         Call.recv .comm_mpi a.recvid .bufptr, Call.recv .comm_mpi a.recvid .size]
      else [])
  else []

/-- The block `SENDER DATA STRUCTURES` of `add` (lines 179-278), run when `myid == sendid`. -/
def addSender (ctx : Context) (c : Comm) (a : AddArgs) (rx : HandleMsg) : Comm × List Call :=
  let c1 : Comm :=
    { c with sendbuf := c.sendbuf ++ [a.sendbuf], sendproc := c.sendproc ++ [a.recvid],
             sendcount := c.sendcount ++ [a.count], sendoffset := c.sendoffset ++ [a.sendoffset] }
  match c.lib with
  | .dummy => ({ c1 with numsend := c1.numsend + 1 }, [])
  | .MPI => ({ c1 with sendrequest := c1.sendrequest ++ [0], numsend := c1.numsend + 1 }, [])
  | .XCCL => ({ c1 with numsend := c1.numsend + 1 }, [])
  | .IPC =>
    let c2 : Comm :=
      { c1 with ack_sender := c1.ack_sender ++ [0],
                remotebuf := c1.remotebuf ++ [⟨ctx.myid, a.recvbuf⟩],
                remoteoffset := c1.remoteoffset ++ [a.recvoffset],
                stream_ipc := c1.stream_ipc ++ [0] }
    if a.sendid ≠ a.recvid then
      ({ c2 with remotebuf := c2.remotebuf.set c2.numsend rx.memhandle,
                 remoteoffset := c2.remoteoffset.set c2.numsend rx.offset,
                 numsend := c2.numsend + 1 },
       [Call.streamCreate c2.numsend,
        Call.recv .comm_mpi a.recvid .memhandle,
        Call.ipcOpenMemHandle rx.memhandle,
        Call.recv .comm_mpi a.recvid .size])
    else
      ({ c2 with numsend := c2.numsend + 1 }, [Call.streamCreate c2.numsend])
  | .IPC_get =>
    let c2 : Comm := { c1 with ack_sender := c1.ack_sender ++ [0] }
    if a.sendid ≠ a.recvid then
      ({ c2 with numsend := c2.numsend + 1 },
       [Call.ipcGetMemHandle a.sendbuf,
        Call.send .comm_mpi a.recvid (.memhandle ⟨ctx.myid, a.sendbuf⟩),
        Call.send .comm_mpi a.recvid (.size a.sendoffset)])
    else
      ({ c2 with numsend := c2.numsend + 1 }, [])
  | .numlib => ({ c1 with numsend := c1.numsend + 1 }, [])

/-- The block `RECEIVER DATA STRUCTURES` of `add` (lines 281-380), run when `myid == recvid`. -/
def addRecver (ctx : Context) (c : Comm) (a : AddArgs) (rx : HandleMsg) : Comm × List Call :=
  let c1 : Comm :=
    { c with recvbuf := c.recvbuf ++ [a.recvbuf], recvproc := c.recvproc ++ [a.sendid],
             recvcount := c.recvcount ++ [a.count], recvoffset := c.recvoffset ++ [a.recvoffset] }
  match c.lib with
  | .dummy => ({ c1 with numrecv := c1.numrecv + 1 }, [])
  | .MPI => ({ c1 with recvrequest := c1.recvrequest ++ [0], numrecv := c1.numrecv + 1 }, [])
  | .XCCL => ({ c1 with numrecv := c1.numrecv + 1 }, [])
  | .IPC =>
    let c2 : Comm := { c1 with ack_recver := c1.ack_recver ++ [0] }
    if a.sendid ≠ a.recvid then
      ({ c2 with numrecv := c2.numrecv + 1 },
       [Call.ipcGetMemHandle a.recvbuf,
        Call.send .comm_mpi a.sendid (.memhandle ⟨ctx.myid, a.recvbuf⟩),
        Call.send .comm_mpi a.sendid (.size a.recvoffset)])
    else
      ({ c2 with numrecv := c2.numrecv + 1 }, [])
  | .IPC_get =>
    let c2 : Comm :=
      { c1 with ack_recver := c1.ack_recver ++ [0],
                remotebuf := c1.remotebuf ++ [⟨ctx.myid, a.sendbuf⟩],
                remoteoffset := c1.remoteoffset ++ [a.sendoffset],
                stream_ipc := c1.stream_ipc ++ [0] }
    if a.sendid ≠ a.recvid then
      ({ c2 with remotebuf := c2.remotebuf.set c2.numrecv rx.memhandle,
                 remoteoffset := c2.remoteoffset.set c2.numrecv rx.offset,
                 numrecv := c2.numrecv + 1 },
       [Call.streamCreate c2.numrecv,
        Call.recv .comm_mpi a.sendid .memhandle,
        Call.ipcOpenMemHandle rx.memhandle,
        Call.recv .comm_mpi a.sendid .size])
    else
      ({ c2 with numrecv := c2.numrecv + 1 }, [Call.streamCreate c2.numrecv])
  | .numlib => ({ c1 with numrecv := c1.numrecv + 1 }, [])

/-- `Comm<T>::add(sendbuf, sendoffset, recvbuf, recvoffset, count, sendid, recvid)` on the
rank described by `ctx`: the new members and the runtime calls issued.  `rx` is what the
handle-exchange receives of this call deliver (unused when the call receives nothing). -/
def Comm.add (ctx : Context) (c : Comm) (a : AddArgs) (rx : HandleMsg) : Comm × List Call :=
  if a.count = 0 then (c, [])
  else
    let c1 : Comm := { c with numcomm := c.numcomm + 1 }
    let s := if ctx.myid = a.sendid then addSender ctx c1 a rx else (c1, [])
    let r := if ctx.myid = a.recvid then addRecver ctx s.1 a rx else (s.1, [])
    (r.1, Call.barrier .comm_mpi :: addReport ctx a ++ s.2 ++ r.2)

/-- A sequence of `add` calls on one rank, each with the values its receives deliver. -/
def Comm.addSeq (ctx : Context) (c : Comm) (calls : List (AddArgs × HandleMsg)) : Comm :=
  calls.foldl (fun st x => (Comm.add ctx st x.1 x.2).1) c

/-- The call registers an outgoing edge on rank `A`: non-zero count and `sendid == A`. -/
def AddArgs.isOut (A : Nat) (a : AddArgs) : Bool := a.count != 0 && A == a.sendid

/-- The call registers an incoming edge on rank `A`: non-zero count and `recvid == A`. -/
def AddArgs.isIn (A : Nat) (a : AddArgs) : Bool := a.count != 0 && A == a.recvid

/-- Outgoing index the next edge sent by the rank of `ctx` gets after the calls `pre`: the
number of earlier calls with non-zero count and `sendid == myid`. -/
def outIndex (ctx : Context) (pre : List (AddArgs × HandleMsg)) : Nat :=
  ((pre.map Prod.fst).filter (AddArgs.isOut ctx.myid)).length

/-- Incoming index the next edge received by the rank of `ctx` gets after the calls `pre`. -/
def inIndex (ctx : Context) (pre : List (AddArgs × HandleMsg)) : Nat :=
  ((pre.map Prod.fst).filter (AddArgs.isIn ctx.myid)).length

/-! ## The group: the same `add` sequence on every rank -/

/-- What every rank of the group shares: the group size, `printid`, the backend the pattern
is constructed with and `sizeof(T)`. -/
structure Group where
  numproc : Nat
  printid : Int
  lib : library
  sizeofT : Nat

/-- Process-wide statics of rank `r`. -/
def Group.ctx (g : Group) (r : Nat) : Context := ⟨r, g.numproc, g.printid⟩

/-- One collective `add` call: `count`, `sendid` and `recvid` are the same on every rank,
the buffer pointers and offsets are the values passed on each rank. -/
structure Edge where
  count : Nat
  sendid : Nat
  recvid : Nat
  sendbuf : Nat → Nat
  sendoffset : Nat → Nat
  recvbuf : Nat → Nat
  recvoffset : Nat → Nat

/-- The arguments rank `r` passes for the collective call `e`. -/
def Edge.argsOn (e : Edge) (r : Nat) : AddArgs :=
  ⟨e.sendbuf r, e.sendoffset r, e.recvbuf r, e.recvoffset r, e.count, e.sendid, e.recvid⟩

/-- The `Comm` object of every rank. -/
abbrev World := Nat → Comm

/-- Every rank constructs its `Comm` with the group's backend. -/
def Group.fresh (g : Group) (benchid numcomm0 : Nat) : World :=
  fun _ => Comm.new g.lib g.sizeofT benchid numcomm0

/-- Payloads of the blocking sends addressed to rank `dest`, in program order. -/
def sentTo (dest : Nat) : List Call → List Payload
  | [] => []
  | Call.send _ d p :: rest => if d = dest then p :: sentTo dest rest else sentTo dest rest
  | _ :: rest => sentTo dest rest

/-- The handle exchange inside a message sequence: the first memory handle and the size
that follows it. -/
def handshakeOf : List Payload → HandleMsg
  | Payload.memhandle h :: Payload.size n :: _ => ⟨h, n⟩
  | _ :: rest => handshakeOf rest
  | [] => default

/-- The other participant of the edge, seen from rank `r`. -/
def Edge.peerOf (e : Edge) (r : Nat) : Nat := if r = e.sendid then e.recvid else e.sendid

/-- What the handle-exchange receives of rank `r` deliver during the collective call `e`:
the handshake sent to `r` by the peer rank in its own execution of the call.  (Message
passing semantics: a blocking receive from rank `p` returns what `p` sent to this rank.) -/
def delivered (g : Group) (w : World) (e : Edge) (r : Nat) : HandleMsg :=
  handshakeOf (sentTo r
    (Comm.add (g.ctx (e.peerOf r)) (w (e.peerOf r)) (e.argsOn (e.peerOf r)) default).2)

/-- The collective call `e` executed by every rank. -/
def addAll (g : Group) (w : World) (e : Edge) : World :=
  fun r => (Comm.add (g.ctx r) (w r) (e.argsOn r) (delivered g w e r)).1

/-- A pattern registered by the same sequence of calls on every rank. -/
def registerAll (g : Group) (w : World) (es : List Edge) : World :=
  es.foldl (addAll g) w

/-- The edge is registered: its count is not zero. -/
def Edge.registered (e : Edge) : Bool := e.count != 0

/-- The registered edges sent by rank `r`, in call order. -/
def outEdges (es : List Edge) (r : Nat) : List Edge :=
  es.filter (fun e => e.count != 0 && r == e.sendid)

/-- The registered edges received by rank `r`, in call order. -/
def inEdges (es : List Edge) (r : Nat) : List Edge :=
  es.filter (fun e => e.count != 0 && r == e.recvid)

/-- Counts of the outgoing entries of a rank whose `sendproc` is `r`, in list order. -/
def outgoingTo (c : Comm) (r : Nat) : List Nat :=
  ((c.sendproc.zip c.sendcount).filter (fun pc => pc.1 == r)).map Prod.snd

/-- Counts of the incoming entries of a rank whose `recvproc` is `s`, in list order. -/
def incomingFrom (c : Comm) (s : Nat) : List Nat :=
  ((c.recvproc.zip c.recvcount).filter (fun pc => pc.1 == s)).map Prod.snd

/-! ## `Comm<T>::getMatrix` -/

/-- Lines 471-474 of `getMatrix`: `sendcount_temp[sendproc[send]] += sendcount[send]` over
the outgoing list, in a vector of `numproc` zeros (`size_t` arithmetic). -/
def sendcount_temp (ctx : Context) (c : Comm) : List Nat :=
  (List.range c.numsend).foldl
    (fun tmp send =>
      tmp.set (c.sendproc.getD send 0)
        (toSizeT (tmp.getD (c.sendproc.getD send 0) 0 + c.sendcount.getD send 0)))
    (List.replicate ctx.numproc 0)

/-- Lines 472-476 of `getMatrix`: the same totals over the incoming list. -/
def recvcount_temp (ctx : Context) (c : Comm) : List Nat :=
  (List.range c.numrecv).foldl
    (fun tmp recv =>
      tmp.set (c.recvproc.getD recv 0)
        (toSizeT (tmp.getD (c.recvproc.getD recv 0) 0 + c.recvcount.getD recv 0)))
    (List.replicate ctx.numproc 0)

/-- Result buffer of `MPI_Allgather` with `numproc` elements per rank: element `i` is
element `i % numproc` of the block contributed by rank `i / numproc`. -/
def allgatherBlocks (numproc : Nat) (contrib : Nat → List Nat) : List Nat :=
  (List.range (numproc * numproc)).map (fun i => (contrib (i / numproc)).getD (i % numproc) 0)

/-- `Comm<T>::getMatrix(matrix)` on one rank; `sendcontrib p` and `recvcontrib p` are the
blocks rank `p` contributes to the two all-gathers (the own blocks `sendcount_temp` and
`recvcount_temp` of this rank included, see `getMatrixAll`).  Returns the vector `matrix`
after the call and the runtime calls. -/
def Comm.getMatrix (ctx : Context) (_c : Comm) (matrix : List Nat)
    (sendcontrib recvcontrib : Nat → List Nat) : List Nat × List Call :=
  let sendmatrix := allgatherBlocks ctx.numproc sendcontrib
  let _recvmatrix := allgatherBlocks ctx.numproc recvcontrib
  (matrix ++ (List.range ctx.numproc).flatMap (fun sender =>
      (List.range ctx.numproc).map (fun recver =>
        sendmatrix.getD (sender * ctx.numproc + recver) 0)),
   [Call.allgather .comm_mpi, Call.allgather .comm_mpi])

/-- `getMatrix` called by every rank: each all-gather collects the local totals of all
ranks.  The result on rank `r`. -/
def getMatrixAll (g : Group) (w : World) (r : Nat) (matrix : List Nat) : List Nat :=
  (Comm.getMatrix (g.ctx r) (w r) matrix
    (fun p => sendcount_temp (g.ctx p) (w p))
    (fun p => recvcount_temp (g.ctx p) (w p))).1

/-- Sum of `count` over the registered edges from `s` to `r`. -/
def pairTotal (es : List Edge) (s r : Nat) : Nat :=
  ((es.filter (fun e => e.count != 0 && s == e.sendid && e.recvid == r)).map Edge.count).sum

/-! ## `Comm<T>::start` and `Comm<T>::wait` -/

/-- `Comm<T>::start()`: the runtime calls issued, in program order. -/
def Comm.start (ctx : Context) (c : Comm) : List Call :=
  match c.lib with
  | .MPI =>
    (List.range c.numsend).map (fun send =>
      Call.isend .comm_mpi (c.sendbuf.getD send 0 + c.sendoffset.getD send 0 * c.sizeofT)
        (toInt32 (toSizeT (c.sendcount.getD send 0 * c.sizeofT)))
        (c.sendproc.getD send 0) send) ++
    (List.range c.numrecv).map (fun recv =>
      Call.irecv .comm_mpi (c.recvbuf.getD recv 0 + c.recvoffset.getD recv 0 * c.sizeofT)
        (toInt32 (toSizeT (c.recvcount.getD recv 0 * c.sizeofT)))
        (c.recvproc.getD recv 0) recv)
  | .XCCL =>
    [Call.groupStart] ++
    (List.range c.numsend).map (fun send =>
      Call.xcclSend (c.sendbuf.getD send 0 + c.sendoffset.getD send 0 * c.sizeofT)
        (toSizeT (c.sendcount.getD send 0 * c.sizeofT)) (c.sendproc.getD send 0)) ++
    (List.range c.numrecv).map (fun recv =>
      Call.xcclRecv (c.recvbuf.getD recv 0 + c.recvoffset.getD recv 0 * c.sizeofT)
        (toSizeT (c.recvcount.getD recv 0 * c.sizeofT)) (c.recvproc.getD recv 0)) ++
    [Call.groupEnd]
  | .IPC =>
    (List.range c.numsend).map (fun send =>
      Call.memcpyAsync
        ((c.remotebuf.getD send default).offset (c.remoteoffset.getD send 0 * c.sizeofT))
        ⟨ctx.myid, c.sendbuf.getD send 0 + c.sendoffset.getD send 0 * c.sizeofT⟩
        (toSizeT (c.sendcount.getD send 0 * c.sizeofT)) send)
  | .IPC_get =>
    (List.range c.numsend).map (fun send =>
      Call.send .comm_mpi (c.sendproc.getD send 0) (.ack (c.ack_sender.getD send 0))) ++
    (List.range c.numrecv).flatMap (fun recv =>
      [Call.recv .comm_mpi (c.recvproc.getD recv 0) .ack,
       Call.memcpyAsync
        ⟨ctx.myid, c.recvbuf.getD recv 0 + c.recvoffset.getD recv 0 * c.sizeofT⟩
        ((c.remotebuf.getD recv default).offset (c.remoteoffset.getD recv 0 * c.sizeofT))
        (toSizeT (c.recvcount.getD recv 0 * c.sizeofT)) recv])
  | _ => []

/-- `Comm<T>::wait()`: the runtime calls issued, in program order. -/
def Comm.wait (_ctx : Context) (c : Comm) : List Call :=
  match c.lib with
  | .MPI => [Call.waitall c.numsend .sendrequest, Call.waitall c.numrecv .recvrequest]
  | .XCCL => [Call.xcclSynchronize]
  | .IPC =>
    (List.range c.numsend).flatMap (fun send =>
      [Call.streamSynchronize send,
       Call.send .comm_mpi (c.sendproc.getD send 0) (.ack (c.ack_sender.getD send 0))]) ++
    (List.range c.numrecv).map (fun recv => Call.recv .comm_mpi (c.recvproc.getD recv 0) .ack)
  | .IPC_get => (List.range c.numrecv).map (fun recv => Call.streamSynchronize recv)
  | _ => []

/-! ## Collectives of `commbench.h` (built from `send`/`recv`) -/

/-- `pair(sendbuf, recvbuf, sendid, recvid)` on one rank: the value of `*recvbuf` after the
call and the runtime calls.  `incoming` is what `recv` delivers. -/
def pair {α : Type} (ctx : Context) (sendbuf recvbuf : α) (sendid recvid : Nat) (incoming : α) :
    α × List Call :=
  if sendid = recvid then
    (if ctx.myid = sendid then sendbuf else recvbuf, [])
  else
    (if ctx.myid = recvid then incoming else recvbuf,
     (if ctx.myid = sendid then [Call.ssend .comm_mpi recvid] else []) ++
     (if ctx.myid = recvid then [Call.recv .comm_mpi sendid .value] else []))

/-- `broadcast(sendbuf, recvbuf, root)` on one rank: the value of `*recvbuf` after the call
and the runtime calls.  `temp0` is the indeterminate start value of the local `temp`,
`incoming` what a receive from `root` delivers. -/
def broadcast {α : Type} (ctx : Context) (sendbuf : α) (root : Nat) (incoming temp0 : α) :
    α × List Call :=
  (List.range ctx.numproc).foldl
    (fun st i => ((pair ctx sendbuf st.1 root i incoming).1,
                  st.2 ++ (pair ctx sendbuf st.1 root i incoming).2))
    (temp0, [])

/-- `allgather(sendval, recvbuf)` on one rank: the array `recvbuf` after the call and the
runtime calls.  `sent p` is the value rank `p` passes as `*sendval` in this collective call,
which is what a receive from `p` delivers. -/
def allgather {α : Type} (ctx : Context) (sendval : α) (recvbuf : List α) (sent : Nat → α)
    (temp0 : α) : List α × List Call :=
  (List.range ctx.numproc).foldl
    (fun st root => (st.1.set root (broadcast ctx sendval root (sent root) temp0).1,
                     st.2 ++ (broadcast ctx sendval root (sent root) temp0).2))
    (recvbuf, [])

/-- `allreduce_max(sendbuf, recvbuf)` on one rank: the value of `*recvbuf` after the call
and the runtime calls. -/
def allreduce_max {α : Type} [LinearOrder α] [Inhabited α] (ctx : Context) (sendbuf : α)
    (sent : Nat → α) (temp0 : α) : α × List Call :=
  let temp := allgather ctx sendbuf (List.replicate ctx.numproc default) sent temp0
  ((List.range ctx.numproc).foldl
      (fun max i => if temp.1.getD i default > max then temp.1.getD i default else max)
      sendbuf,
   temp.2)

/-! ## `measure` and `print_stats` -/

/-- The four statistics `measure` returns through its reference parameters.  Durations are
exact rationals (the source uses `double`). -/
structure Stats where
  minTime : ℚ
  medTime : ℚ
  maxTime : ℚ
  avgTime : ℚ

/-- Local variables of `measure` that survive a loop cycle. -/
structure MeasureState where
  times : List ℚ
  starts : List ℚ
  calls : List Call

/-- The value `allreduce_max(&x)` leaves in `x` on this rank in loop cycle `k`, where
`loc k p` is the duration rank `p` measured in that cycle.  (The indeterminate start value
of the local `temp` of `broadcast` is taken as `0`.) -/
def reduced (ctx : Context) (loc : Nat → Nat → ℚ) (k : Nat) : ℚ :=
  (allreduce_max ctx (loc k ctx.myid) (loc k) 0).1

/-- Runtime calls of loop cycle `k` of `measure` (lines 518-526). -/
def cycleCalls (ctx : Context) (c : Comm) (startOf timeOf : Nat → Nat → ℚ) (k : Nat) :
    List Call :=
  [Call.barrier .comm_mpi, Call.wtime] ++ c.start ctx ++ [Call.wtime] ++ c.wait ctx ++
  [Call.wtime, Call.barrier .comm_mpi] ++
  (allreduce_max ctx (startOf k ctx.myid) (startOf k) 0).2 ++
  (allreduce_max ctx (timeOf k ctx.myid) (timeOf k) 0).2

/-- Loop cycle number `k` (from 0) of `measure`, in which `iter = -warmup + k`. -/
def measureBody (ctx : Context) (c : Comm) (warmup : Int) (startOf timeOf : Nat → Nat → ℚ)
    (st : MeasureState) (k : Nat) : MeasureState :=
  let iter : Int := -warmup + k
  let start := allreduce_max ctx (startOf k ctx.myid) (startOf k) 0
  let time := allreduce_max ctx (timeOf k ctx.myid) (timeOf k) 0
  let calls := st.calls ++
    ([Call.barrier .comm_mpi, Call.wtime] ++ c.start ctx ++ [Call.wtime] ++ c.wait ctx ++
     [Call.wtime, Call.barrier .comm_mpi] ++ start.2 ++ time.2)
  if iter < 0 then { st with calls := calls }
  else { times := st.times.set iter.toNat time.1, starts := st.starts.set iter.toNat start.1,
         calls := calls }

/-- State of `measure` after its loop `for (iter = -warmup; iter < numiter; iter++)`, which
runs `numiter + warmup` cycles.  `garbage` is the indeterminate content of the arrays
`times` and `starts`; `startOf k p` and `timeOf k p` are the durations rank `p` measures in
cycle `k`. -/
def measureLoop (ctx : Context) (c : Comm) (warmup numiter : Int)
    (startOf timeOf : Nat → Nat → ℚ) (garbage : Nat → ℚ) : MeasureState :=
  (List.range (numiter + warmup).toNat).foldl (measureBody ctx c warmup startOf timeOf)
    ⟨(List.range numiter.toNat).map garbage, (List.range numiter.toNat).map garbage, []⟩

/-- Lines 554-560 of `measure` and 395-401 of `print_stats`: the statistics read from the
sorted array of `numiter` samples. -/
def statsOf (sorted : List ℚ) (numiter : Int) : Stats :=
  { minTime := sorted.getD 0 0,
    medTime := sorted.getD (numiter / 2).toNat 0,
    maxTime := sorted.getD (numiter - 1).toNat 0,
    avgTime := (List.range numiter.toNat).foldl (fun avg iter => avg + sorted.getD iter 0) 0
                 / numiter }

/-- `CommBench::measure(warmup, numiter, minTime, medTime, maxTime, avgTime, comm)`: the
statistics and the runtime calls.  `std::sort` with the comparison `a < b` is an ascending
sort. -/
def measure (ctx : Context) (c : Comm) (warmup numiter : Int)
    (startOf timeOf : Nat → Nat → ℚ) (garbage : Nat → ℚ) : Stats × List Call :=
  let st := measureLoop ctx c warmup numiter startOf timeOf garbage
  (statsOf (st.times.insertionSort (· ≤ ·)) numiter, st.calls)

/-- `print_stats(times, data)`: the statistics computed from the vector `times`. -/
def print_stats (times : List ℚ) (_data : Nat) : Stats :=
  statsOf (times.insertionSort (· ≤ ·)) (times.length : Int)

/-- The samples that `measure` is meant to evaluate: the reduced durations of the last
`numiter` cycles, in cycle order. -/
def samples (ctx : Context) (warmup numiter : Nat) (timeOf : Nat → Nat → ℚ) : List ℚ :=
  (List.range numiter).map (fun j => reduced ctx timeOf (warmup + j))

/-! ## `Comm<T>::measure(warmup, numiter)`: the data volume -/

/-- Lines 385-387 of `Comm<T>::measure(int, int)`: the local `long count_total`, the sum of
`sendcount[send]` over the outgoing list. -/
def countTotalLocal (c : Comm) : Int :=
  (List.range c.numsend).foldl
    (fun count_total send => toLong (count_total + ((c.sendcount.getD send 0 : Nat) : Int))) 0

/-- `MPI_Allreduce(MPI_IN_PLACE, &count_total, 1, MPI_LONG, MPI_SUM, comm_mpi)`: every rank
obtains the sum, in `long` arithmetic, of the values contributed by ranks `0 .. numproc-1`. -/
def allreduceSumLong (numproc : Nat) (contrib : Nat → Int) : Int :=
  (List.range numproc).foldl (fun acc p => toLong (acc + contrib p)) 0

/-- Line 400 of `Comm<T>::measure(int, int, size_t)`: `size_t data = count * sizeof(T)`,
where `count` is the reduced `count_total` passed as a `size_t`. -/
def Comm.measureData (c : Comm) (count_total : Int) : Nat :=
  toSizeT (longToSizeT count_total * c.sizeofT)

/-- The data volume `Comm<T>::measure(warmup, numiter)` uses on rank `r` when every rank
calls it. -/
def dataVolume (g : Group) (w : World) (r : Nat) : Nat :=
  (w r).measureData (allreduceSumLong g.numproc (fun p => countTotalLocal (w p)))

/-- Sum of `count` over all registered edges of the pattern. -/
def totalCount (es : List Edge) : Nat :=
  ((es.filter (fun e => e.count != 0)).map Edge.count).sum

/-- The end-to-end scenario of the specification: two ranks, message passing, elements of
four bytes. -/
def twoRanksMPI : Group := ⟨2, 0, .MPI, 4⟩

/-- One edge from rank 0 to rank 1 of 1024 elements; every rank passes the buffers at
addresses 4096 (send) and 16384 (receive). -/
def oneEdge : List Edge :=
  [⟨1024, 0, 1, fun _ => 4096, fun _ => 0, fun _ => 16384, fun _ => 0⟩]

/-- One edge from rank 0 to rank 1 of `2^62` elements, the same arguments on every rank. -/
def oneHugeEdge : List Edge :=
  [⟨2 ^ 62, 0, 1, fun _ => 0, fun _ => 0, fun _ => 0, fun _ => 0⟩]

/-- Sample context, `Comm` and timings for the measurement examples. -/
def demoCtx : Context := ⟨0, 2, 0⟩

/-- A fresh message-passing `Comm`. -/
def demoComm : Comm := Comm.new .MPI 4 0 0

/-- Duration measured by rank `p` in cycle `k` in the measurement examples. -/
def demoTime (k p : Nat) : ℚ := (((7 * k + 3 * p) % 11 : Nat) : ℚ)

/-- One value per rank for the reduction example. -/
def demoVals (p : Nat) : Nat := [3, 9, 4].getD p 0

/-! ## Data movement of one `start(); wait()` cycle

The transports are external to the repository.  Their effect on the buffers is modelled as
follows: a device copy issued with `memcpyAsync` is complete once its stream has been
synchronized; a non-blocking send to rank `r` is matched with the receive that `r` posts
for the sender, in posting order (messages between two ranks on one communicator do not
overtake); a completed transfer copies the bytes like `memcpy`. -/

/-- Device memory of all processes: the byte at address `x` in process `p`. -/
abbrev Mem := Nat → Nat → Nat

/-- One completed transfer of `bytes` bytes from `src` to `dst`. -/
structure Copy where
  dst : DevPtr
  src : DevPtr
  bytes : Nat
  deriving DecidableEq, Repr

/-- Memory after one transfer: the destination range holds the bytes the source range held
before. -/
def Mem.copy (m : Mem) (c : Copy) : Mem :=
  fun p x =>
    if p = c.dst.proc ∧ c.dst.addr ≤ x ∧ x < c.dst.addr + c.bytes then
      m c.src.proc (c.src.addr + (x - c.dst.addr))
    else m p x

/-- Memory after a sequence of transfers, carried out one after the other. -/
def Mem.run (m : Mem) (cs : List Copy) : Mem := cs.foldl Mem.copy m

/-- The device copies among the calls of a rank, in issue order. -/
def deviceCopies : List Call → List Copy
  | [] => []
  | Call.memcpyAsync dst src bytes _ :: rest => ⟨dst, src, bytes⟩ :: deviceCopies rest
  | _ :: rest => deviceCopies rest

/-- Memory after every rank has executed `start()` and `wait()` under a device-IPC backend:
the copies issued by ranks `0 .. numproc-1` are carried out, rank by rank in issue order. -/
def cycleIPC (g : Group) (w : World) (m : Mem) : Mem :=
  m.run ((List.range g.numproc).flatMap (fun r =>
    deviceCopies ((w r).start (g.ctx r) ++ (w r).wait (g.ctx r))))

/-- Buffer address and byte count of the non-blocking sends a rank addresses to `dest`, in
posting order. -/
def isendsTo (dest : Nat) : List Call → List (Nat × Int)
  | [] => []
  | Call.isend _ buf bytes d _ :: rest =>
    if d = dest then (buf, bytes) :: isendsTo dest rest else isendsTo dest rest
  | _ :: rest => isendsTo dest rest

/-- Buffer address and byte count of the non-blocking receives a rank posts for messages
from `src`, in posting order. -/
def irecvsFrom (src : Nat) : List Call → List (Nat × Int)
  | [] => []
  | Call.irecv _ buf bytes s _ :: rest =>
    if s = src then (buf, bytes) :: irecvsFrom src rest else irecvsFrom src rest
  | _ :: rest => irecvsFrom src rest

/-- Transfer completed by a send of rank `s` matched with a receive of rank `r`.  A negative
count, or a message longer than the receive buffer, is an error of the message-passing
runtime (fatal by default): no result. -/
def matchPair (s r : Nat) (snd rcv : Nat × Int) : Option Copy :=
  if 0 ≤ snd.2 ∧ snd.2 ≤ rcv.2 then some ⟨⟨r, rcv.1⟩, ⟨s, snd.1⟩, snd.2.toNat⟩ else none

/-- Transfers between `s` and `r`: the `i`-th send is matched with the `i`-th receive.  A
receive without a send never completes: no result. -/
def matchMPI (s r : Nat) : List (Nat × Int) → List (Nat × Int) → Option (List Copy)
  | _, [] => some []
  | [], _ :: _ => none
  | snd :: sends, rcv :: recvs =>
    match matchPair s r snd rcv, matchMPI s r sends recvs with
    | some c, some cs => some (c :: cs)
    | _, _ => none

/-- All transfers succeed: their concatenation. -/
def collect : List (Option (List Copy)) → Option (List Copy)
  | [] => some []
  | none :: _ => none
  | some cs :: rest =>
    match collect rest with
    | some ds => some (cs ++ ds)
    | none => none

/-- The transfers of one cycle under the message-passing backend, receiver by receiver and
for each receiver sender by sender. -/
def mpiCopies (g : Group) (w : World) : Option (List Copy) :=
  collect ((List.range g.numproc).flatMap (fun r =>
    (List.range g.numproc).map (fun s =>
      matchMPI s r (isendsTo r ((w s).start (g.ctx s))) (irecvsFrom s ((w r).start (g.ctx r))))))

/-- Memory after every rank has executed `start()` and `wait()` under the message-passing
backend, when all ranks return. -/
def cycleMPI (g : Group) (w : World) (m : Mem) : Option Mem :=
  match mpiCopies g w with
  | some cs => some (m.run cs)
  | none => none

/-- Where the data of an edge is read: `sendbuf + sendoffset` as passed on the sender. -/
def Edge.src (sizeofT : Nat) (e : Edge) : DevPtr :=
  ⟨e.sendid, e.sendbuf e.sendid + e.sendoffset e.sendid * sizeofT⟩

/-- Where the data of an edge is written: `recvbuf + recvoffset` as passed on the receiver. -/
def Edge.dst (sizeofT : Nat) (e : Edge) : DevPtr :=
  ⟨e.recvid, e.recvbuf e.recvid + e.recvoffset e.recvid * sizeofT⟩

/-- The transfer an edge stands for. -/
def Edge.copy (sizeofT : Nat) (e : Edge) : Copy :=
  ⟨e.dst sizeofT, e.src sizeofT, e.count * sizeofT⟩

/-- After the cycle the receive range of the edge holds what its send range held in `m0`. -/
def Edge.delivered (sizeofT : Nat) (e : Edge) (m0 m1 : Mem) : Prop :=
  ∀ k, k < e.count * sizeofT →
    m1 e.recvid ((e.dst sizeofT).addr + k) = m0 e.sendid ((e.src sizeofT).addr + k)

/-- Three ranks, elements of one byte, constructed with the backend `lib`. -/
def threeRanks (lib : library) : Group := ⟨3, 0, lib, 1⟩

/-- The fan-in of the full group-to-group test: ranks 0 and 1 both send one element from
their buffer at address 0 into the receive buffer of rank 2 at address 8, offset 0. -/
def fanIn : List Edge :=
  [⟨1, 0, 2, fun _ => 0, fun _ => 0, fun _ => 8, fun _ => 0⟩,
   ⟨1, 1, 2, fun _ => 0, fun _ => 0, fun _ => 8, fun _ => 0⟩]

/-- Memory in which every byte of rank `p` holds `p + 1`. -/
def rankStamp : Mem := fun p _ => p + 1

/-- A relay: rank 0 sends one element into the buffer of rank 1 at address 0, and rank 1
sends one element from that same buffer to rank 2. -/
def relay : List Edge :=
  [⟨1, 0, 1, fun _ => 0, fun _ => 0, fun _ => 0, fun _ => 0⟩,
   ⟨1, 1, 2, fun _ => 0, fun _ => 0, fun _ => 8, fun _ => 0⟩]

/-- One edge from rank 0 to rank 1 of `2^31` one-byte elements. -/
def twoGiBEdge : List Edge :=
  [⟨2 ^ 31, 0, 1, fun _ => 0, fun _ => 0, fun _ => 0, fun _ => 0⟩]

/-- A group of two ranks without transport (backend `dummy`), `sizeof(T) = 4`. -/
def twoRanksDummy : Group := ⟨2, 0, .dummy, 4⟩

/-- Two edges from rank 0 to rank 1 of `2^63` elements each, the same arguments on every
rank. -/
def twoHugeEdges : List Edge :=
  [⟨2 ^ 63, 0, 1, fun _ => 0, fun _ => 0, fun _ => 0, fun _ => 0⟩,
   ⟨2 ^ 63, 0, 1, fun _ => 0, fun _ => 0, fun _ => 0, fun _ => 0⟩]

/-! ## Runtime calls of a registered pattern -/

/-- Runtime calls rank `r` issues in the collective call `e`. -/
def addAllCalls (g : Group) (w : World) (e : Edge) (r : Nat) : List Call :=
  (Comm.add (g.ctx r) (w r) (e.argsOn r) (delivered g w e r)).2

/-- The call sends a memory handle. -/
def Call.isHandleSend : Call → Bool
  | Call.send _ _ (Payload.memhandle _) => true
  | _ => false

/-- The call waits for a memory handle. -/
def Call.isHandleRecv : Call → Bool
  | Call.recv _ _ Kind.memhandle => true
  | _ => false

/-- The call opens a memory handle. -/
def Call.isHandleOpen : Call → Bool
  | Call.ipcOpenMemHandle _ => true
  | _ => false

/-- The call exports a memory handle. -/
def Call.isHandleExport : Call → Bool
  | Call.ipcGetMemHandle _ => true
  | _ => false

/-- The call sends a point-to-point message. -/
def Call.isSend : Call → Bool
  | Call.send _ _ _ => true
  | Call.ssend _ _ => true
  | Call.isend _ _ _ _ _ => true
  | _ => false

/-- The call receives a point-to-point message. -/
def Call.isRecv : Call → Bool
  | Call.recv _ _ _ => true
  | Call.irecv _ _ _ _ _ => true
  | _ => false

/-- Handle exchanges completed in the collective call `e`: the handles opened by ranks
`0 .. numproc-1`. -/
def exchangesAt (g : Group) (w : World) (e : Edge) : Nat :=
  ((List.range g.numproc).map (fun r => (addAllCalls g w e r).countP Call.isHandleOpen)).sum

/-- Handle exchanges completed over the whole group while the pattern `es` is registered. -/
def handleExchanges (g : Group) : World → List Edge → Nat
  | _, [] => 0
  | w, e :: es => exchangesAt g w e + handleExchanges g (addAll g w e) es

/-- Memory handles sent over the whole group while the pattern `es` is registered. -/
def handleSends (g : Group) : World → List Edge → Nat
  | _, [] => 0
  | w, e :: es =>
    ((List.range g.numproc).map (fun r => (addAllCalls g w e r).countP Call.isHandleSend)).sum
      + handleSends g (addAll g w e) es

/-- The edge needs a handle exchange: non-zero count and two different ranks. -/
def Edge.needsExchange (e : Edge) : Bool := e.count != 0 && e.sendid != e.recvid

/-- What the target rank `t` of a handle exchange does for the buffer `buf` at `offset`:
export the handle, send it to the other rank `o`, then send the offset. -/
def targetCalls (t o buf offset : Nat) : List Call :=
  [Call.ipcGetMemHandle buf,
   Call.send .comm_mpi o (.memhandle ⟨t, buf⟩),
   Call.send .comm_mpi o (.size offset)]

/-- What the other rank of a handle exchange does: create its stream `k`, receive the handle
from the target `t`, open it, then receive the offset. -/
def openerCalls (t k : Nat) (h : DevPtr) : List Call :=
  [Call.streamCreate k,
   Call.recv .comm_mpi t .memhandle,
   Call.ipcOpenMemHandle h,
   Call.recv .comm_mpi t .size]

/-- The all-to-all pattern of four ranks without self-edges: twelve edges of one element,
every rank passing the buffers at addresses 0 (send) and 64 (receive). -/
def allToAll4 : List Edge :=
  ((List.range 4).flatMap (fun s => (List.range 4).map (fun r => (s, r)))).filterMap
    (fun sr => if sr.1 = sr.2 then none
      else some ⟨1, sr.1, sr.2, fun _ => 0, fun _ => 0, fun _ => 64, fun _ => 0⟩)

/-- Four ranks with the device-IPC push backend, elements of four bytes. -/
def fourRanksPush : Group := ⟨4, 0, .IPC, 4⟩

/-- One edge from rank 1 to rank 2 of one element. -/
def edge12 : Edge := ⟨1, 1, 2, fun _ => 0, fun _ => 0, fun _ => 8, fun _ => 0⟩

/-- A self-edge of rank 1 of one element, from its buffer at 0, offset 3, to its buffer at 8,
offset 5. -/
def selfEdge1 : Edge := ⟨1, 1, 1, fun _ => 0, fun _ => 3, fun _ => 8, fun _ => 5⟩


/-- One edge from rank 1 to rank 2 of one element: the sender passes `sendoffset = 3`, the
receiver `recvoffset = 5`; the other ranks pass zeros. -/
def edge12Offset : Edge :=
  ⟨1, 1, 2, fun _ => 0, fun r => if r = 1 then 3 else 0, fun _ => 16,
   fun r => if r = 2 then 5 else 0⟩

/-! ## Acknowledgments -/

/-- Number of acknowledgments among the calls that are sent to rank `dest`. -/
def acksTo (dest : Nat) : List Call → Nat
  | [] => 0
  | Call.send _ d (Payload.ack _) :: rest => (if d = dest then 1 else 0) + acksTo dest rest
  | _ :: rest => acksTo dest rest

/-- Number of blocking receives among the calls that wait for an acknowledgment of rank
`src`. -/
def acksFrom (src : Nat) : List Call → Nat
  | [] => 0
  | Call.recv _ s Kind.ack :: rest => (if s = src then 1 else 0) + acksFrom src rest
  | _ :: rest => acksFrom src rest

/-- Three ranks with the pull backend after registering the edge 1 -> 2. -/
def pullWorld : World := registerAll (threeRanks .IPC_get) ((threeRanks .IPC_get).fresh 0 0) [edge12]

/-- Three ranks with the push backend after registering the fan-in into rank 2. -/
def pushWorld : World := registerAll (threeRanks .IPC) ((threeRanks .IPC).fresh 0 0) fanIn

/-! ## `Comm<T>::report` and the communicator of a call -/

/-- The communicator a message-passing call is issued on; `none` for a call that is not a
message-passing call. -/
def Call.communicator : Call → Option Communicator
  | Call.barrier comm => some comm
  | Call.send comm _ _ => some comm
  | Call.ssend comm _ => some comm
  | Call.recv comm _ _ => some comm
  | Call.isend comm _ _ _ _ => some comm
  | Call.irecv comm _ _ _ _ => some comm
  | Call.allreduce comm => some comm
  | Call.allgather comm => some comm
  | _ => none

/-- The call communicates on `MPI_COMM_WORLD`. -/
def Call.onWorld (c : Call) : Bool := c.communicator == some Communicator.MPI_COMM_WORLD

/-- `Comm<T>::report()` (lines 410-467): the runtime calls.  `getMatrix` is called on an
empty vector; then `sendTotal` and `recvTotal` are reduced over `comm_mpi` (lines 439-440),
and the number of buffers and their total count are gathered with `MPI_Allgather` on
`MPI_COMM_WORLD` (lines 444 and 449). -/
def Comm.report (ctx : Context) (c : Comm) (sendcontrib recvcontrib : Nat → List Nat) :
    List Call :=
  (c.getMatrix ctx [] sendcontrib recvcontrib).2 ++
  [Call.allreduce .comm_mpi, Call.allreduce .comm_mpi,
   Call.allgather .MPI_COMM_WORLD, Call.allgather .MPI_COMM_WORLD]

/-- `Comm<T>::measure(warmup, numiter)` (lines 383-408): the runtime calls.  The local
`count_total` is reduced over `comm_mpi`, then `measure(warmup, numiter, count)` calls
`report()` and `CommBench::measure`. -/
def Comm.measure (ctx : Context) (c : Comm) (warmup numiter : Int)
    (sendcontrib recvcontrib : Nat → List Nat) (startOf timeOf : Nat → Nat → ℚ)
    (garbage : Nat → ℚ) : List Call :=
  [Call.allreduce .comm_mpi] ++ c.report ctx sendcontrib recvcontrib ++
  (CommBench.measure ctx c warmup numiter startOf timeOf garbage).2

/-! ## `init` and `finalize` -/

/-- Calls of `init()` and `finalize()` to the message-passing runtime and the device
setup. -/
inductive BootCall where
  | MPI_Initialized
  | MPI_Init
  | MPI_Comm_dup
  | MPI_Comm_rank
  | MPI_Comm_size
  | setup_gpu
  | MPI_Finalized
  | MPI_Finalize
  deriving DecidableEq, Repr

/-- What `init()` and `finalize()` read and write in one process: their function-local
statics `init` and `finalize`, the state of the message-passing runtime as reported by
`MPI_Initialized` and `MPI_Finalized`, and the number of communicators duplicated into
`comm_mpi` so far. -/
structure Process where
  init : Bool
  finalize : Bool
  mpi_initialized : Bool
  mpi_finalized : Bool
  duplicated : Nat
  deriving DecidableEq, Repr

/-- `init()` of `commbench.h` (lines 273-350, build with `USE_MPI`, without `CAP_GASNET`):
the process state after the call and the calls issued. -/
def init (p : Process) : Process × List BootCall :=
  if p.init then (p, [])
  else
    let init_mpi := p.mpi_initialized
    ({ p with init := true, mpi_initialized := true, duplicated := p.duplicated + 1 },
     [BootCall.MPI_Initialized] ++ (if !init_mpi then [BootCall.MPI_Init] else []) ++
     [BootCall.MPI_Comm_dup, BootCall.MPI_Comm_rank, BootCall.MPI_Comm_size,
      BootCall.setup_gpu])

/-- `finalize()` of `commbench.h` (lines 352-368, build with `USE_MPI`, without
`CAP_GASNET`): the process state after the call and the calls issued. -/
def finalize (p : Process) : Process × List BootCall :=
  if p.finalize then (p, [])
  else
    let finalize_mpi := p.mpi_finalized
    ({ p with finalize := true, mpi_finalized := true },
     [BootCall.MPI_Finalized] ++ (if !finalize_mpi then [BootCall.MPI_Finalize] else []))

/-- Three ranks with the message-passing backend after registering one edge 0 -> 1 of `2^31`
one-byte elements. -/
def mpiWorld2GiB : World :=
  registerAll (threeRanks .MPI) ((threeRanks .MPI).fresh 0 0) twoGiBEdge

/-- Two ranks with the message-passing backend after registering one edge 0 -> 1 of 1024
four-byte elements. -/
def mpiWorldOneEdge : World := registerAll twoRanksMPI (twoRanksMPI.fresh 0 0) oneEdge

/-- The call completes requests. -/
def Call.isWait : Call → Bool
  | Call.waitall _ _ => true
  | _ => false

/-! ## The full group-to-group test (`test_FULL.h`) -/

/-- What the test body reads: the process count, the group sizes, the element count, the size
of `Type`, and the addresses of the two device buffers allocated on each rank. -/
structure TestFull where
  numproc : Nat
  groupsize : Nat
  subgroupsize : Nat
  count : Nat
  sizeofType : Nat
  sendbuf_d : Nat → Nat
  recvbuf_d : Nat → Nat

/-- Line 2: `int numgroup = numproc / groupsize`. -/
def TestFull.numgroup (t : TestFull) : Nat := t.numproc / t.groupsize

/-- The call `bench.add(sendbuf_d, 0, recvbuf_d, 0, count, sender, recver)`. -/
def TestFull.call (t : TestFull) (sender recver : Nat) : Edge :=
  ⟨t.count, sender, recver, t.sendbuf_d, fun _ => 0, t.recvbuf_d, fun _ => 0⟩

/-- Lines 22-44: the `add` calls issued by the loop nest of the given direction, in program
order (`recvgroup` runs from 1 to `numgroup - 1`). -/
def TestFull.calls (t : TestFull) (direction : Nat) : List Edge :=
  match direction with
  | 1 =>
    (List.range t.subgroupsize).flatMap (fun send =>
      (List.range' 1 (t.numgroup - 1)).flatMap (fun recvgroup =>
        (List.range t.subgroupsize).map (fun recv =>
          t.call send (recvgroup * t.groupsize + recv))))
  | 2 =>
    (List.range t.subgroupsize).flatMap (fun send =>
      (List.range' 1 (t.numgroup - 1)).flatMap (fun recvgroup =>
        (List.range t.subgroupsize).flatMap (fun recv =>
          [t.call send (recvgroup * t.groupsize + recv),
           t.call (recvgroup * t.groupsize + recv) send])))
  | _ => []

/-- Lines 31 and 42: the `double data` the test reports, in GB.  The product
`count * sizeof(Type)` (`2 * count * sizeof(Type)` in direction 2) is evaluated in `size_t`;
the division and the remaining products are evaluated in `double`, taken as exact
rationals. -/
def TestFull.data (t : TestFull) (direction : Nat) : ℚ :=
  match direction with
  | 1 =>
    (toSizeT (t.count * t.sizeofType) : ℚ) / 1000000000 * t.subgroupsize
      * (((t.numgroup : Int) - 1 : Int) : ℚ) * t.subgroupsize
  | 2 =>
    (toSizeT (toSizeT (2 * t.count) * t.sizeofType) : ℚ) / 1000000000 * t.subgroupsize
      * (((t.numgroup : Int) - 1 : Int) : ℚ) * t.subgroupsize
  | _ => 0

/-- One evaluation of a subscript `v[index]` on a vector `v` of `size` elements. -/
structure Access where
  index : Nat
  size : Nat
  deriving DecidableEq, Repr

/-- The subscript is within the vector. -/
def Access.inRange (a : Access) : Bool := decide (a.index < a.size)

/-- The subscripts `Comm<T>::start()` evaluates (lines 499-551), in program order. -/
def Comm.startAccesses (c : Comm) : List Access :=
  match c.lib with
  | .MPI =>
    (List.range c.numsend).flatMap (fun send =>
      [⟨send, c.sendbuf.length⟩, ⟨send, c.sendoffset.length⟩, ⟨send, c.sendcount.length⟩,
       ⟨send, c.sendproc.length⟩, ⟨send, c.sendrequest.length⟩]) ++
    (List.range c.numrecv).flatMap (fun recv =>
      [⟨recv, c.recvbuf.length⟩, ⟨recv, c.recvoffset.length⟩, ⟨recv, c.recvcount.length⟩,
       ⟨recv, c.recvproc.length⟩, ⟨recv, c.recvrequest.length⟩])
  | .XCCL =>
    (List.range c.numsend).flatMap (fun send =>
      [⟨send, c.sendbuf.length⟩, ⟨send, c.sendoffset.length⟩, ⟨send, c.sendcount.length⟩,
       ⟨send, c.sendproc.length⟩]) ++
    (List.range c.numrecv).flatMap (fun recv =>
      [⟨recv, c.recvbuf.length⟩, ⟨recv, c.recvoffset.length⟩, ⟨recv, c.recvcount.length⟩,
       ⟨recv, c.recvproc.length⟩])
  | .IPC =>
    (List.range c.numsend).flatMap (fun send =>
      [⟨send, c.remotebuf.length⟩, ⟨send, c.remoteoffset.length⟩, ⟨send, c.sendbuf.length⟩,
       ⟨send, c.sendoffset.length⟩, ⟨send, c.sendcount.length⟩, ⟨send, c.stream_ipc.length⟩])
  | .IPC_get =>
    (List.range c.numsend).flatMap (fun send =>
      [⟨send, c.ack_sender.length⟩, ⟨send, c.sendproc.length⟩]) ++
    (List.range c.numrecv).flatMap (fun recv =>
      [⟨recv, c.ack_recver.length⟩, ⟨recv, c.recvproc.length⟩, ⟨recv, c.recvbuf.length⟩,
       ⟨recv, c.recvoffset.length⟩, ⟨recv, c.remotebuf.length⟩, ⟨recv, c.remoteoffset.length⟩,
       ⟨recv, c.recvcount.length⟩, ⟨recv, c.stream_ipc.length⟩])
  | _ => []

/-- The subscripts `Comm<T>::wait()` evaluates (lines 553-597), in program order;
`MPI_Waitall(n, v.data(), ...)` reads the first `n` elements of `v`. -/
def Comm.waitAccesses (c : Comm) : List Access :=
  match c.lib with
  | .MPI =>
    (List.range c.numsend).map (fun send => ⟨send, c.sendrequest.length⟩) ++
    (List.range c.numrecv).map (fun recv => ⟨recv, c.recvrequest.length⟩)
  | .IPC =>
    (List.range c.numsend).flatMap (fun send =>
      [⟨send, c.stream_ipc.length⟩, ⟨send, c.ack_sender.length⟩, ⟨send, c.sendproc.length⟩]) ++
    (List.range c.numrecv).flatMap (fun recv =>
      [⟨recv, c.ack_recver.length⟩, ⟨recv, c.recvproc.length⟩])
  | .IPC_get => (List.range c.numrecv).map (fun recv => ⟨recv, c.stream_ipc.length⟩)
  | _ => []

/-- The subscripts `Comm<T>::getMatrix` evaluates (lines 471-484): the registries and, with
the rank read from `sendproc` and `recvproc`, the vectors `sendcount_temp` and
`recvcount_temp` of `numproc` elements, then `sendmatrix` of `numproc * numproc`
elements. -/
def Comm.getMatrixAccesses (ctx : Context) (c : Comm) : List Access :=
  (List.range c.numsend).flatMap (fun send =>
    [⟨send, c.sendproc.length⟩, ⟨c.sendproc.getD send 0, ctx.numproc⟩,
     ⟨send, c.sendcount.length⟩]) ++
  (List.range c.numrecv).flatMap (fun recv =>
    [⟨recv, c.recvproc.length⟩, ⟨c.recvproc.getD recv 0, ctx.numproc⟩,
     ⟨recv, c.recvcount.length⟩]) ++
  (List.range ctx.numproc).flatMap (fun sender =>
    (List.range ctx.numproc).map (fun recver =>
      ⟨sender * ctx.numproc + recver, ctx.numproc * ctx.numproc⟩))

/-- The lengths of the registries agree with the counters `numsend` and `numrecv`, for the
registries the backend of the `Comm` maintains. -/
def Comm.lengthsAgree (c : Comm) : Prop :=
  (c.sendbuf.length = c.numsend ∧ c.sendproc.length = c.numsend ∧
   c.sendcount.length = c.numsend ∧ c.sendoffset.length = c.numsend) ∧
  (c.recvbuf.length = c.numrecv ∧ c.recvproc.length = c.numrecv ∧
   c.recvcount.length = c.numrecv ∧ c.recvoffset.length = c.numrecv) ∧
  (c.lib = .MPI → c.sendrequest.length = c.numsend ∧ c.recvrequest.length = c.numrecv) ∧
  (c.lib = .IPC → c.ack_sender.length = c.numsend ∧ c.remotebuf.length = c.numsend ∧
     c.remoteoffset.length = c.numsend ∧ c.stream_ipc.length = c.numsend ∧
     c.ack_recver.length = c.numrecv) ∧
  (c.lib = .IPC_get → c.ack_sender.length = c.numsend ∧ c.ack_recver.length = c.numrecv ∧
     c.remotebuf.length = c.numrecv ∧ c.remoteoffset.length = c.numrecv ∧
     c.stream_ipc.length = c.numrecv)

/-- Rank 0 of two ranks, `printid = -1` (no report), after one call of `add` that names the
receiver rank 7. -/
def strayComm : Comm :=
  Comm.addSeq ⟨0, 2, -1⟩ (Comm.new .dummy 4 0 0) [(⟨0, 0, 0, 0, 1, 0, 7⟩, default)]

/-- Rank 0 of three ranks under the push backend after a self-edge and an edge to rank 1. -/
def mixedComm : Comm :=
  Comm.addSeq ⟨0, 3, 0⟩ (Comm.new .IPC 4 0 0)
    [(⟨0, 0, 64, 0, 1, 0, 0⟩, default), (⟨0, 0, 64, 0, 1, 0, 1⟩, ⟨⟨1, 64⟩, 0⟩)]

/-! # Theorems -/

/-! ## One call of `add` -/

theorem addSender_lib (ctx : Context) (c : Comm) (a : AddArgs) (rx : HandleMsg) :
    (addSender ctx c a rx).1.lib = c.lib := by
  unfold addSender; split <;> (try split) <;> rfl

theorem addRecver_lib (ctx : Context) (c : Comm) (a : AddArgs) (rx : HandleMsg) :
    (addRecver ctx c a rx).1.lib = c.lib := by
  unfold addRecver; split <;> (try split) <;> rfl

theorem add_lib (ctx : Context) (c : Comm) (a : AddArgs) (rx : HandleMsg) :
    (Comm.add ctx c a rx).1.lib = c.lib := by
  simp only [Comm.add, AddArgs.isOut, AddArgs.isIn]
  split_ifs <;> simp_all [addSender_lib, addRecver_lib]

theorem addSender_sizeofT (ctx : Context) (c : Comm) (a : AddArgs) (rx : HandleMsg) :
    (addSender ctx c a rx).1.sizeofT = c.sizeofT := by
  unfold addSender; split <;> (try split) <;> rfl

theorem addRecver_sizeofT (ctx : Context) (c : Comm) (a : AddArgs) (rx : HandleMsg) :
    (addRecver ctx c a rx).1.sizeofT = c.sizeofT := by
  unfold addRecver; split <;> (try split) <;> rfl

theorem add_sizeofT (ctx : Context) (c : Comm) (a : AddArgs) (rx : HandleMsg) :
    (Comm.add ctx c a rx).1.sizeofT = c.sizeofT := by
  simp only [Comm.add, AddArgs.isOut, AddArgs.isIn]
  split_ifs <;> simp_all [addSender_sizeofT, addRecver_sizeofT]

theorem addSender_benchid (ctx : Context) (c : Comm) (a : AddArgs) (rx : HandleMsg) :
    (addSender ctx c a rx).1.benchid = c.benchid := by
  unfold addSender; split <;> (try split) <;> rfl

theorem addRecver_benchid (ctx : Context) (c : Comm) (a : AddArgs) (rx : HandleMsg) :
    (addRecver ctx c a rx).1.benchid = c.benchid := by
  unfold addRecver; split <;> (try split) <;> rfl

theorem add_benchid (ctx : Context) (c : Comm) (a : AddArgs) (rx : HandleMsg) :
    (Comm.add ctx c a rx).1.benchid = c.benchid := by
  simp only [Comm.add, AddArgs.isOut, AddArgs.isIn]
  split_ifs <;> simp_all [addSender_benchid, addRecver_benchid]

theorem addSender_numsend (ctx : Context) (c : Comm) (a : AddArgs) (rx : HandleMsg) :
    (addSender ctx c a rx).1.numsend = c.numsend + 1 := by
  unfold addSender; split <;> (try split) <;> rfl

theorem addRecver_numsend (ctx : Context) (c : Comm) (a : AddArgs) (rx : HandleMsg) :
    (addRecver ctx c a rx).1.numsend = c.numsend := by
  unfold addRecver; split <;> (try split) <;> rfl

theorem add_numsend (ctx : Context) (c : Comm) (a : AddArgs) (rx : HandleMsg) :
    (Comm.add ctx c a rx).1.numsend = c.numsend + (if a.isOut ctx.myid then 1 else 0) := by
  simp only [Comm.add, AddArgs.isOut, AddArgs.isIn]
  split_ifs <;> simp_all [addSender_numsend, addRecver_numsend]

theorem addSender_numrecv (ctx : Context) (c : Comm) (a : AddArgs) (rx : HandleMsg) :
    (addSender ctx c a rx).1.numrecv = c.numrecv := by
  unfold addSender; split <;> (try split) <;> rfl

theorem addRecver_numrecv (ctx : Context) (c : Comm) (a : AddArgs) (rx : HandleMsg) :
    (addRecver ctx c a rx).1.numrecv = c.numrecv + 1 := by
  unfold addRecver; split <;> (try split) <;> rfl

theorem add_numrecv (ctx : Context) (c : Comm) (a : AddArgs) (rx : HandleMsg) :
    (Comm.add ctx c a rx).1.numrecv = c.numrecv + (if a.isIn ctx.myid then 1 else 0) := by
  simp only [Comm.add, AddArgs.isOut, AddArgs.isIn]
  split_ifs <;> simp_all [addSender_numrecv, addRecver_numrecv]

theorem addSender_sendbuf (ctx : Context) (c : Comm) (a : AddArgs) (rx : HandleMsg) :
    (addSender ctx c a rx).1.sendbuf = c.sendbuf ++ [a.sendbuf] := by
  unfold addSender; split <;> (try split) <;> rfl

theorem addRecver_sendbuf (ctx : Context) (c : Comm) (a : AddArgs) (rx : HandleMsg) :
    (addRecver ctx c a rx).1.sendbuf = c.sendbuf := by
  unfold addRecver; split <;> (try split) <;> rfl

theorem add_sendbuf (ctx : Context) (c : Comm) (a : AddArgs) (rx : HandleMsg) :
    (Comm.add ctx c a rx).1.sendbuf = c.sendbuf ++ (if a.isOut ctx.myid then [a.sendbuf] else []) := by
  simp only [Comm.add, AddArgs.isOut, AddArgs.isIn]
  split_ifs <;> simp_all [addSender_sendbuf, addRecver_sendbuf]

theorem addSender_sendproc (ctx : Context) (c : Comm) (a : AddArgs) (rx : HandleMsg) :
    (addSender ctx c a rx).1.sendproc = c.sendproc ++ [a.recvid] := by
  unfold addSender; split <;> (try split) <;> rfl

theorem addRecver_sendproc (ctx : Context) (c : Comm) (a : AddArgs) (rx : HandleMsg) :
    (addRecver ctx c a rx).1.sendproc = c.sendproc := by
  unfold addRecver; split <;> (try split) <;> rfl

theorem add_sendproc (ctx : Context) (c : Comm) (a : AddArgs) (rx : HandleMsg) :
    (Comm.add ctx c a rx).1.sendproc = c.sendproc ++ (if a.isOut ctx.myid then [a.recvid] else []) := by
  simp only [Comm.add, AddArgs.isOut, AddArgs.isIn]
  split_ifs <;> simp_all [addSender_sendproc, addRecver_sendproc]

theorem addSender_sendcount (ctx : Context) (c : Comm) (a : AddArgs) (rx : HandleMsg) :
    (addSender ctx c a rx).1.sendcount = c.sendcount ++ [a.count] := by
  unfold addSender; split <;> (try split) <;> rfl

theorem addRecver_sendcount (ctx : Context) (c : Comm) (a : AddArgs) (rx : HandleMsg) :
    (addRecver ctx c a rx).1.sendcount = c.sendcount := by
  unfold addRecver; split <;> (try split) <;> rfl

theorem add_sendcount (ctx : Context) (c : Comm) (a : AddArgs) (rx : HandleMsg) :
    (Comm.add ctx c a rx).1.sendcount = c.sendcount ++ (if a.isOut ctx.myid then [a.count] else []) := by
  simp only [Comm.add, AddArgs.isOut, AddArgs.isIn]
  split_ifs <;> simp_all [addSender_sendcount, addRecver_sendcount]

theorem addSender_sendoffset (ctx : Context) (c : Comm) (a : AddArgs) (rx : HandleMsg) :
    (addSender ctx c a rx).1.sendoffset = c.sendoffset ++ [a.sendoffset] := by
  unfold addSender; split <;> (try split) <;> rfl

theorem addRecver_sendoffset (ctx : Context) (c : Comm) (a : AddArgs) (rx : HandleMsg) :
    (addRecver ctx c a rx).1.sendoffset = c.sendoffset := by
  unfold addRecver; split <;> (try split) <;> rfl

theorem add_sendoffset (ctx : Context) (c : Comm) (a : AddArgs) (rx : HandleMsg) :
    (Comm.add ctx c a rx).1.sendoffset = c.sendoffset ++ (if a.isOut ctx.myid then [a.sendoffset] else []) := by
  simp only [Comm.add, AddArgs.isOut, AddArgs.isIn]
  split_ifs <;> simp_all [addSender_sendoffset, addRecver_sendoffset]

theorem addSender_recvbuf (ctx : Context) (c : Comm) (a : AddArgs) (rx : HandleMsg) :
    (addSender ctx c a rx).1.recvbuf = c.recvbuf := by
  unfold addSender; split <;> (try split) <;> rfl

theorem addRecver_recvbuf (ctx : Context) (c : Comm) (a : AddArgs) (rx : HandleMsg) :
    (addRecver ctx c a rx).1.recvbuf = c.recvbuf ++ [a.recvbuf] := by
  unfold addRecver; split <;> (try split) <;> rfl

theorem add_recvbuf (ctx : Context) (c : Comm) (a : AddArgs) (rx : HandleMsg) :
    (Comm.add ctx c a rx).1.recvbuf = c.recvbuf ++ (if a.isIn ctx.myid then [a.recvbuf] else []) := by
  simp only [Comm.add, AddArgs.isOut, AddArgs.isIn]
  split_ifs <;> simp_all [addSender_recvbuf, addRecver_recvbuf]

theorem addSender_recvproc (ctx : Context) (c : Comm) (a : AddArgs) (rx : HandleMsg) :
    (addSender ctx c a rx).1.recvproc = c.recvproc := by
  unfold addSender; split <;> (try split) <;> rfl

theorem addRecver_recvproc (ctx : Context) (c : Comm) (a : AddArgs) (rx : HandleMsg) :
    (addRecver ctx c a rx).1.recvproc = c.recvproc ++ [a.sendid] := by
  unfold addRecver; split <;> (try split) <;> rfl

theorem add_recvproc (ctx : Context) (c : Comm) (a : AddArgs) (rx : HandleMsg) :
    (Comm.add ctx c a rx).1.recvproc = c.recvproc ++ (if a.isIn ctx.myid then [a.sendid] else []) := by
  simp only [Comm.add, AddArgs.isOut, AddArgs.isIn]
  split_ifs <;> simp_all [addSender_recvproc, addRecver_recvproc]

theorem addSender_recvcount (ctx : Context) (c : Comm) (a : AddArgs) (rx : HandleMsg) :
    (addSender ctx c a rx).1.recvcount = c.recvcount := by
  unfold addSender; split <;> (try split) <;> rfl

theorem addRecver_recvcount (ctx : Context) (c : Comm) (a : AddArgs) (rx : HandleMsg) :
    (addRecver ctx c a rx).1.recvcount = c.recvcount ++ [a.count] := by
  unfold addRecver; split <;> (try split) <;> rfl

theorem add_recvcount (ctx : Context) (c : Comm) (a : AddArgs) (rx : HandleMsg) :
    (Comm.add ctx c a rx).1.recvcount = c.recvcount ++ (if a.isIn ctx.myid then [a.count] else []) := by
  simp only [Comm.add, AddArgs.isOut, AddArgs.isIn]
  split_ifs <;> simp_all [addSender_recvcount, addRecver_recvcount]

theorem addSender_recvoffset (ctx : Context) (c : Comm) (a : AddArgs) (rx : HandleMsg) :
    (addSender ctx c a rx).1.recvoffset = c.recvoffset := by
  unfold addSender; split <;> (try split) <;> rfl

theorem addRecver_recvoffset (ctx : Context) (c : Comm) (a : AddArgs) (rx : HandleMsg) :
    (addRecver ctx c a rx).1.recvoffset = c.recvoffset ++ [a.recvoffset] := by
  unfold addRecver; split <;> (try split) <;> rfl

theorem add_recvoffset (ctx : Context) (c : Comm) (a : AddArgs) (rx : HandleMsg) :
    (Comm.add ctx c a rx).1.recvoffset = c.recvoffset ++ (if a.isIn ctx.myid then [a.recvoffset] else []) := by
  simp only [Comm.add, AddArgs.isOut, AddArgs.isIn]
  split_ifs <;> simp_all [addSender_recvoffset, addRecver_recvoffset]


/-! ## Sequences of `add` -/

theorem getElem?_filter_map_mid {α β : Type} (p : α → Bool) (f : α → β) (pre post : List α)
    (a : α) (h : p a = true) :
    (((pre ++ a :: post).filter p).map f)[(pre.filter p).length]? = some (f a) := by
  rw [List.filter_append, List.filter_cons_of_pos h, List.map_append, List.map_cons,
    List.getElem?_append_right (by simp)]
  simp

theorem addSeq_nil (ctx : Context) (c : Comm) : Comm.addSeq ctx c [] = c := rfl

theorem addSeq_cons (ctx : Context) (c : Comm) (x : AddArgs × HandleMsg)
    (calls : List (AddArgs × HandleMsg)) :
    Comm.addSeq ctx c (x :: calls) = Comm.addSeq ctx (Comm.add ctx c x.1 x.2).1 calls := rfl

theorem addSeq_append (ctx : Context) (c : Comm) (xs ys : List (AddArgs × HandleMsg)) :
    Comm.addSeq ctx c (xs ++ ys) = Comm.addSeq ctx (Comm.addSeq ctx c xs) ys := by
  simp [Comm.addSeq, List.foldl_append]

theorem addSeq_numsend (ctx : Context) (c : Comm) (calls : List (AddArgs × HandleMsg)) :
    (Comm.addSeq ctx c calls).numsend = c.numsend + outIndex ctx calls := by
  induction calls generalizing c with
  | nil => simp [addSeq_nil, outIndex]
  | cons x xs ih =>
    rw [addSeq_cons, ih, add_numsend]
    by_cases h : x.1.isOut ctx.myid
    · simp [outIndex, List.filter_cons, h]; omega
    · simp [outIndex, List.filter_cons, h]

theorem addSeq_numrecv (ctx : Context) (c : Comm) (calls : List (AddArgs × HandleMsg)) :
    (Comm.addSeq ctx c calls).numrecv = c.numrecv + inIndex ctx calls := by
  induction calls generalizing c with
  | nil => simp [addSeq_nil, inIndex]
  | cons x xs ih =>
    rw [addSeq_cons, ih, add_numrecv]
    by_cases h : x.1.isIn ctx.myid
    · simp [inIndex, List.filter_cons, h]; omega
    · simp [inIndex, List.filter_cons, h]

theorem addSeq_lib (ctx : Context) (c : Comm) (calls : List (AddArgs × HandleMsg)) :
    (Comm.addSeq ctx c calls).lib = c.lib := by
  induction calls generalizing c with
  | nil => rfl
  | cons x xs ih => rw [addSeq_cons, ih, add_lib]

theorem addSeq_sizeofT (ctx : Context) (c : Comm) (calls : List (AddArgs × HandleMsg)) :
    (Comm.addSeq ctx c calls).sizeofT = c.sizeofT := by
  induction calls generalizing c with
  | nil => rfl
  | cons x xs ih => rw [addSeq_cons, ih, add_sizeofT]

theorem addSeq_sendbuf (ctx : Context) (c : Comm) (calls : List (AddArgs × HandleMsg)) :
    (Comm.addSeq ctx c calls).sendbuf
      = c.sendbuf ++ ((calls.map Prod.fst).filter (AddArgs.isOut ctx.myid)).map AddArgs.sendbuf := by
  induction calls generalizing c with
  | nil => simp [addSeq_nil]
  | cons x xs ih =>
    rw [addSeq_cons, ih, add_sendbuf]
    by_cases h : x.1.isOut ctx.myid <;> simp [List.filter_cons, h]

theorem addSeq_sendproc (ctx : Context) (c : Comm) (calls : List (AddArgs × HandleMsg)) :
    (Comm.addSeq ctx c calls).sendproc
      = c.sendproc ++ ((calls.map Prod.fst).filter (AddArgs.isOut ctx.myid)).map AddArgs.recvid := by
  induction calls generalizing c with
  | nil => simp [addSeq_nil]
  | cons x xs ih =>
    rw [addSeq_cons, ih, add_sendproc]
    by_cases h : x.1.isOut ctx.myid <;> simp [List.filter_cons, h]

theorem addSeq_sendcount (ctx : Context) (c : Comm) (calls : List (AddArgs × HandleMsg)) :
    (Comm.addSeq ctx c calls).sendcount
      = c.sendcount ++ ((calls.map Prod.fst).filter (AddArgs.isOut ctx.myid)).map AddArgs.count := by
  induction calls generalizing c with
  | nil => simp [addSeq_nil]
  | cons x xs ih =>
    rw [addSeq_cons, ih, add_sendcount]
    by_cases h : x.1.isOut ctx.myid <;> simp [List.filter_cons, h]

theorem addSeq_sendoffset (ctx : Context) (c : Comm) (calls : List (AddArgs × HandleMsg)) :
    (Comm.addSeq ctx c calls).sendoffset
      = c.sendoffset ++ ((calls.map Prod.fst).filter (AddArgs.isOut ctx.myid)).map AddArgs.sendoffset := by
  induction calls generalizing c with
  | nil => simp [addSeq_nil]
  | cons x xs ih =>
    rw [addSeq_cons, ih, add_sendoffset]
    by_cases h : x.1.isOut ctx.myid <;> simp [List.filter_cons, h]

theorem addSeq_recvbuf (ctx : Context) (c : Comm) (calls : List (AddArgs × HandleMsg)) :
    (Comm.addSeq ctx c calls).recvbuf
      = c.recvbuf ++ ((calls.map Prod.fst).filter (AddArgs.isIn ctx.myid)).map AddArgs.recvbuf := by
  induction calls generalizing c with
  | nil => simp [addSeq_nil]
  | cons x xs ih =>
    rw [addSeq_cons, ih, add_recvbuf]
    by_cases h : x.1.isIn ctx.myid <;> simp [List.filter_cons, h]

theorem addSeq_recvproc (ctx : Context) (c : Comm) (calls : List (AddArgs × HandleMsg)) :
    (Comm.addSeq ctx c calls).recvproc
      = c.recvproc ++ ((calls.map Prod.fst).filter (AddArgs.isIn ctx.myid)).map AddArgs.sendid := by
  induction calls generalizing c with
  | nil => simp [addSeq_nil]
  | cons x xs ih =>
    rw [addSeq_cons, ih, add_recvproc]
    by_cases h : x.1.isIn ctx.myid <;> simp [List.filter_cons, h]

theorem addSeq_recvcount (ctx : Context) (c : Comm) (calls : List (AddArgs × HandleMsg)) :
    (Comm.addSeq ctx c calls).recvcount
      = c.recvcount ++ ((calls.map Prod.fst).filter (AddArgs.isIn ctx.myid)).map AddArgs.count := by
  induction calls generalizing c with
  | nil => simp [addSeq_nil]
  | cons x xs ih =>
    rw [addSeq_cons, ih, add_recvcount]
    by_cases h : x.1.isIn ctx.myid <;> simp [List.filter_cons, h]

theorem addSeq_recvoffset (ctx : Context) (c : Comm) (calls : List (AddArgs × HandleMsg)) :
    (Comm.addSeq ctx c calls).recvoffset
      = c.recvoffset ++ ((calls.map Prod.fst).filter (AddArgs.isIn ctx.myid)).map AddArgs.recvoffset := by
  induction calls generalizing c with
  | nil => simp [addSeq_nil]
  | cons x xs ih =>
    rw [addSeq_cons, ih, add_recvoffset]
    by_cases h : x.1.isIn ctx.myid <;> simp [List.filter_cons, h]


/-! ## The registered pattern, rank by rank -/

theorem registerAll_nil (g : Group) (w : World) : registerAll g w [] = w := rfl

theorem registerAll_cons (g : Group) (w : World) (e : Edge) (es : List Edge) :
    registerAll g w (e :: es) = registerAll g (addAll g w e) es := rfl

theorem registerAll_append (g : Group) (w : World) (es fs : List Edge) :
    registerAll g w (es ++ fs) = registerAll g (registerAll g w es) fs := by
  simp [registerAll, List.foldl_append]

theorem registerAll_lib (g : Group) (w : World) (es : List Edge) (r : Nat) :
    (registerAll g w es r).lib = (w r).lib := by
  induction es generalizing w with
  | nil => rfl
  | cons e es ih => rw [registerAll_cons, ih]; simp [addAll, add_lib]

theorem registerAll_sizeofT (g : Group) (w : World) (es : List Edge) (r : Nat) :
    (registerAll g w es r).sizeofT = (w r).sizeofT := by
  induction es generalizing w with
  | nil => rfl
  | cons e es ih => rw [registerAll_cons, ih]; simp [addAll, add_sizeofT]

theorem registerAll_numsend (g : Group) (w : World) (es : List Edge) (r : Nat) :
    (registerAll g w es r).numsend = (w r).numsend + (outEdges es r).length := by
  induction es generalizing w with
  | nil => simp [registerAll_nil, outEdges]
  | cons e es ih =>
    rw [registerAll_cons, ih]
    simp only [addAll, add_numsend, Group.ctx, AddArgs.isOut, Edge.argsOn, outEdges,
      List.filter_cons]
    split_ifs <;> simp <;> omega

theorem registerAll_numrecv (g : Group) (w : World) (es : List Edge) (r : Nat) :
    (registerAll g w es r).numrecv = (w r).numrecv + (inEdges es r).length := by
  induction es generalizing w with
  | nil => simp [registerAll_nil, inEdges]
  | cons e es ih =>
    rw [registerAll_cons, ih]
    simp only [addAll, add_numrecv, Group.ctx, AddArgs.isIn, Edge.argsOn, inEdges,
      List.filter_cons]
    split_ifs <;> simp <;> omega

theorem registerAll_sendbuf (g : Group) (w : World) (es : List Edge) (r : Nat) :
    (registerAll g w es r).sendbuf = (w r).sendbuf ++ (outEdges es r).map (fun e => e.sendbuf r) := by
  induction es generalizing w with
  | nil => simp [registerAll_nil, outEdges]
  | cons e es ih =>
    rw [registerAll_cons, ih]
    simp only [addAll, add_sendbuf, Group.ctx, AddArgs.isOut, Edge.argsOn, outEdges,
      List.filter_cons]
    split_ifs <;> simp

theorem registerAll_sendproc (g : Group) (w : World) (es : List Edge) (r : Nat) :
    (registerAll g w es r).sendproc = (w r).sendproc ++ (outEdges es r).map (fun e => e.recvid) := by
  induction es generalizing w with
  | nil => simp [registerAll_nil, outEdges]
  | cons e es ih =>
    rw [registerAll_cons, ih]
    simp only [addAll, add_sendproc, Group.ctx, AddArgs.isOut, Edge.argsOn, outEdges,
      List.filter_cons]
    split_ifs <;> simp

theorem registerAll_sendcount (g : Group) (w : World) (es : List Edge) (r : Nat) :
    (registerAll g w es r).sendcount = (w r).sendcount ++ (outEdges es r).map (fun e => e.count) := by
  induction es generalizing w with
  | nil => simp [registerAll_nil, outEdges]
  | cons e es ih =>
    rw [registerAll_cons, ih]
    simp only [addAll, add_sendcount, Group.ctx, AddArgs.isOut, Edge.argsOn, outEdges,
      List.filter_cons]
    split_ifs <;> simp

theorem registerAll_sendoffset (g : Group) (w : World) (es : List Edge) (r : Nat) :
    (registerAll g w es r).sendoffset = (w r).sendoffset ++ (outEdges es r).map (fun e => e.sendoffset r) := by
  induction es generalizing w with
  | nil => simp [registerAll_nil, outEdges]
  | cons e es ih =>
    rw [registerAll_cons, ih]
    simp only [addAll, add_sendoffset, Group.ctx, AddArgs.isOut, Edge.argsOn, outEdges,
      List.filter_cons]
    split_ifs <;> simp

theorem registerAll_recvbuf (g : Group) (w : World) (es : List Edge) (r : Nat) :
    (registerAll g w es r).recvbuf = (w r).recvbuf ++ (inEdges es r).map (fun e => e.recvbuf r) := by
  induction es generalizing w with
  | nil => simp [registerAll_nil, inEdges]
  | cons e es ih =>
    rw [registerAll_cons, ih]
    simp only [addAll, add_recvbuf, Group.ctx, AddArgs.isIn, Edge.argsOn, inEdges,
      List.filter_cons]
    split_ifs <;> simp

theorem registerAll_recvproc (g : Group) (w : World) (es : List Edge) (r : Nat) :
    (registerAll g w es r).recvproc = (w r).recvproc ++ (inEdges es r).map (fun e => e.sendid) := by
  induction es generalizing w with
  | nil => simp [registerAll_nil, inEdges]
  | cons e es ih =>
    rw [registerAll_cons, ih]
    simp only [addAll, add_recvproc, Group.ctx, AddArgs.isIn, Edge.argsOn, inEdges,
      List.filter_cons]
    split_ifs <;> simp

theorem registerAll_recvcount (g : Group) (w : World) (es : List Edge) (r : Nat) :
    (registerAll g w es r).recvcount = (w r).recvcount ++ (inEdges es r).map (fun e => e.count) := by
  induction es generalizing w with
  | nil => simp [registerAll_nil, inEdges]
  | cons e es ih =>
    rw [registerAll_cons, ih]
    simp only [addAll, add_recvcount, Group.ctx, AddArgs.isIn, Edge.argsOn, inEdges,
      List.filter_cons]
    split_ifs <;> simp

theorem registerAll_recvoffset (g : Group) (w : World) (es : List Edge) (r : Nat) :
    (registerAll g w es r).recvoffset = (w r).recvoffset ++ (inEdges es r).map (fun e => e.recvoffset r) := by
  induction es generalizing w with
  | nil => simp [registerAll_nil, inEdges]
  | cons e es ih =>
    rw [registerAll_cons, ih]
    simp only [addAll, add_recvoffset, Group.ctx, AddArgs.isIn, Edge.argsOn, inEdges,
      List.filter_cons]
    split_ifs <;> simp


theorem filter_zip_map {α : Type} (L : List α) (f h : α → Nat) (r : Nat) :
    (((L.map f).zip (L.map h)).filter (fun pc => pc.1 == r)).map Prod.snd
      = (L.filter (fun a => f a == r)).map h := by
  induction L with
  | nil => rfl
  | cons a L ih =>
    simp only [List.map_cons, List.zip_cons_cons, List.filter_cons]
    split_ifs <;> simp [ih]

theorem outgoingTo_registerAll (g : Group) (es : List Edge) (benchid numcomm0 s r : Nat) :
    outgoingTo (registerAll g (g.fresh benchid numcomm0) es s) r
      = (es.filter (fun e => e.count != 0 && s == e.sendid && e.recvid == r)).map Edge.count := by
  unfold outgoingTo
  rw [registerAll_sendproc, registerAll_sendcount]
  simp only [Group.fresh, Comm.new, List.nil_append]
  rw [filter_zip_map, outEdges, List.filter_filter]
  congr 1
  apply List.filter_congr
  intro e _
  cases h1 : (e.count != 0) <;> cases h2 : (s == e.sendid) <;> cases h3 : (e.recvid == r) <;> rfl

theorem incomingFrom_registerAll (g : Group) (es : List Edge) (benchid numcomm0 s r : Nat) :
    incomingFrom (registerAll g (g.fresh benchid numcomm0) es r) s
      = (es.filter (fun e => e.count != 0 && s == e.sendid && e.recvid == r)).map Edge.count := by
  unfold incomingFrom
  rw [registerAll_recvproc, registerAll_recvcount]
  simp only [Group.fresh, Comm.new, List.nil_append]
  rw [filter_zip_map, inEdges, List.filter_filter]
  congr 1
  apply List.filter_congr
  intro e _
  rw [Bool.eq_iff_iff]
  simp only [Bool.and_eq_true, beq_iff_eq, bne_iff_ne]
  omega

/-! ## Index loops over the registries -/

theorem foldl_range_eq {α β γ : Type} (L : List α) (G : Nat → γ) (H : α → γ) (f : β → γ → β)
    (init : β) (hG : ∀ i (h : i < L.length), G i = H (L.get ⟨i, h⟩)) :
    (List.range L.length).foldl (fun acc i => f acc (G i)) init
      = L.foldl (fun acc e => f acc (H e)) init := by
  induction L using List.reverseRecOn generalizing init with
  | nil => rfl
  | append_singleton L a ih =>
    rw [List.length_append, List.length_singleton, List.range_succ, List.foldl_append,
      List.foldl_append]
    have h1 : (List.range L.length).foldl (fun acc i => f acc (G i)) init
        = L.foldl (fun acc e => f acc (H e)) init := by
      apply ih
      intro i h
      have := hG i (by simp; omega)
      rw [this]
      simp [List.getElem_append_left h]
    rw [h1]
    have h2 := hG L.length (by simp)
    simp [h2]

theorem map_range_eq {α γ : Type} (L : List α) (G : Nat → γ) (H : α → γ)
    (hG : ∀ i (h : i < L.length), G i = H (L.get ⟨i, h⟩)) :
    (List.range L.length).map G = L.map H := by
  apply List.ext_getElem
  · simp
  · intro i h1 h2
    simp at h1
    simp [hG i h1]

theorem getD_map_of_lt {α : Type} (L : List α) (f : α → Nat) (i : Nat) (h : i < L.length) :
    (L.map f).getD i 0 = f (L.get ⟨i, h⟩) := by
  simp [List.getD, List.getElem?_eq_getElem, h]

/-! ## The communication matrix -/

theorem toSizeT_lt (n : Nat) : toSizeT n < 2 ^ 64 := by
  unfold toSizeT; exact Nat.mod_lt _ (by norm_num)

theorem getD_set_nat (tmp : List Nat) (i j v : Nat) :
    (tmp.set i v).getD j 0 = if i = j ∧ i < tmp.length then v else tmp.getD j 0 := by
  simp only [List.getD_eq_getElem?_getD, List.getElem?_set]
  by_cases h : i = j
  · subst h
    by_cases h2 : i < tmp.length
    · simp [h2]
    · simp [h2, List.getElem?_eq_none (Nat.le_of_not_lt h2)]
  · simp [h]

theorem tempFold_getD (L : List Edge) (key : Edge → Nat) (r : Nat) (tmp : List Nat)
    (hlt : ∀ i, tmp.getD i 0 < 2 ^ 64) (hr : r < tmp.length) :
    (L.foldl (fun t e => t.set (key e) (toSizeT (t.getD (key e) 0 + e.count))) tmp).getD r 0
      = (tmp.getD r 0 + ((L.filter (fun e => key e == r)).map Edge.count).sum) % 2 ^ 64 := by
  induction L generalizing tmp with
  | nil => simp; exact (Nat.mod_eq_of_lt (by simpa using hlt r)).symm
  | cons e L ih =>
    rw [List.foldl_cons, ih]
    · rw [getD_set_nat]
      by_cases h : key e = r
      · subst h
        simp only [hr, and_self, if_true, List.filter_cons, beq_self_eq_true, List.map_cons,
          List.sum_cons, toSizeT]
        omega
      · have h2 : (key e == r) = false := by simp [h]
        simp [h, List.filter_cons, h2]
    · intro i
      rw [getD_set_nat]
      split_ifs
      · exact toSizeT_lt _
      · exact hlt i
    · simpa using hr

theorem sendcount_temp_registerAll (g : Group) (es : List Edge) (benchid numcomm0 s : Nat) :
    sendcount_temp (g.ctx s) (registerAll g (g.fresh benchid numcomm0) es s)
      = (outEdges es s).foldl
          (fun t e => t.set e.recvid (toSizeT (t.getD e.recvid 0 + e.count)))
          (List.replicate g.numproc 0) := by
  unfold sendcount_temp
  rw [registerAll_numsend, registerAll_sendproc, registerAll_sendcount]
  simp only [Group.fresh, Comm.new, List.nil_append, Nat.zero_add, Group.ctx]
  exact foldl_range_eq (outEdges es s)
    (fun i => (((outEdges es s).map (fun e => e.recvid)).getD i 0,
               ((outEdges es s).map (fun e => e.count)).getD i 0))
    (fun e => (e.recvid, e.count))
    (fun t pc => t.set pc.1 (toSizeT (t.getD pc.1 0 + pc.2)))
    (List.replicate g.numproc 0)
    (fun i h => by
      show (_, _) = (_, _)
      rw [getD_map_of_lt _ _ i h, getD_map_of_lt _ _ i h])

theorem sendcount_temp_getD (g : Group) (es : List Edge) (benchid numcomm0 s r : Nat)
    (hr : r < g.numproc) :
    (sendcount_temp (g.ctx s) (registerAll g (g.fresh benchid numcomm0) es s)).getD r 0
      = pairTotal es s r % 2 ^ 64 := by
  rw [sendcount_temp_registerAll, tempFold_getD _ (fun e => e.recvid)]
  · have h0 : (List.replicate g.numproc 0).getD r 0 = 0 := by
      simp [List.getElem?_replicate, hr]
    rw [h0, Nat.zero_add, pairTotal, outEdges, List.filter_filter]
    congr 3
    apply List.filter_congr
    intro e _
    rw [Bool.eq_iff_iff]
    simp only [Bool.and_eq_true, beq_iff_eq, bne_iff_ne]
    omega
  · intro i
    have : (List.replicate g.numproc 0).getD i 0 = 0 := by
      simp only [List.getD_eq_getElem?_getD, List.getElem?_replicate]
      split_ifs <;> rfl
    rw [this]; norm_num
  · simpa using hr

theorem flatMap_range_map {β : Type} (P n : Nat) (F : Nat → Nat → β) :
    (List.range n).flatMap (fun s => (List.range P).map (fun r => F s r))
      = (List.range (n * P)).map (fun i => F (i / P) (i % P)) := by
  induction n with
  | zero => simp
  | succ n ih =>
    rw [List.range_succ, List.flatMap_append, ih, Nat.succ_mul, List.range_add, List.map_append]
    congr 1
    simp only [List.flatMap_cons, List.flatMap_nil, List.append_nil, List.map_map]
    apply List.map_congr_left
    intro j hj
    have hj2 : j < P := List.mem_range.mp hj
    have hP : 0 < P := by omega
    simp only [Function.comp]
    rw [Nat.mul_comm n P, Nat.mul_add_div hP, Nat.mul_add_mod, Nat.div_eq_of_lt hj2,
      Nat.mod_eq_of_lt hj2, Nat.add_zero]

theorem getMatrixAll_length (g : Group) (w : World) (me : Nat) :
    (getMatrixAll g w me []).length = g.numproc * g.numproc := by
  simp [getMatrixAll, Comm.getMatrix, Group.ctx, flatMap_range_map]

theorem getMatrixAll_entry (g : Group) (w : World) (me s r : Nat)
    (hs : s < g.numproc) (hr : r < g.numproc) :
    (getMatrixAll g w me [])[s * g.numproc + r]?
      = some ((sendcount_temp (g.ctx s) (w s)).getD r 0) := by
  have hlt : s * g.numproc + r < g.numproc * g.numproc := by
    calc s * g.numproc + r < s * g.numproc + g.numproc := by omega
      _ = (s + 1) * g.numproc := by ring
      _ ≤ g.numproc * g.numproc := Nat.mul_le_mul_right _ hs
  have hP : 0 < g.numproc := by omega
  have hd : (s * g.numproc + r) / g.numproc = s := by
    rw [Nat.mul_comm, Nat.mul_add_div hP, Nat.div_eq_of_lt hr, Nat.add_zero]
  have hm : (s * g.numproc + r) % g.numproc = r := by
    rw [Nat.mul_comm, Nat.mul_add_mod, Nat.mod_eq_of_lt hr]
  simp only [getMatrixAll, Comm.getMatrix, Group.ctx, List.nil_append, flatMap_range_map,
    allgatherBlocks]
  rw [List.getElem?_map, List.getElem?_range hlt]
  simp only [Option.map_some', hd, hm]
  congr 1
  rw [List.getD_eq_getElem?_getD, List.getElem?_map, List.getElem?_range hlt]
  simp [hd, hm]

/-! ## The measurement loop -/

theorem measureBody_eq (ctx : Context) (c : Comm) (W N : Nat) (startOf timeOf : Nat → Nat → ℚ)
    (garbage : Nat → ℚ) (n : Nat) (_hn : n < W + N) :
    measureBody ctx c (W : Int) startOf timeOf
      ⟨(List.range N).map (fun j => if W + j < n then reduced ctx timeOf (W + j) else garbage j),
       (List.range N).map (fun j => if W + j < n then reduced ctx startOf (W + j) else garbage j),
       (List.range n).flatMap (cycleCalls ctx c startOf timeOf)⟩ n
    = ⟨(List.range N).map
          (fun j => if W + j < n + 1 then reduced ctx timeOf (W + j) else garbage j),
       (List.range N).map
          (fun j => if W + j < n + 1 then reduced ctx startOf (W + j) else garbage j),
       (List.range (n + 1)).flatMap (cycleCalls ctx c startOf timeOf)⟩ := by
  have hcalls : (List.range n).flatMap (cycleCalls ctx c startOf timeOf) ++
      ([Call.barrier .comm_mpi, Call.wtime] ++ c.start ctx ++ [Call.wtime] ++ c.wait ctx ++
       [Call.wtime, Call.barrier .comm_mpi] ++
       (allreduce_max ctx (startOf n ctx.myid) (startOf n) 0).2 ++
       (allreduce_max ctx (timeOf n ctx.myid) (timeOf n) 0).2)
      = (List.range (n + 1)).flatMap (cycleCalls ctx c startOf timeOf) := by
    rw [List.range_succ, List.flatMap_append]
    simp [cycleCalls]
  unfold measureBody
  by_cases hw : n < W
  · have h1 : (-(W : Int) + (n : Int)) < 0 := by omega
    simp only [h1, if_true, hcalls]
    congr 1 <;>
    · apply List.map_congr_left
      intro j _
      have e1 : ¬ (W + j < n) := by omega
      have e2 : ¬ (W + j < n + 1) := by omega
      simp [e1, e2]
  · have h1 : ¬ ((-(W : Int) + (n : Int)) < 0) := by omega
    have h2 : (-(W : Int) + (n : Int)).toNat = n - W := by omega
    simp only [h1, if_false, hcalls, h2]
    congr 1 <;>
    · apply List.ext_getElem
      · simp
      · intro j hj1 hj2
        simp only [List.length_map, List.length_range] at hj2
        rw [List.getElem_set]
        simp only [List.getElem_map, List.getElem_range]
        by_cases hj : n - W = j
        · have e2 : W + j < n + 1 := by omega
          have e3 : W + j = n := by omega
          simp [hj, e2, reduced, e3]
        · by_cases e1 : W + j < n
          · have e2 : W + j < n + 1 := by omega
            simp [hj, e1, e2]
          · have e2 : ¬ (W + j < n + 1) := by omega
            simp [hj, e1, e2]

theorem measureLoop_upto (ctx : Context) (c : Comm) (W N : Nat)
    (startOf timeOf : Nat → Nat → ℚ) (garbage : Nat → ℚ) (n : Nat) (hn : n ≤ W + N) :
    (List.range n).foldl (measureBody ctx c (W : Int) startOf timeOf)
      ⟨(List.range N).map garbage, (List.range N).map garbage, []⟩
    = ⟨(List.range N).map (fun j => if W + j < n then reduced ctx timeOf (W + j) else garbage j),
       (List.range N).map (fun j => if W + j < n then reduced ctx startOf (W + j) else garbage j),
       (List.range n).flatMap (cycleCalls ctx c startOf timeOf)⟩ := by
  induction n with
  | zero => simp
  | succ n ih =>
    rw [List.range_succ, List.foldl_append, ih (by omega)]
    simp only [List.foldl_cons, List.foldl_nil]
    rw [measureBody_eq ctx c W N startOf timeOf garbage n (by omega), List.range_succ]

theorem measureLoop_eq (ctx : Context) (c : Comm) (W N : Nat)
    (startOf timeOf : Nat → Nat → ℚ) (garbage : Nat → ℚ) :
    measureLoop ctx c (W : Int) (N : Int) startOf timeOf garbage
      = ⟨samples ctx W N timeOf, samples ctx W N startOf,
         (List.range (W + N)).flatMap (cycleCalls ctx c startOf timeOf)⟩ := by
  unfold measureLoop
  have h1 : ((N : Int) + (W : Int)).toNat = W + N := by omega
  have h2 : (N : Int).toNat = N := by omega
  rw [h1, h2, measureLoop_upto ctx c W N startOf timeOf garbage (W + N) (le_refl _)]
  simp only [samples]
  congr 1 <;>
  · apply List.map_congr_left
    intro j hj
    have : W + j < W + N := by have := List.mem_range.mp hj; omega
    simp [this]

/-! ## Collectives -/

theorem broadcast_upto {α : Type} (ctx : Context) (sendbuf : α) (root : Nat)
    (incoming temp0 : α) (n : Nat) :
    ((List.range n).foldl
      (fun st i => ((pair ctx sendbuf st.1 root i incoming).1,
                    st.2 ++ (pair ctx sendbuf st.1 root i incoming).2))
      (temp0, ([] : List Call))).1
    = if ctx.myid < n then (if ctx.myid = root then sendbuf else incoming) else temp0 := by
  induction n with
  | zero => simp
  | succ n ih =>
    rw [List.range_succ, List.foldl_append]
    simp only [List.foldl_cons, List.foldl_nil, ih]
    unfold pair
    by_cases h1 : ctx.myid < n
    · have h2 : ctx.myid < n + 1 := by omega
      have h3 : ctx.myid ≠ n := by omega
      by_cases h4 : root = n
      · have h5 : ctx.myid ≠ root := by omega
        simp [h1, h2, h4, h3]
      · simp [h1, h2, h3, h4]
    · by_cases h2 : ctx.myid = n
      · have h3 : ctx.myid < n + 1 := by omega
        by_cases h4 : root = n
        · have h5 : ctx.myid = root := by omega
          simp [h1, h3, h4, h2]
        · have h5 : ctx.myid ≠ root := by omega
          have h6 : ¬ n = root := by omega
          simp [h1, h3, h4, h2, h6]
      · have h3 : ¬ ctx.myid < n + 1 := by omega
        by_cases h4 : root = n
        · have h5 : ctx.myid ≠ root := by omega
          simp [h1, h3, h4, h2, h5]
        · simp [h1, h3, h4, h2]

theorem broadcast_val {α : Type} (ctx : Context) (sendbuf : α) (root : Nat)
    (incoming temp0 : α) (h : ctx.myid < ctx.numproc) :
    (broadcast ctx sendbuf root incoming temp0).1
      = if ctx.myid = root then sendbuf else incoming := by
  unfold broadcast
  rw [broadcast_upto, if_pos h]

theorem allgather_upto {α : Type} (ctx : Context) (sendval : α) (recvbuf : List α)
    (sent : Nat → α) (temp0 : α) (n : Nat) (hn : n ≤ recvbuf.length) :
    ((List.range n).foldl
      (fun st root => (st.1.set root (broadcast ctx sendval root (sent root) temp0).1,
                       st.2 ++ (broadcast ctx sendval root (sent root) temp0).2))
      (recvbuf, ([] : List Call))).1
    = (List.range n).map (fun root => (broadcast ctx sendval root (sent root) temp0).1)
        ++ recvbuf.drop n := by
  induction n with
  | zero => simp
  | succ n ih =>
    rw [List.range_succ, List.foldl_append]
    simp only [List.foldl_cons, List.foldl_nil, ih (by omega), List.map_append, List.map_cons,
      List.map_nil]
    have hlen : ((List.range n).map
        (fun root => (broadcast ctx sendval root (sent root) temp0).1)).length = n := by simp
    rw [List.set_append_right _ _ (by omega), hlen, Nat.sub_self, List.append_assoc]
    congr 1
    have hd : n < recvbuf.length := by omega
    rw [List.drop_eq_getElem_cons hd]
    rfl

theorem allgather_val {α : Type} (ctx : Context) (sendval : α) (recvbuf : List α)
    (sent : Nat → α) (temp0 : α) (hlen : recvbuf.length = ctx.numproc)
    (hme : ctx.myid < ctx.numproc) :
    (allgather ctx sendval recvbuf sent temp0).1
      = (List.range ctx.numproc).map (fun root => if ctx.myid = root then sendval else sent root) := by
  unfold allgather
  rw [allgather_upto ctx sendval recvbuf sent temp0 ctx.numproc (by omega)]
  rw [← hlen, List.drop_length, List.append_nil]
  apply List.map_congr_left
  intro root _
  exact broadcast_val ctx sendval root (sent root) temp0 hme

theorem foldl_max_ge_init {α : Type} [LinearOrder α] (v : Nat → α) (L : List Nat) (init : α) :
    init ≤ L.foldl (fun mx i => if v i > mx then v i else mx) init := by
  induction L generalizing init with
  | nil => simp
  | cons a L ih =>
    simp only [List.foldl_cons]
    refine le_trans ?_ (ih _)
    split_ifs with h
    · exact le_of_lt h
    · exact le_refl _

theorem foldl_max_ge_mem {α : Type} [LinearOrder α] (v : Nat → α) (L : List Nat) (init : α)
    (i : Nat) (hi : i ∈ L) :
    v i ≤ L.foldl (fun mx i => if v i > mx then v i else mx) init := by
  induction L generalizing init with
  | nil => cases hi
  | cons a L ih =>
    simp only [List.foldl_cons]
    rcases List.mem_cons.mp hi with rfl | h
    · refine le_trans ?_ (foldl_max_ge_init v L _)
      split_ifs with h
      · exact le_refl _
      · exact not_lt.mp h
    · exact ih _ h

theorem foldl_max_mem {α : Type} [LinearOrder α] (v : Nat → α) (L : List Nat) (init : α) :
    L.foldl (fun mx i => if v i > mx then v i else mx) init = init ∨
    ∃ i ∈ L, L.foldl (fun mx i => if v i > mx then v i else mx) init = v i := by
  induction L generalizing init with
  | nil => simp
  | cons a L ih =>
    simp only [List.foldl_cons]
    rcases ih (if v a > init then v a else init) with h | ⟨i, hi, h⟩
    · split_ifs at h with h2
      · exact Or.inr ⟨a, List.mem_cons_self _ _, by rw [if_pos h2]; exact h⟩
      · exact Or.inl (by rw [if_neg h2]; exact h)
    · exact Or.inr ⟨i, List.mem_cons_of_mem _ hi, h⟩

theorem allreduce_max_eq {α : Type} [LinearOrder α] [Inhabited α] (ctx : Context)
    (vals : Nat → α) (temp0 : α) (hme : ctx.myid < ctx.numproc) :
    (allreduce_max ctx (vals ctx.myid) vals temp0).1
      = (List.range ctx.numproc).foldl (fun mx i => if vals i > mx then vals i else mx)
          (vals ctx.myid) := by
  unfold allreduce_max
  simp only
  rw [allgather_val ctx (vals ctx.myid) _ vals temp0 (by simp) hme]
  apply List.foldl_ext
  intro mx i hi
  have hi2 : i < ctx.numproc := List.mem_range.mp hi
  have : ((List.range ctx.numproc).map
      (fun root => if ctx.myid = root then vals ctx.myid else vals root)).getD i default
      = vals i := by
    simp only [List.getD_eq_getElem?_getD, List.getElem?_map, List.getElem?_range hi2,
      Option.map_some', Option.getD_some]
    split_ifs with h
    · rw [h]
    · rfl
  rw [this]

/-! ## Statistics of the sorted samples -/

theorem statsOf_minTime (l : List ℚ) (N : Nat) : (statsOf l (N : Int)).minTime = l.getD 0 0 := rfl

theorem statsOf_medTime (l : List ℚ) (N : Nat) :
    (statsOf l (N : Int)).medTime = l.getD (N / 2) 0 := by
  have h : ((N : Int) / 2).toNat = N / 2 := by omega
  simp only [statsOf, h]

theorem statsOf_maxTime (l : List ℚ) (N : Nat) :
    (statsOf l (N : Int)).maxTime = l.getD (N - 1) 0 := by
  have h : ((N : Int) - 1).toNat = N - 1 := by omega
  simp only [statsOf, h]

theorem getD_eq_of_lt (l : List ℚ) (i : Nat) (h : i < l.length) :
    l[i]? = some (l.getD i 0) := by
  simp [List.getD_eq_getElem?_getD, List.getElem?_eq_getElem h]

theorem getD_mem_of_lt (l : List ℚ) (i : Nat) (h : i < l.length) : l.getD i 0 ∈ l := by
  have := getD_eq_of_lt l i h
  rw [List.getElem?_eq_getElem h] at this
  rw [← Option.some.inj this]
  exact List.getElem_mem h

theorem sorted_getD_le (l : List ℚ) (hs : l.Sorted (· ≤ ·)) (i j : Nat) (hij : i ≤ j)
    (hj : j < l.length) : l.getD i 0 ≤ l.getD j 0 := by
  have hi : i < l.length := by omega
  have e1 := getD_eq_of_lt l i hi
  have e2 := getD_eq_of_lt l j hj
  rw [List.getElem?_eq_getElem hi] at e1
  rw [List.getElem?_eq_getElem hj] at e2
  rw [← Option.some.inj e1, ← Option.some.inj e2]
  exact hs.rel_get_of_le (a := ⟨i, hi⟩) (b := ⟨j, hj⟩) hij

theorem sorted_samples (S : List ℚ) : (S.insertionSort (· ≤ ·)).Sorted (· ≤ ·) :=
  List.sorted_insertionSort (· ≤ ·) S

theorem measure_stats (ctx : Context) (c : Comm) (W N : Nat) (startOf timeOf : Nat → Nat → ℚ)
    (garbage : Nat → ℚ) :
    (measure ctx c (W : Int) (N : Int) startOf timeOf garbage).1
      = statsOf ((samples ctx W N timeOf).insertionSort (· ≤ ·)) (N : Int) := by
  simp only [measure, measureLoop_eq]

theorem samples_length (ctx : Context) (W N : Nat) (timeOf : Nat → Nat → ℚ) :
    (samples ctx W N timeOf).length = N := by
  simp [samples]

/-! ## Data volume -/

theorem toLong_emod (z : Int) : toLong z % 2 ^ 64 = z % 2 ^ 64 := by
  unfold toLong
  split_ifs <;> omega

theorem foldl_toLong_emod {β : Type} (L : List β) (h : β → Int) (init : Int) :
    (L.foldl (fun acc x => toLong (acc + h x)) init) % 2 ^ 64
      = (init + (L.map h).sum) % 2 ^ 64 := by
  induction L generalizing init with
  | nil => simp
  | cons a L ih =>
    rw [List.foldl_cons, ih, List.map_cons, List.sum_cons]
    have := toLong_emod (init + h a)
    omega

theorem countTotalLocal_registerAll (g : Group) (es : List Edge) (benchid numcomm0 s : Nat) :
    countTotalLocal (registerAll g (g.fresh benchid numcomm0) es s) % 2 ^ 64
      = ((((outEdges es s).map Edge.count).sum : Nat) : Int) % 2 ^ 64 := by
  unfold countTotalLocal
  rw [registerAll_numsend, registerAll_sendcount]
  simp only [Group.fresh, Comm.new, List.nil_append, Nat.zero_add]
  rw [foldl_range_eq (outEdges es s)
    (fun i => ((((outEdges es s).map (fun e => e.count)).getD i 0 : Nat) : Int))
    (fun e => ((e.count : Nat) : Int))
    (fun acc x => toLong (acc + x)) 0
    (fun i h => by
      show ((_ : Nat) : Int) = _
      rw [getD_map_of_lt _ _ i h])]
  rw [foldl_toLong_emod, Int.zero_add, Nat.cast_list_sum, List.map_map]
  rfl

theorem sum_range_ite (P s c : Nat) (hs : s < P) :
    ((List.range P).map (fun p => if p = s then c else 0)).sum = c := by
  induction P with
  | zero => omega
  | succ P ih =>
    rw [List.range_succ, List.map_append, List.sum_append]
    by_cases h : s = P
    · subst h
      have : ((List.range s).map (fun p => if p = s then c else 0)).sum = 0 := by
        apply List.sum_eq_zero
        intro x hx
        obtain ⟨p, hp, rfl⟩ := List.mem_map.mp hx
        have : p < s := List.mem_range.mp hp
        simp; omega
      simp [this]
    · rw [ih (by omega)]
      simp [Ne.symm h]

theorem sum_outEdges (P : Nat) (es : List Edge) (hids : ∀ e ∈ es, e.sendid < P) :
    ((List.range P).map (fun p => ((outEdges es p).map Edge.count).sum)).sum = totalCount es := by
  induction es with
  | nil => simp [outEdges, totalCount]
  | cons e es ih =>
    have ih2 := ih (fun x hx => hids x (List.mem_cons_of_mem _ hx))
    have he := hids e (List.mem_cons_self _ _)
    have key : ∀ p, ((outEdges (e :: es) p).map Edge.count).sum
        = (if p = e.sendid then (if e.count = 0 then 0 else e.count) else 0)
          + ((outEdges es p).map Edge.count).sum := by
      intro p
      simp only [outEdges, List.filter_cons]
      by_cases h1 : e.count = 0 <;> by_cases h2 : p = e.sendid <;> simp [h1, h2]
    simp only [key]
    rw [List.sum_map_add, ih2, sum_range_ite P e.sendid _ he]
    simp only [totalCount, List.filter_cons]
    by_cases h1 : e.count = 0 <;> simp [h1]

theorem allreduce_count_total (g : Group) (es : List Edge) (benchid numcomm0 : Nat)
    (hids : ∀ e ∈ es, e.sendid < g.numproc) :
    allreduceSumLong g.numproc
        (fun p => countTotalLocal (registerAll g (g.fresh benchid numcomm0) es p)) % 2 ^ 64
      = ((totalCount es : Nat) : Int) % 2 ^ 64 := by
  unfold allreduceSumLong
  rw [foldl_toLong_emod, Int.zero_add, ← sum_outEdges g.numproc es hids]
  generalize List.range g.numproc = R
  induction R with
  | nil => simp
  | cons p R ih =>
    simp only [List.map_cons, List.sum_cons, Nat.cast_add]
    have := countTotalLocal_registerAll g es benchid numcomm0 p
    omega

theorem dataVolume_eq (g : Group) (es : List Edge) (benchid numcomm0 r : Nat)
    (hids : ∀ e ∈ es, e.sendid < g.numproc) :
    dataVolume g (registerAll g (g.fresh benchid numcomm0) es) r
      = (g.sizeofT * totalCount es) % 2 ^ 64 := by
  unfold dataVolume Comm.measureData longToSizeT toSizeT
  rw [allreduce_count_total g es benchid numcomm0 hids, registerAll_sizeofT]
  simp only [Group.fresh, Comm.new]
  have h : (((totalCount es : Nat) : Int) % 2 ^ 64).toNat = totalCount es % 2 ^ 64 := by omega
  rw [h, Nat.mod_mul_mod, Nat.mul_comm]

/-! ## Memory after a sequence of transfers -/

theorem sentTo_append (dest : Nat) (xs ys : List Call) :
    sentTo dest (xs ++ ys) = sentTo dest xs ++ sentTo dest ys := by
  induction xs with
  | nil => rfl
  | cons x xs ih =>
    cases x <;> simp [sentTo, ih] <;> split_ifs <;> simp

theorem sentTo_addReport (dest : Nat) (ctx : Context) (a : AddArgs) :
    ∀ p ∈ sentTo dest (addReport ctx a), ∀ h, p ≠ Payload.memhandle h := by
  intro p hp h heq
  subst heq
  unfold addReport at hp
  split_ifs at hp <;> simp [sentTo] at hp <;> (try split_ifs at hp) <;> simp at hp

theorem handshakeOf_skip (xs ys : List Payload)
    (h : ∀ p ∈ xs, ∀ d, p ≠ Payload.memhandle d) :
    handshakeOf (xs ++ ys) = handshakeOf ys := by
  induction xs with
  | nil => rfl
  | cons x xs ih =>
    have hx := h x (List.mem_cons_self _ _)
    have ih2 := ih (fun p hp => h p (List.mem_cons_of_mem _ hp))
    cases x with
    | memhandle d => exact absurd rfl (hx d)
    | bufptr q => simpa [handshakeOf] using ih2
    | size q => simpa [handshakeOf] using ih2
    | ack q => simpa [handshakeOf] using ih2

theorem delivered_push (g : Group) (w : World) (e : Edge)
    (hlib : (w e.recvid).lib = .IPC) (hc : e.count ≠ 0) (hsr : e.sendid ≠ e.recvid) :
    delivered g w e e.sendid = ⟨⟨e.recvid, e.recvbuf e.recvid⟩, e.recvoffset e.recvid⟩ := by
  unfold delivered
  have hp : e.peerOf e.sendid = e.recvid := by simp [Edge.peerOf]
  rw [hp]
  have hcalls : (Comm.add (g.ctx e.recvid) (w e.recvid) (e.argsOn e.recvid) default).2
      = (Call.barrier .comm_mpi :: addReport (g.ctx e.recvid) (e.argsOn e.recvid)) ++
        [Call.ipcGetMemHandle (e.recvbuf e.recvid),
         Call.send .comm_mpi e.sendid (.memhandle ⟨e.recvid, e.recvbuf e.recvid⟩),
         Call.send .comm_mpi e.sendid (.size (e.recvoffset e.recvid))] := by
    simp only [Comm.add, Edge.argsOn, Group.ctx, hc, if_false, if_neg (Ne.symm hsr), if_true,
      addRecver, hlib, ne_eq, hsr, not_false_eq_true, List.append_nil, List.cons_append]
  rw [hcalls, sentTo_append]
  have hrep : sentTo e.sendid
      (Call.barrier .comm_mpi :: addReport (g.ctx e.recvid) (e.argsOn e.recvid))
      = sentTo e.sendid (addReport (g.ctx e.recvid) (e.argsOn e.recvid)) := rfl
  rw [hrep, handshakeOf_skip _ _ (sentTo_addReport _ _ _)]
  simp [sentTo, handshakeOf]

theorem delivered_pull (g : Group) (w : World) (e : Edge)
    (hlib : (w e.sendid).lib = .IPC_get) (hc : e.count ≠ 0) (hsr : e.sendid ≠ e.recvid) :
    delivered g w e e.recvid = ⟨⟨e.sendid, e.sendbuf e.sendid⟩, e.sendoffset e.sendid⟩ := by
  unfold delivered
  have hp : e.peerOf e.recvid = e.sendid := by simp [Edge.peerOf, Ne.symm hsr]
  rw [hp]
  have hcalls : (Comm.add (g.ctx e.sendid) (w e.sendid) (e.argsOn e.sendid) default).2
      = (Call.barrier .comm_mpi :: addReport (g.ctx e.sendid) (e.argsOn e.sendid)) ++
        [Call.ipcGetMemHandle (e.sendbuf e.sendid),
         Call.send .comm_mpi e.recvid (.memhandle ⟨e.sendid, e.sendbuf e.sendid⟩),
         Call.send .comm_mpi e.recvid (.size (e.sendoffset e.sendid))] := by
    simp only [Comm.add, Edge.argsOn, Group.ctx, hc, if_false, if_neg hsr, if_true,
      addSender, hlib, ne_eq, hsr, not_false_eq_true, List.append_nil, List.cons_append,
      List.append_assoc]
  rw [hcalls, sentTo_append]
  have hrep : sentTo e.recvid
      (Call.barrier .comm_mpi :: addReport (g.ctx e.sendid) (e.argsOn e.sendid))
      = sentTo e.recvid (addReport (g.ctx e.sendid) (e.argsOn e.sendid)) := rfl
  rw [hrep, handshakeOf_skip _ _ (sentTo_addReport _ _ _)]
  simp [sentTo, handshakeOf]

theorem set_length_append {β : Type} (l : List β) (x y : β) (n : Nat) (h : l.length = n) :
    (l ++ [x]).set n y = l ++ [y] := by
  subst h
  rw [List.set_append_right _ _ (le_refl _)]
  simp

theorem add_remotebuf_IPC (ctx : Context) (c : Comm) (a : AddArgs) (rx : HandleMsg)
    (hlib : c.lib = .IPC) (hlen : c.remotebuf.length = c.numsend) :
    (Comm.add ctx c a rx).1.remotebuf
      = c.remotebuf ++ (if a.isOut ctx.myid then
          [if a.sendid ≠ a.recvid then rx.memhandle else ⟨ctx.myid, a.recvbuf⟩] else []) := by
  simp only [Comm.add, AddArgs.isOut, addSender, addRecver, hlib]
  split_ifs <;> simp_all [set_length_append]

theorem add_remoteoffset_IPC (ctx : Context) (c : Comm) (a : AddArgs) (rx : HandleMsg)
    (hlib : c.lib = .IPC) (hlen : c.remoteoffset.length = c.numsend) :
    (Comm.add ctx c a rx).1.remoteoffset
      = c.remoteoffset ++ (if a.isOut ctx.myid then
          [if a.sendid ≠ a.recvid then rx.offset else a.recvoffset] else []) := by
  simp only [Comm.add, AddArgs.isOut, addSender, addRecver, hlib]
  split_ifs <;> simp_all [set_length_append]

theorem add_remotebuf_IPC_get (ctx : Context) (c : Comm) (a : AddArgs) (rx : HandleMsg)
    (hlib : c.lib = .IPC_get) (hlen : c.remotebuf.length = c.numrecv) :
    (Comm.add ctx c a rx).1.remotebuf
      = c.remotebuf ++ (if a.isIn ctx.myid then
          [if a.sendid ≠ a.recvid then rx.memhandle else ⟨ctx.myid, a.sendbuf⟩] else []) := by
  simp only [Comm.add, AddArgs.isIn, addSender, addRecver, hlib]
  split_ifs <;> simp_all [set_length_append]

theorem add_remoteoffset_IPC_get (ctx : Context) (c : Comm) (a : AddArgs) (rx : HandleMsg)
    (hlib : c.lib = .IPC_get) (hlen : c.remoteoffset.length = c.numrecv) :
    (Comm.add ctx c a rx).1.remoteoffset
      = c.remoteoffset ++ (if a.isIn ctx.myid then
          [if a.sendid ≠ a.recvid then rx.offset else a.sendoffset] else []) := by
  simp only [Comm.add, AddArgs.isIn, addSender, addRecver, hlib]
  split_ifs <;> simp_all [set_length_append]

theorem addAll_lib (g : Group) (w : World) (e : Edge) (r : Nat) :
    (addAll g w e r).lib = (w r).lib := by
  simp [addAll, add_lib]

theorem addAll_numsend (g : Group) (w : World) (e : Edge) (r : Nat) :
    (addAll g w e r).numsend
      = (w r).numsend + (if (e.count != 0 && r == e.sendid) then 1 else 0) := by
  simp [addAll, add_numsend, AddArgs.isOut, Edge.argsOn, Group.ctx]

theorem addAll_numrecv (g : Group) (w : World) (e : Edge) (r : Nat) :
    (addAll g w e r).numrecv
      = (w r).numrecv + (if (e.count != 0 && r == e.recvid) then 1 else 0) := by
  simp [addAll, add_numrecv, AddArgs.isIn, Edge.argsOn, Group.ctx]

theorem addAll_remotebuf_IPC (g : Group) (w : World) (e : Edge) (r : Nat)
    (hlib : ∀ p, (w p).lib = .IPC) (hlen : (w r).remotebuf.length = (w r).numsend) :
    (addAll g w e r).remotebuf
      = (w r).remotebuf ++ (if (e.count != 0 && r == e.sendid) then
          [(⟨e.recvid, e.recvbuf e.recvid⟩ : DevPtr)] else []) := by
  unfold addAll
  rw [add_remotebuf_IPC _ _ _ _ (hlib r) hlen]
  simp only [AddArgs.isOut, Edge.argsOn, Group.ctx]
  by_cases h : (e.count != 0 && r == e.sendid) = true
  · simp only [h, if_true]
    simp only [Bool.and_eq_true, bne_iff_ne, beq_iff_eq] at h
    obtain ⟨hc, hr⟩ := h
    subst hr
    by_cases hsr : e.sendid = e.recvid
    · simp [hsr]
    · rw [if_pos hsr, delivered_push g w e (hlib _) hc hsr]
  · simp [h]

theorem addAll_remoteoffset_IPC (g : Group) (w : World) (e : Edge) (r : Nat)
    (hlib : ∀ p, (w p).lib = .IPC) (hlen : (w r).remoteoffset.length = (w r).numsend) :
    (addAll g w e r).remoteoffset
      = (w r).remoteoffset ++ (if (e.count != 0 && r == e.sendid) then
          [e.recvoffset e.recvid] else []) := by
  unfold addAll
  rw [add_remoteoffset_IPC _ _ _ _ (hlib r) hlen]
  simp only [AddArgs.isOut, Edge.argsOn, Group.ctx]
  by_cases h : (e.count != 0 && r == e.sendid) = true
  · simp only [h, if_true]
    simp only [Bool.and_eq_true, bne_iff_ne, beq_iff_eq] at h
    obtain ⟨hc, hr⟩ := h
    subst hr
    by_cases hsr : e.sendid = e.recvid
    · simp [hsr]
    · rw [if_pos hsr, delivered_push g w e (hlib _) hc hsr]
  · simp [h]

theorem addAll_remotebuf_IPC_get (g : Group) (w : World) (e : Edge) (r : Nat)
    (hlib : ∀ p, (w p).lib = .IPC_get) (hlen : (w r).remotebuf.length = (w r).numrecv) :
    (addAll g w e r).remotebuf
      = (w r).remotebuf ++ (if (e.count != 0 && r == e.recvid) then
          [(⟨e.sendid, e.sendbuf e.sendid⟩ : DevPtr)] else []) := by
  unfold addAll
  rw [add_remotebuf_IPC_get _ _ _ _ (hlib r) hlen]
  simp only [AddArgs.isIn, Edge.argsOn, Group.ctx]
  by_cases h : (e.count != 0 && r == e.recvid) = true
  · simp only [h, if_true]
    simp only [Bool.and_eq_true, bne_iff_ne, beq_iff_eq] at h
    obtain ⟨hc, hr⟩ := h
    subst hr
    by_cases hsr : e.sendid = e.recvid
    · simp [hsr]
    · rw [if_pos hsr, delivered_pull g w e (hlib _) hc hsr]
  · simp [h]

theorem addAll_remoteoffset_IPC_get (g : Group) (w : World) (e : Edge) (r : Nat)
    (hlib : ∀ p, (w p).lib = .IPC_get) (hlen : (w r).remoteoffset.length = (w r).numrecv) :
    (addAll g w e r).remoteoffset
      = (w r).remoteoffset ++ (if (e.count != 0 && r == e.recvid) then
          [e.sendoffset e.sendid] else []) := by
  unfold addAll
  rw [add_remoteoffset_IPC_get _ _ _ _ (hlib r) hlen]
  simp only [AddArgs.isIn, Edge.argsOn, Group.ctx]
  by_cases h : (e.count != 0 && r == e.recvid) = true
  · simp only [h, if_true]
    simp only [Bool.and_eq_true, bne_iff_ne, beq_iff_eq] at h
    obtain ⟨hc, hr⟩ := h
    subst hr
    by_cases hsr : e.sendid = e.recvid
    · simp [hsr]
    · rw [if_pos hsr, delivered_pull g w e (hlib _) hc hsr]
  · simp [h]

theorem registerAll_remotebuf_IPC (g : Group) (w : World) (es : List Edge) (r : Nat)
    (hlib : ∀ p, (w p).lib = .IPC) (hlen : (w r).remotebuf.length = (w r).numsend) :
    (registerAll g w es r).remotebuf
      = (w r).remotebuf
        ++ (outEdges es r).map (fun e => (⟨e.recvid, e.recvbuf e.recvid⟩ : DevPtr)) := by
  induction es generalizing w with
  | nil => simp [registerAll_nil, outEdges]
  | cons e es ih =>
    rw [registerAll_cons, ih _ (fun p => by rw [addAll_lib]; exact hlib p)
      (by rw [addAll_remotebuf_IPC g w e r hlib hlen, addAll_numsend]
          split_ifs <;> simp [hlen]),
      addAll_remotebuf_IPC g w e r hlib hlen]
    simp only [outEdges, List.filter_cons]
    split_ifs <;> simp

theorem registerAll_remoteoffset_IPC (g : Group) (w : World) (es : List Edge) (r : Nat)
    (hlib : ∀ p, (w p).lib = .IPC) (hlen : (w r).remoteoffset.length = (w r).numsend) :
    (registerAll g w es r).remoteoffset
      = (w r).remoteoffset ++ (outEdges es r).map (fun e => e.recvoffset e.recvid) := by
  induction es generalizing w with
  | nil => simp [registerAll_nil, outEdges]
  | cons e es ih =>
    rw [registerAll_cons, ih _ (fun p => by rw [addAll_lib]; exact hlib p)
      (by rw [addAll_remoteoffset_IPC g w e r hlib hlen, addAll_numsend]
          split_ifs <;> simp [hlen]),
      addAll_remoteoffset_IPC g w e r hlib hlen]
    simp only [outEdges, List.filter_cons]
    split_ifs <;> simp

theorem registerAll_remotebuf_IPC_get (g : Group) (w : World) (es : List Edge) (r : Nat)
    (hlib : ∀ p, (w p).lib = .IPC_get) (hlen : (w r).remotebuf.length = (w r).numrecv) :
    (registerAll g w es r).remotebuf
      = (w r).remotebuf
        ++ (inEdges es r).map (fun e => (⟨e.sendid, e.sendbuf e.sendid⟩ : DevPtr)) := by
  induction es generalizing w with
  | nil => simp [registerAll_nil, inEdges]
  | cons e es ih =>
    rw [registerAll_cons, ih _ (fun p => by rw [addAll_lib]; exact hlib p)
      (by rw [addAll_remotebuf_IPC_get g w e r hlib hlen, addAll_numrecv]
          split_ifs <;> simp [hlen]),
      addAll_remotebuf_IPC_get g w e r hlib hlen]
    simp only [inEdges, List.filter_cons]
    split_ifs <;> simp

theorem registerAll_remoteoffset_IPC_get (g : Group) (w : World) (es : List Edge) (r : Nat)
    (hlib : ∀ p, (w p).lib = .IPC_get) (hlen : (w r).remoteoffset.length = (w r).numrecv) :
    (registerAll g w es r).remoteoffset
      = (w r).remoteoffset ++ (inEdges es r).map (fun e => e.sendoffset e.sendid) := by
  induction es generalizing w with
  | nil => simp [registerAll_nil, inEdges]
  | cons e es ih =>
    rw [registerAll_cons, ih _ (fun p => by rw [addAll_lib]; exact hlib p)
      (by rw [addAll_remoteoffset_IPC_get g w e r hlib hlen, addAll_numrecv]
          split_ifs <;> simp [hlen]),
      addAll_remoteoffset_IPC_get g w e r hlib hlen]
    simp only [inEdges, List.filter_cons]
    split_ifs <;> simp

/-! ## The transfers issued by `start()` -/

theorem deviceCopies_append (xs ys : List Call) :
    deviceCopies (xs ++ ys) = deviceCopies xs ++ deviceCopies ys := by
  induction xs with
  | nil => rfl
  | cons x xs ih => cases x <;> simp [deviceCopies, ih]

theorem deviceCopies_map_memcpy (I : List Nat) (d s : Nat → DevPtr) (b : Nat → Nat) :
    deviceCopies (I.map (fun i => Call.memcpyAsync (d i) (s i) (b i) i))
      = I.map (fun i => (⟨d i, s i, b i⟩ : Copy)) := by
  induction I with
  | nil => rfl
  | cons i I ih => simp [deviceCopies, ih]

theorem deviceCopies_flatMap_recv_memcpy (I : List Nat) (src : Nat → Nat)
    (d s : Nat → DevPtr) (b : Nat → Nat) :
    deviceCopies (I.flatMap (fun i =>
        [Call.recv .comm_mpi (src i) .ack, Call.memcpyAsync (d i) (s i) (b i) i]))
      = I.map (fun i => (⟨d i, s i, b i⟩ : Copy)) := by
  induction I with
  | nil => rfl
  | cons i I ih =>
    show deviceCopies (Call.recv .comm_mpi (src i) .ack :: Call.memcpyAsync (d i) (s i) (b i) i
      :: I.flatMap (fun i =>
        [Call.recv .comm_mpi (src i) .ack, Call.memcpyAsync (d i) (s i) (b i) i])) = _
    simp only [deviceCopies, ih, List.map_cons]

theorem deviceCopies_map_send (I : List Nat) (dest : Nat → Nat) (p : Nat → Payload) :
    deviceCopies (I.map (fun i => Call.send .comm_mpi (dest i) (p i))) = [] := by
  induction I with
  | nil => rfl
  | cons i I ih => simp [deviceCopies, ih]

theorem deviceCopies_map_recv (I : List Nat) (src : Nat → Nat) :
    deviceCopies (I.map (fun i => Call.recv .comm_mpi (src i) .ack)) = [] := by
  induction I with
  | nil => rfl
  | cons i I ih => simp [deviceCopies, ih]

theorem deviceCopies_map_sync (I : List Nat) :
    deviceCopies (I.map (fun i => Call.streamSynchronize i)) = [] := by
  induction I with
  | nil => rfl
  | cons i I ih => simp [deviceCopies, ih]

theorem deviceCopies_flatMap_sync_send (I : List Nat) (dest : Nat → Nat) (p : Nat → Payload) :
    deviceCopies (I.flatMap (fun i =>
        [Call.streamSynchronize i, Call.send .comm_mpi (dest i) (p i)])) = [] := by
  induction I with
  | nil => rfl
  | cons i I ih =>
    show deviceCopies (Call.streamSynchronize i :: Call.send .comm_mpi (dest i) (p i)
      :: I.flatMap (fun i =>
        [Call.streamSynchronize i, Call.send .comm_mpi (dest i) (p i)])) = _
    simp only [deviceCopies, ih]

theorem getD_map_devptr {α : Type} (L : List α) (f : α → DevPtr) (i : Nat)
    (h : i < L.length) : (L.map f).getD i default = f (L.get ⟨i, h⟩) := by
  simp [List.getD, List.getElem?_eq_getElem, h]

theorem copies_push (g : Group) (es : List Edge) (benchid numcomm0 s : Nat)
    (hlib : g.lib = .IPC) :
    deviceCopies ((registerAll g (g.fresh benchid numcomm0) es s).start (g.ctx s) ++
        (registerAll g (g.fresh benchid numcomm0) es s).wait (g.ctx s))
      = (outEdges es s).map (fun e =>
          (⟨⟨e.recvid, e.recvbuf e.recvid + e.recvoffset e.recvid * g.sizeofT⟩,
            ⟨s, e.sendbuf s + e.sendoffset s * g.sizeofT⟩,
            toSizeT (e.count * g.sizeofT)⟩ : Copy)) := by
  have hl : ∀ p, ((g.fresh benchid numcomm0) p).lib = .IPC := fun p => by
    simp [Group.fresh, Comm.new, hlib]
  have hlibW : (registerAll g (g.fresh benchid numcomm0) es s).lib = .IPC := by
    rw [registerAll_lib]; exact hl s
  rw [deviceCopies_append]
  simp only [Comm.start, Comm.wait, hlibW]
  rw [deviceCopies_append, deviceCopies_flatMap_sync_send, deviceCopies_map_recv,
    List.append_nil, List.append_nil, deviceCopies_map_memcpy]
  rw [registerAll_numsend, registerAll_sendbuf, registerAll_sendoffset, registerAll_sendcount,
    registerAll_sizeofT, registerAll_remotebuf_IPC g _ es s hl rfl,
    registerAll_remoteoffset_IPC g _ es s hl rfl]
  simp only [Group.fresh, Comm.new, List.nil_append, Nat.zero_add, Group.ctx]
  apply map_range_eq
  intro i h
  rw [getD_map_devptr _ _ i h, getD_map_of_lt _ _ i h, getD_map_of_lt _ _ i h,
    getD_map_of_lt _ _ i h, getD_map_of_lt _ _ i h]
  rfl

theorem copies_pull (g : Group) (es : List Edge) (benchid numcomm0 r : Nat)
    (hlib : g.lib = .IPC_get) :
    deviceCopies ((registerAll g (g.fresh benchid numcomm0) es r).start (g.ctx r) ++
        (registerAll g (g.fresh benchid numcomm0) es r).wait (g.ctx r))
      = (inEdges es r).map (fun e =>
          (⟨⟨r, e.recvbuf r + e.recvoffset r * g.sizeofT⟩,
            ⟨e.sendid, e.sendbuf e.sendid + e.sendoffset e.sendid * g.sizeofT⟩,
            toSizeT (e.count * g.sizeofT)⟩ : Copy)) := by
  have hl : ∀ p, ((g.fresh benchid numcomm0) p).lib = .IPC_get := fun p => by
    simp [Group.fresh, Comm.new, hlib]
  have hlibW : (registerAll g (g.fresh benchid numcomm0) es r).lib = .IPC_get := by
    rw [registerAll_lib]; exact hl r
  rw [deviceCopies_append]
  simp only [Comm.start, Comm.wait, hlibW]
  rw [deviceCopies_append, deviceCopies_map_send, deviceCopies_map_sync,
    List.append_nil, List.nil_append, deviceCopies_flatMap_recv_memcpy]
  rw [registerAll_numrecv, registerAll_recvbuf, registerAll_recvoffset, registerAll_recvcount,
    registerAll_sizeofT, registerAll_remotebuf_IPC_get g _ es r hl rfl,
    registerAll_remoteoffset_IPC_get g _ es r hl rfl]
  simp only [Group.fresh, Comm.new, List.nil_append, Nat.zero_add, Group.ctx]
  apply map_range_eq
  intro i h
  rw [getD_map_devptr _ _ i h, getD_map_of_lt _ _ i h, getD_map_of_lt _ _ i h,
    getD_map_of_lt _ _ i h, getD_map_of_lt _ _ i h]
  rfl

theorem toSizeT_of_lt (n : Nat) (h : n < 2 ^ 64) : toSizeT n = n := Nat.mod_eq_of_lt h

theorem toInt32_of_lt (n : Nat) (h : n < 2 ^ 31) : toInt32 n = (n : Int) := by
  unfold toInt32
  have h1 : n % 2 ^ 32 = n := Nat.mod_eq_of_lt (by omega)
  rw [h1, if_pos h]

theorem pairEdges_out (es : List Edge) (s r : Nat) :
    (outEdges es s).filter (fun e => e.recvid == r)
      = ((es.filter Edge.registered).filter (fun e => r == e.recvid)).filter
          (fun e => s == e.sendid) := by
  rw [outEdges, List.filter_filter, List.filter_filter, List.filter_filter]
  apply List.filter_congr
  intro e _
  rw [Bool.eq_iff_iff]
  simp only [Bool.and_eq_true, beq_iff_eq, bne_iff_ne, Edge.registered]
  omega

theorem pairEdges_in (es : List Edge) (s r : Nat) :
    (inEdges es r).filter (fun e => e.sendid == s)
      = ((es.filter Edge.registered).filter (fun e => r == e.recvid)).filter
          (fun e => s == e.sendid) := by
  rw [inEdges, List.filter_filter, List.filter_filter, List.filter_filter]
  apply List.filter_congr
  intro e _
  rw [Bool.eq_iff_iff]
  simp only [Bool.and_eq_true, beq_iff_eq, bne_iff_ne, Edge.registered]
  omega

/-- In a relay the data forwarded by rank 1 is not what its buffer held when `start()` was
issued, once the transfer into that buffer has landed first. -/
theorem relay_forwards_new_data :
    cycleIPC (threeRanks .IPC)
        (registerAll (threeRanks .IPC) ((threeRanks .IPC).fresh 0 0) relay) rankStamp 2 8 = 1 ∧
    rankStamp 1 0 = 2 := by
  decide

/-- Under the message-passing backend a message of `2^31` bytes has the `int` count
`-2^31`: the cycle does not complete. -/
theorem two_gib_message_fails :
    toInt32 (toSizeT (2 ^ 31 * 1)) = -2147483648 ∧
    (cycleMPI (threeRanks .MPI)
        (registerAll (threeRanks .MPI) ((threeRanks .MPI).fresh 0 0) twoGiBEdge)
        rankStamp).isNone = true := by
  have h : mpiCopies (threeRanks .MPI)
      (registerAll (threeRanks .MPI) ((threeRanks .MPI).fresh 0 0) twoGiBEdge) = none := by
    decide
  refine ⟨by decide, ?_⟩
  simp only [cycleMPI, h, Option.isNone_none]

/-- C2: `add` with `count == 0` returns at once on every rank: the whole `Comm` state (so
`numsend`, `numrecv` and every per-edge list) is unchanged and no runtime call (barrier,
send, receive, handle or stream operation) is issued. -/
theorem add_zero_count_noop (ctx : Context) (c : Comm) (a : AddArgs) (rx : HandleMsg)
    (h : a.count = 0) :
    Comm.add ctx c a rx = (c, []) := by
  simp [Comm.add, h]

theorem add_zero_count_noop_witness :
    Comm.add ⟨1, 4, 0⟩ (Comm.new .IPC 4 0 0) ⟨100, 0, 200, 0, 0, 1, 2⟩ ⟨⟨0, 0⟩, 0⟩
      = (Comm.new .IPC 4 0 0, []) :=
  add_zero_count_noop _ _ _ _ rfl

/-- C3: on a freshly constructed `Comm`, a call with non-zero count whose sender is this
rank leaves `numsend == k + 1` and its `sendbuf`, `recvid`, `count` and `sendoffset` at
outgoing index `k`, the number of earlier non-zero calls sent by this rank; calls made
afterwards (`post`) do not move it.  The same holds for the incoming lists when the
receiver is this rank. -/
theorem add_index_assignment (ctx : Context) (lib : library) (sizeofT benchid numcomm0 : Nat)
    (pre post : List (AddArgs × HandleMsg)) (a : AddArgs) (rx : HandleMsg)
    (hcount : a.count ≠ 0) :
    (a.sendid = ctx.myid →
      (Comm.addSeq ctx (Comm.new lib sizeofT benchid numcomm0) (pre ++ [(a, rx)])).numsend
          = outIndex ctx pre + 1 ∧
      (Comm.addSeq ctx (Comm.new lib sizeofT benchid numcomm0)
          (pre ++ (a, rx) :: post)).sendbuf[outIndex ctx pre]? = some a.sendbuf ∧
      (Comm.addSeq ctx (Comm.new lib sizeofT benchid numcomm0)
          (pre ++ (a, rx) :: post)).sendproc[outIndex ctx pre]? = some a.recvid ∧
      (Comm.addSeq ctx (Comm.new lib sizeofT benchid numcomm0)
          (pre ++ (a, rx) :: post)).sendcount[outIndex ctx pre]? = some a.count ∧
      (Comm.addSeq ctx (Comm.new lib sizeofT benchid numcomm0)
          (pre ++ (a, rx) :: post)).sendoffset[outIndex ctx pre]? = some a.sendoffset) ∧
    (a.recvid = ctx.myid →
      (Comm.addSeq ctx (Comm.new lib sizeofT benchid numcomm0) (pre ++ [(a, rx)])).numrecv
          = inIndex ctx pre + 1 ∧
      (Comm.addSeq ctx (Comm.new lib sizeofT benchid numcomm0)
          (pre ++ (a, rx) :: post)).recvbuf[inIndex ctx pre]? = some a.recvbuf ∧
      (Comm.addSeq ctx (Comm.new lib sizeofT benchid numcomm0)
          (pre ++ (a, rx) :: post)).recvproc[inIndex ctx pre]? = some a.sendid ∧
      (Comm.addSeq ctx (Comm.new lib sizeofT benchid numcomm0)
          (pre ++ (a, rx) :: post)).recvcount[inIndex ctx pre]? = some a.count ∧
      (Comm.addSeq ctx (Comm.new lib sizeofT benchid numcomm0)
          (pre ++ (a, rx) :: post)).recvoffset[inIndex ctx pre]? = some a.recvoffset) := by
  constructor
  · intro hs
    have hp : AddArgs.isOut ctx.myid a = true := by simp [AddArgs.isOut, hcount, hs]
    refine ⟨?_, ?_⟩
    · rw [addSeq_numsend]
      simp [outIndex, Comm.new, List.filter_append, List.filter_cons, hp]
    · simp only [addSeq_sendbuf, addSeq_sendproc, addSeq_sendcount, addSeq_sendoffset,
        Comm.new, List.nil_append, List.map_append, List.map_cons, List.map_nil, outIndex]
      exact ⟨getElem?_filter_map_mid _ _ _ _ _ hp, getElem?_filter_map_mid _ _ _ _ _ hp,
        getElem?_filter_map_mid _ _ _ _ _ hp, getElem?_filter_map_mid _ _ _ _ _ hp⟩
  · intro hr
    have hp : AddArgs.isIn ctx.myid a = true := by simp [AddArgs.isIn, hcount, hr]
    refine ⟨?_, ?_⟩
    · rw [addSeq_numrecv]
      simp [inIndex, Comm.new, List.filter_append, List.filter_cons, hp]
    · simp only [addSeq_recvbuf, addSeq_recvproc, addSeq_recvcount, addSeq_recvoffset,
        Comm.new, List.nil_append, List.map_append, List.map_cons, List.map_nil, inIndex]
      exact ⟨getElem?_filter_map_mid _ _ _ _ _ hp, getElem?_filter_map_mid _ _ _ _ _ hp,
        getElem?_filter_map_mid _ _ _ _ _ hp, getElem?_filter_map_mid _ _ _ _ _ hp⟩

theorem add_index_assignment_witness :
    (⟨100, 0, 200, 0, 8, 0, 1⟩ : AddArgs).count ≠ 0 ∧
    (Comm.addSeq ⟨0, 2, 0⟩ (Comm.new .MPI 4 0 0)
        ([(⟨100, 0, 200, 0, 8, 0, 1⟩, ⟨⟨0, 0⟩, 0⟩)] ++
          [(⟨300, 0, 400, 0, 8, 0, 1⟩, ⟨⟨0, 0⟩, 0⟩)])).numsend = 1 + 1 ∧
    (Comm.addSeq ⟨0, 2, 0⟩ (Comm.new .MPI 4 0 0)
        ([(⟨100, 0, 200, 0, 8, 0, 1⟩, ⟨⟨0, 0⟩, 0⟩)] ++
          (⟨300, 0, 400, 0, 8, 0, 1⟩, ⟨⟨0, 0⟩, 0⟩) :: [])).sendbuf[1]? = some 300 :=
  ⟨by decide,
   ((add_index_assignment ⟨0, 2, 0⟩ .MPI 4 0 0 [(⟨100, 0, 200, 0, 8, 0, 1⟩, ⟨⟨0, 0⟩, 0⟩)] []
      ⟨300, 0, 400, 0, 8, 0, 1⟩ ⟨⟨0, 0⟩, 0⟩ (by decide)).1 rfl).1,
   ((add_index_assignment ⟨0, 2, 0⟩ .MPI 4 0 0 [(⟨100, 0, 200, 0, 8, 0, 1⟩, ⟨⟨0, 0⟩, 0⟩)] []
      ⟨300, 0, 400, 0, 8, 0, 1⟩ ⟨⟨0, 0⟩, 0⟩ (by decide)).1 rfl).2.1⟩

/-! ## Consistency of the per-rank registries -/

/-- C4: when every rank issues the same sequence of `add` calls on a fresh `Comm`, then for
every ordered pair of ranks `(s, r)` the counts of rank `s`'s outgoing entries with
`sendproc == r` and the counts of rank `r`'s incoming entries with `recvproc == s` are the
same list (same length, same counts, same order): both are the counts of the registered
edges from `s` to `r` in call order. -/
theorem send_recv_sequences_match (g : Group) (es : List Edge) (benchid numcomm0 s r : Nat) :
    outgoingTo (registerAll g (g.fresh benchid numcomm0) es s) r
        = incomingFrom (registerAll g (g.fresh benchid numcomm0) es r) s ∧
    (outgoingTo (registerAll g (g.fresh benchid numcomm0) es s) r).length
        = (incomingFrom (registerAll g (g.fresh benchid numcomm0) es r) s).length ∧
    ∀ i : Nat, (outgoingTo (registerAll g (g.fresh benchid numcomm0) es s) r)[i]?
        = (incomingFrom (registerAll g (g.fresh benchid numcomm0) es r) s)[i]? := by
  have h : outgoingTo (registerAll g (g.fresh benchid numcomm0) es s) r
      = incomingFrom (registerAll g (g.fresh benchid numcomm0) es r) s := by
    rw [outgoingTo_registerAll, incomingFrom_registerAll]
  exact ⟨h, by rw [h], fun i => by rw [h]⟩

/-! ## The diagnostic matrix -/

/-- C5, as stated, fails when a per-pair total leaves the range of `size_t`: two registered
edges from rank 0 to rank 1 of `2^63` elements each give the matrix entry `0`, while the
sum of their counts is `2^64`. -/
theorem getMatrix_entry_wraps :
    (getMatrixAll twoRanksDummy (registerAll twoRanksDummy (twoRanksDummy.fresh 0 0) twoHugeEdges)
        0 [])[0 * 2 + 1]? = some 0 ∧
    pairTotal twoHugeEdges 0 1 = 2 ^ 64 ∧
    ∀ e ∈ twoHugeEdges, e.sendid < 2 ∧ e.recvid < 2 := by
  refine ⟨?_, by decide, by decide⟩
  have h := getMatrixAll_entry twoRanksDummy
    (registerAll twoRanksDummy (twoRanksDummy.fresh 0 0) twoHugeEdges) 0 0 1
    (by decide) (by decide)
  rw [sendcount_temp_getD _ _ _ _ _ _ (by decide)] at h
  exact h

/-- C5 (amended): for a pattern registered by the same `add` sequence on all `P` ranks with
all `sendid` and `recvid` below `P`, `getMatrix` called with an empty vector returns on every
rank a vector of length `P * P` whose entry `sender * P + receiver` is the sum of `count` over
the registered edges of that pair reduced modulo `2^64`: the sum itself when it is below
`2^64`, `0` when the pair has no registered edge, so a pattern without self-edges has a zero
diagonal. -/
theorem getMatrix_entry (g : Group) (es : List Edge) (benchid numcomm0 me s r : Nat)
    (_hids : ∀ e ∈ es, e.sendid < g.numproc ∧ e.recvid < g.numproc)
    (hs : s < g.numproc) (hr : r < g.numproc) :
    (getMatrixAll g (registerAll g (g.fresh benchid numcomm0) es) me []).length
        = g.numproc * g.numproc ∧
    (getMatrixAll g (registerAll g (g.fresh benchid numcomm0) es) me [])[s * g.numproc + r]?
        = some (pairTotal es s r % 2 ^ 64) ∧
    (pairTotal es s r < 2 ^ 64 →
      (getMatrixAll g (registerAll g (g.fresh benchid numcomm0) es) me [])[s * g.numproc + r]?
        = some (pairTotal es s r)) ∧
    ((∀ e ∈ es, e.count ≠ 0 → ¬ (e.sendid = s ∧ e.recvid = r)) →
      (getMatrixAll g (registerAll g (g.fresh benchid numcomm0) es) me [])[s * g.numproc + r]?
        = some 0) ∧
    ((∀ e ∈ es, e.count ≠ 0 → e.sendid ≠ e.recvid) →
      (getMatrixAll g (registerAll g (g.fresh benchid numcomm0) es) me [])[s * g.numproc + s]?
        = some 0) := by
  have key : ∀ r2, r2 < g.numproc →
      (getMatrixAll g (registerAll g (g.fresh benchid numcomm0) es) me [])[s * g.numproc + r2]?
        = some (pairTotal es s r2 % 2 ^ 64) := by
    intro r2 hr2
    rw [getMatrixAll_entry g _ me s r2 hs hr2, sendcount_temp_getD _ _ _ _ _ _ hr2]
  have zero : ∀ r2, (∀ e ∈ es, e.count ≠ 0 → ¬ (e.sendid = s ∧ e.recvid = r2)) →
      pairTotal es s r2 = 0 := by
    intro r2 h
    unfold pairTotal
    rw [List.filter_eq_nil_iff.mpr]
    · rfl
    · intro e he
      simp only [Bool.and_eq_true, beq_iff_eq, bne_iff_ne, not_and]
      intro h1 h2
      exact h e he h1.1 ⟨h1.2.symm, h2⟩
  refine ⟨getMatrixAll_length _ _ _, key r hr, ?_, ?_, ?_⟩
  · intro hlt
    rw [key r hr, Nat.mod_eq_of_lt hlt]
  · intro h
    rw [key r hr, zero r h, Nat.zero_mod]
  · intro h
    rw [key s hs, zero s (fun e he hc hsr => h e he hc (hsr.1.trans hsr.2.symm)),
      Nat.zero_mod]

theorem getMatrix_entry_witness :
    ((∀ e ∈ oneEdge, e.sendid < twoRanksMPI.numproc ∧ e.recvid < twoRanksMPI.numproc) ∧
      0 < twoRanksMPI.numproc ∧ 1 < twoRanksMPI.numproc) ∧
    (getMatrixAll twoRanksMPI (registerAll twoRanksMPI (twoRanksMPI.fresh 0 0) oneEdge)
        0 [])[0 * twoRanksMPI.numproc + 1]? = some (pairTotal oneEdge 0 1 % 2 ^ 64) :=
  ⟨by decide,
   (getMatrix_entry twoRanksMPI oneEdge 0 0 0 0 1 (by decide) (by decide) (by decide)).2.1⟩

/-! ## Measurement -/

/-- C6: for `numiter >= 1` the reported `medTime` is the element at 0-based index
`numiter / 2` of the measured timings sorted ascending; the index is within range and, for
odd `numiter`, has as many elements before it as after it.  This holds for `measure` (whose
timings are the samples of the last `numiter` cycles) and for `print_stats` (whose
`numiter` is the length of the vector it is given). -/
theorem median_is_sorted_middle (ctx : Context) (c : Comm) (W N : Nat)
    (startOf timeOf : Nat → Nat → ℚ) (garbage : Nat → ℚ) (times : List ℚ) (data : Nat)
    (hN : 1 ≤ N) (ht : 1 ≤ times.length) :
    (N / 2 < N ∧
     ((samples ctx W N timeOf).insertionSort (· ≤ ·))[N / 2]?
        = some (measure ctx c (W : Int) (N : Int) startOf timeOf garbage).1.medTime ∧
     (N % 2 = 1 → N / 2 + 1 + N / 2 = N)) ∧
    (times.length / 2 < times.length ∧
     (times.insertionSort (· ≤ ·))[times.length / 2]? = some (print_stats times data).medTime ∧
     (times.length % 2 = 1 → times.length / 2 + 1 + times.length / 2 = times.length)) := by
  refine ⟨⟨by omega, ?_, by omega⟩, ⟨by omega, ?_, by omega⟩⟩
  · rw [measure_stats, statsOf_medTime]
    apply getD_eq_of_lt
    rw [List.length_insertionSort, samples_length]
    omega
  · rw [print_stats, statsOf_medTime]
    apply getD_eq_of_lt
    rw [List.length_insertionSort]
    omega

theorem median_is_sorted_middle_witness :
    (1 ≤ 1 ∧ 1 ≤ 5 ∧ 1 ≤ 20) ∧
    ((samples demoCtx 2 1 demoTime).insertionSort (· ≤ ·))[1 / 2]?
      = some (measure demoCtx demoComm ((2 : Nat) : Int) ((1 : Nat) : Int) demoTime demoTime
          (fun _ => 0)).1.medTime ∧
    ((samples demoCtx 2 5 demoTime).insertionSort (· ≤ ·))[5 / 2]?
      = some (measure demoCtx demoComm ((2 : Nat) : Int) ((5 : Nat) : Int) demoTime demoTime
          (fun _ => 0)).1.medTime ∧
    ((samples demoCtx 2 20 demoTime).insertionSort (· ≤ ·))[20 / 2]?
      = some (measure demoCtx demoComm ((2 : Nat) : Int) ((20 : Nat) : Int) demoTime demoTime
          (fun _ => 0)).1.medTime ∧
    (([5, 1, 4, 2, 3] : List ℚ).insertionSort (· ≤ ·))[[5, 1, 4, 2, 3].length / 2]?
      = some (print_stats [5, 1, 4, 2, 3] 4096).medTime :=
  ⟨by decide,
   (median_is_sorted_middle demoCtx demoComm 2 1 demoTime demoTime (fun _ => 0) [7] 0
      (by decide) (by decide)).1.2.1,
   (median_is_sorted_middle demoCtx demoComm 2 5 demoTime demoTime (fun _ => 0) [7] 0
      (by decide) (by decide)).1.2.1,
   (median_is_sorted_middle demoCtx demoComm 2 20 demoTime demoTime (fun _ => 0) [7] 0
      (by decide) (by decide)).1.2.1,
   (median_is_sorted_middle demoCtx demoComm 2 5 demoTime demoTime (fun _ => 0) [5, 1, 4, 2, 3]
      4096 (by decide) (by decide)).2.2.1⟩

/-- C7: for `numiter >= 1`, after `measure` the reported `minTime` and `maxTime` are two of
the `numiter` measured timings, every timing lies between them, and
`minTime <= medTime <= maxTime`. -/
theorem min_max_bracket_samples (ctx : Context) (c : Comm) (W N : Nat)
    (startOf timeOf : Nat → Nat → ℚ) (garbage : Nat → ℚ) (hN : 1 ≤ N) :
    (measure ctx c (W : Int) (N : Int) startOf timeOf garbage).1.minTime
        ∈ samples ctx W N timeOf ∧
    (measure ctx c (W : Int) (N : Int) startOf timeOf garbage).1.maxTime
        ∈ samples ctx W N timeOf ∧
    (∀ x ∈ samples ctx W N timeOf,
      (measure ctx c (W : Int) (N : Int) startOf timeOf garbage).1.minTime ≤ x ∧
      x ≤ (measure ctx c (W : Int) (N : Int) startOf timeOf garbage).1.maxTime) ∧
    (measure ctx c (W : Int) (N : Int) startOf timeOf garbage).1.minTime
        ≤ (measure ctx c (W : Int) (N : Int) startOf timeOf garbage).1.medTime ∧
    (measure ctx c (W : Int) (N : Int) startOf timeOf garbage).1.medTime
        ≤ (measure ctx c (W : Int) (N : Int) startOf timeOf garbage).1.maxTime := by
  have hlen : ((samples ctx W N timeOf).insertionSort (· ≤ ·)).length = N := by
    rw [List.length_insertionSort, samples_length]
  have hs := sorted_samples (samples ctx W N timeOf)
  have hperm := List.perm_insertionSort (· ≤ ·) (samples ctx W N timeOf)
  rw [measure_stats, statsOf_minTime, statsOf_medTime, statsOf_maxTime]
  refine ⟨?_, ?_, ?_, ?_, ?_⟩
  · exact hperm.mem_iff.mp (getD_mem_of_lt _ 0 (by omega))
  · exact hperm.mem_iff.mp (getD_mem_of_lt _ (N - 1) (by omega))
  · intro x hx
    obtain ⟨i, hi, rfl⟩ := List.getElem_of_mem (hperm.mem_iff.mpr hx)
    have e := getD_eq_of_lt _ i hi
    rw [List.getElem?_eq_getElem hi] at e
    rw [Option.some.inj e]
    exact ⟨sorted_getD_le _ hs 0 i (by omega) hi,
      sorted_getD_le _ hs i (N - 1) (by omega) (by omega)⟩
  · exact sorted_getD_le _ hs 0 (N / 2) (by omega) (by omega)
  · exact sorted_getD_le _ hs (N / 2) (N - 1) (by omega) (by omega)

theorem min_max_bracket_samples_witness :
    1 ≤ 5 ∧
    (measure demoCtx demoComm ((2 : Nat) : Int) ((5 : Nat) : Int) demoTime demoTime
        (fun _ => 0)).1.minTime
      ≤ (measure demoCtx demoComm ((2 : Nat) : Int) ((5 : Nat) : Int) demoTime demoTime
        (fun _ => 0)).1.medTime ∧
    (measure demoCtx demoComm ((2 : Nat) : Int) ((5 : Nat) : Int) demoTime demoTime
        (fun _ => 0)).1.medTime
      ≤ (measure demoCtx demoComm ((2 : Nat) : Int) ((5 : Nat) : Int) demoTime demoTime
        (fun _ => 0)).1.maxTime :=
  ⟨by decide,
   (min_max_bracket_samples demoCtx demoComm 2 5 demoTime demoTime (fun _ => 0)
      (by decide)).2.2.2.1,
   (min_max_bracket_samples demoCtx demoComm 2 5 demoTime demoTime (fun _ => 0)
      (by decide)).2.2.2.2⟩

/-- C8: for `P >= 1` processes and any value per rank, `allreduce_max` leaves on every rank
(`me < P`) a value that is at least every rank's contribution and is the contribution of
some rank, i.e. the maximum of the `P` values; hence all ranks obtain the same value. -/
theorem allreduce_max_is_maximum {α : Type} [LinearOrder α] [Inhabited α] (P : Nat)
    (printid : Int) (vals : Nat → α) (temp0 temp1 : α) (me other : Nat)
    (hme : me < P) (hother : other < P) :
    (∀ p, p < P → vals p ≤ (allreduce_max ⟨me, P, printid⟩ (vals me) vals temp0).1) ∧
    (∃ p, p < P ∧ (allreduce_max ⟨me, P, printid⟩ (vals me) vals temp0).1 = vals p) ∧
    (allreduce_max ⟨me, P, printid⟩ (vals me) vals temp0).1
      = (allreduce_max ⟨other, P, printid⟩ (vals other) vals temp1).1 := by
  have ub : ∀ (q : Nat) (t : α), q < P → ∀ p, p < P →
      vals p ≤ (allreduce_max ⟨q, P, printid⟩ (vals q) vals t).1 := by
    intro q t hq p hp
    rw [allreduce_max_eq ⟨q, P, printid⟩ vals t hq]
    exact foldl_max_ge_mem vals _ _ p (List.mem_range.mpr hp)
  have att : ∀ (q : Nat) (t : α), q < P →
      ∃ p, p < P ∧ (allreduce_max ⟨q, P, printid⟩ (vals q) vals t).1 = vals p := by
    intro q t hq
    rw [allreduce_max_eq ⟨q, P, printid⟩ vals t hq]
    rcases foldl_max_mem vals (List.range P) (vals q) with h | ⟨i, hi, h⟩
    · exact ⟨q, hq, h⟩
    · exact ⟨i, List.mem_range.mp hi, h⟩
  refine ⟨ub me temp0 hme, att me temp0 hme, ?_⟩
  obtain ⟨p1, hp1, e1⟩ := att me temp0 hme
  obtain ⟨p2, hp2, e2⟩ := att other temp1 hother
  apply le_antisymm
  · rw [e1]; exact ub other temp1 hother p1 hp1
  · rw [e2]; exact ub me temp0 hme p2 hp2

theorem allreduce_max_is_maximum_witness :
    (0 < 3 ∧ 2 < 3) ∧
    (∀ p, p < 3 → demoVals p ≤ (allreduce_max ⟨0, 3, 0⟩ (demoVals 0) demoVals 0).1) ∧
    (allreduce_max ⟨0, 3, 0⟩ (demoVals 0) demoVals 0).1
      = (allreduce_max ⟨2, 3, 0⟩ (demoVals 2) demoVals 0).1 :=
  ⟨by decide,
   (allreduce_max_is_maximum 3 0 demoVals 0 0 0 2 (by decide) (by decide)).1,
   (allreduce_max_is_maximum 3 0 demoVals 0 0 0 2 (by decide) (by decide)).2.2⟩

/-- C9: for `warmup >= 0` and `numiter >= 0`, `measure` executes exactly `warmup + numiter`
cycles, each of the form barrier, clock, `start()`, clock, `wait()`, clock, barrier followed
by the two reductions, one after the other; the array `times` holds after the loop exactly
the `numiter` reduced timings of the last `numiter` cycles, which are the samples the
statistics are computed from, and no timing of the first `warmup` cycles enters them. -/
theorem measure_cycles (ctx : Context) (c : Comm) (W N : Nat)
    (startOf timeOf : Nat → Nat → ℚ) (garbage : Nat → ℚ) :
    (measure ctx c (W : Int) (N : Int) startOf timeOf garbage).2
        = (List.range (W + N)).flatMap (cycleCalls ctx c startOf timeOf) ∧
    (List.range (W + N)).length = W + N ∧
    (∀ k, ∃ tail, cycleCalls ctx c startOf timeOf k
        = Call.barrier .comm_mpi :: Call.wtime :: (c.start ctx ++ Call.wtime ::
            (c.wait ctx ++ Call.wtime :: Call.barrier .comm_mpi :: tail))) ∧
    (measureLoop ctx c (W : Int) (N : Int) startOf timeOf garbage).times
        = (List.range N).map (fun j => reduced ctx timeOf (W + j)) ∧
    (measure ctx c (W : Int) (N : Int) startOf timeOf garbage).1
        = statsOf (((List.range N).map (fun j => reduced ctx timeOf (W + j))).insertionSort
            (· ≤ ·)) (N : Int) ∧
    (∀ timeOf2 : Nat → Nat → ℚ, (∀ k p, W ≤ k → timeOf2 k p = timeOf k p) →
      (measure ctx c (W : Int) (N : Int) startOf timeOf2 garbage).1
        = (measure ctx c (W : Int) (N : Int) startOf timeOf garbage).1) := by
  refine ⟨?_, List.length_range _, ?_, ?_, ?_, ?_⟩
  · simp only [measure, measureLoop_eq]
  · intro k
    exact ⟨_, by simp [cycleCalls]; rfl⟩
  · rw [measureLoop_eq]; rfl
  · rw [measure_stats]; rfl
  · intro timeOf2 h
    rw [measure_stats, measure_stats]
    have : samples ctx W N timeOf2 = samples ctx W N timeOf := by
      unfold samples
      apply List.map_congr_left
      intro j _
      unfold reduced
      have e : timeOf2 (W + j) = timeOf (W + j) := funext (fun p => h (W + j) p (by omega))
      rw [e]
    rw [this]

/-! ## Data volume of `Comm<T>::measure` -/

/-- C10, as stated, fails when the byte count leaves the range of `size_t`: for one edge
from rank 0 to rank 1 of `2^62` elements of a 4-byte type the data volume computed is `0`,
while `sizeof(T)` times the count is `2^64`. -/
theorem measure_data_volume_wraps :
    dataVolume twoRanksDummy (registerAll twoRanksDummy (twoRanksDummy.fresh 0 0) oneHugeEdge) 0
      = 0 ∧
    twoRanksDummy.sizeofT * totalCount oneHugeEdge = 2 ^ 64 := by
  refine ⟨?_, by decide⟩
  rw [dataVolume_eq twoRanksDummy oneHugeEdge 0 0 0 (by decide)]
  decide

/-- C10 (amended): for a pattern registered by the same `add` sequence on all ranks, with
every sender rank below `P`, the data volume used by `Comm::measure(warmup, numiter)` is
`sizeof(T)` times the sum of `count` over the registered edges, reduced modulo `2^64`: the
product itself when it is below `2^64`.  Every edge is counted once, in the outgoing list
of its sender, and the local sums are added across the ranks. -/
theorem measure_data_volume (g : Group) (es : List Edge) (benchid numcomm0 r : Nat)
    (hids : ∀ e ∈ es, e.sendid < g.numproc) :
    dataVolume g (registerAll g (g.fresh benchid numcomm0) es) r
        = (g.sizeofT * totalCount es) % 2 ^ 64 ∧
    (g.sizeofT * totalCount es < 2 ^ 64 →
      dataVolume g (registerAll g (g.fresh benchid numcomm0) es) r
        = g.sizeofT * totalCount es) ∧
    ((List.range g.numproc).map (fun p =>
        ((registerAll g (g.fresh benchid numcomm0) es p).sendcount).sum)).sum
        = totalCount es := by
  refine ⟨dataVolume_eq g es benchid numcomm0 r hids, ?_, ?_⟩
  · intro h
    rw [dataVolume_eq g es benchid numcomm0 r hids, Nat.mod_eq_of_lt h]
  · rw [← sum_outEdges g.numproc es hids]
    congr 1
    apply List.map_congr_left
    intro p _
    rw [registerAll_sendcount]
    simp [Group.fresh, Comm.new]

theorem measure_data_volume_witness :
    (∀ e ∈ oneEdge, e.sendid < twoRanksMPI.numproc) ∧
    dataVolume twoRanksMPI (registerAll twoRanksMPI (twoRanksMPI.fresh 0 0) oneEdge) 0 = 4096 :=
  ⟨by decide,
   (measure_data_volume twoRanksMPI oneEdge 0 0 0 (by decide)).2.1 (by decide)⟩

/-! ## Runtime calls of `add` -/

theorem addSender_numcomm (ctx : Context) (c : Comm) (a : AddArgs) (rx : HandleMsg) :
    (addSender ctx c a rx).1.numcomm = c.numcomm := by
  unfold addSender; split <;> (try split) <;> rfl

theorem addRecver_numcomm (ctx : Context) (c : Comm) (a : AddArgs) (rx : HandleMsg) :
    (addRecver ctx c a rx).1.numcomm = c.numcomm := by
  unfold addRecver; split <;> (try split) <;> rfl

theorem add_numcomm (ctx : Context) (c : Comm) (a : AddArgs) (rx : HandleMsg) :
    (Comm.add ctx c a rx).1.numcomm = if a.count = 0 then c.numcomm else c.numcomm + 1 := by
  simp only [Comm.add]
  split_ifs <;> simp_all [addSender_numcomm, addRecver_numcomm]

theorem add_calls_push (ctx : Context) (c : Comm) (a : AddArgs) (rx : HandleMsg)
    (hlib : c.lib = .IPC) (hc : a.count ≠ 0) :
    (Comm.add ctx c a rx).2
      = Call.barrier .comm_mpi :: addReport ctx a ++
        (if ctx.myid = a.sendid then
          (if a.sendid ≠ a.recvid then openerCalls a.recvid c.numsend rx.memhandle
           else [Call.streamCreate c.numsend]) else []) ++
        (if ctx.myid = a.recvid then
          (if a.sendid ≠ a.recvid then targetCalls ctx.myid a.sendid a.recvbuf a.recvoffset
           else []) else []) := by
  simp only [Comm.add, addSender, addRecver, hlib, openerCalls, targetCalls]
  split_ifs <;> simp_all

theorem add_calls_pull (ctx : Context) (c : Comm) (a : AddArgs) (rx : HandleMsg)
    (hlib : c.lib = .IPC_get) (hc : a.count ≠ 0) :
    (Comm.add ctx c a rx).2
      = Call.barrier .comm_mpi :: addReport ctx a ++
        (if ctx.myid = a.sendid then
          (if a.sendid ≠ a.recvid then targetCalls ctx.myid a.recvid a.sendbuf a.sendoffset
           else []) else []) ++
        (if ctx.myid = a.recvid then
          (if a.sendid ≠ a.recvid then openerCalls a.sendid c.numrecv rx.memhandle
           else [Call.streamCreate c.numrecv]) else []) := by
  simp only [Comm.add, addSender, addRecver, hlib, openerCalls, targetCalls]
  split_ifs <;> simp_all

theorem addAllCalls_zero (g : Group) (w : World) (e : Edge) (r : Nat) (hc : e.count = 0) :
    addAllCalls g w e r = [] := by
  simp [addAllCalls, Comm.add, Edge.argsOn, hc]

theorem addAllCalls_push (g : Group) (w : World) (e : Edge) (r : Nat)
    (hlib : ∀ p, (w p).lib = .IPC) (hc : e.count ≠ 0) :
    addAllCalls g w e r
      = Call.barrier .comm_mpi :: addReport (g.ctx r) (e.argsOn r) ++
        (if r = e.sendid then
          (if e.sendid ≠ e.recvid then
            openerCalls e.recvid (w r).numsend ⟨e.recvid, e.recvbuf e.recvid⟩
           else [Call.streamCreate (w r).numsend]) else []) ++
        (if r = e.recvid then
          (if e.sendid ≠ e.recvid then targetCalls r e.sendid (e.recvbuf r) (e.recvoffset r)
           else []) else []) := by
  unfold addAllCalls
  rw [add_calls_push _ _ _ _ (hlib r) (by simpa [Edge.argsOn] using hc)]
  simp only [Group.ctx, Edge.argsOn]
  by_cases hs : r = e.sendid
  · by_cases hsr : e.sendid = e.recvid
    · simp [hs, hsr]
    · subst hs
      rw [delivered_push g w e (hlib _) hc hsr]
  · simp [hs]

theorem addAllCalls_pull (g : Group) (w : World) (e : Edge) (r : Nat)
    (hlib : ∀ p, (w p).lib = .IPC_get) (hc : e.count ≠ 0) :
    addAllCalls g w e r
      = Call.barrier .comm_mpi :: addReport (g.ctx r) (e.argsOn r) ++
        (if r = e.sendid then
          (if e.sendid ≠ e.recvid then targetCalls r e.recvid (e.sendbuf r) (e.sendoffset r)
           else []) else []) ++
        (if r = e.recvid then
          (if e.sendid ≠ e.recvid then
            openerCalls e.sendid (w r).numrecv ⟨e.sendid, e.sendbuf e.sendid⟩
           else [Call.streamCreate (w r).numrecv]) else []) := by
  unfold addAllCalls
  rw [add_calls_pull _ _ _ _ (hlib r) (by simpa [Edge.argsOn] using hc)]
  simp only [Group.ctx, Edge.argsOn]
  by_cases hr : r = e.recvid
  · by_cases hsr : e.sendid = e.recvid
    · simp [hr, hsr]
    · subst hr
      rw [delivered_pull g w e (hlib _) hc hsr]
  · simp [hr]

/-! ## Counting the handle exchanges -/

theorem countP_open_addReport (ctx : Context) (a : AddArgs) :
    (addReport ctx a).countP Call.isHandleOpen = 0 := by
  unfold addReport
  split_ifs <;> simp [Call.isHandleOpen]

theorem countP_handleSend_addReport (ctx : Context) (a : AddArgs) :
    (addReport ctx a).countP Call.isHandleSend = 0 := by
  unfold addReport
  split_ifs <;> simp [Call.isHandleSend]

theorem countP_open_push (g : Group) (w : World) (e : Edge) (r : Nat)
    (hlib : ∀ p, (w p).lib = .IPC) :
    (addAllCalls g w e r).countP Call.isHandleOpen
      = if r = e.sendid then (if e.needsExchange then 1 else 0) else 0 := by
  by_cases hc : e.count = 0
  · simp [addAllCalls_zero g w e r hc, Edge.needsExchange, hc]
  · rw [addAllCalls_push g w e r hlib hc]
    simp only [List.countP_cons, List.countP_append, countP_open_addReport, Call.isHandleOpen,
      Edge.needsExchange]
    by_cases hsr : e.sendid = e.recvid
    · by_cases hs : r = e.recvid <;>
        simp [hs, hsr, hc, openerCalls, targetCalls, Call.isHandleOpen]
    · have hsr2 : ¬ e.recvid = e.sendid := fun h => hsr h.symm
      by_cases hs : r = e.sendid
      · subst hs
        simp [hsr, hc, openerCalls, targetCalls, Call.isHandleOpen]
      · by_cases hr : r = e.recvid
        · subst hr
          simp [hsr, hsr2, hc, openerCalls, targetCalls, Call.isHandleOpen]
        · simp [hs, hr, hsr, hc, openerCalls, targetCalls, Call.isHandleOpen]

theorem countP_handleSend_push (g : Group) (w : World) (e : Edge) (r : Nat)
    (hlib : ∀ p, (w p).lib = .IPC) :
    (addAllCalls g w e r).countP Call.isHandleSend
      = if r = e.recvid then (if e.needsExchange then 1 else 0) else 0 := by
  by_cases hc : e.count = 0
  · simp [addAllCalls_zero g w e r hc, Edge.needsExchange, hc]
  · rw [addAllCalls_push g w e r hlib hc]
    simp only [List.countP_cons, List.countP_append, countP_handleSend_addReport,
      Call.isHandleSend, Edge.needsExchange]
    by_cases hsr : e.sendid = e.recvid
    · by_cases hs : r = e.recvid <;>
        simp [hs, hsr, hc, openerCalls, targetCalls, Call.isHandleSend]
    · have hsr2 : ¬ e.recvid = e.sendid := fun h => hsr h.symm
      by_cases hs : r = e.sendid
      · subst hs
        simp [hsr, hc, openerCalls, targetCalls, Call.isHandleSend]
      · by_cases hr : r = e.recvid
        · subst hr
          simp [hsr, hsr2, hc, openerCalls, targetCalls, Call.isHandleSend]
        · simp [hs, hr, hsr, hc, openerCalls, targetCalls, Call.isHandleSend]

theorem countP_open_pull (g : Group) (w : World) (e : Edge) (r : Nat)
    (hlib : ∀ p, (w p).lib = .IPC_get) :
    (addAllCalls g w e r).countP Call.isHandleOpen
      = if r = e.recvid then (if e.needsExchange then 1 else 0) else 0 := by
  by_cases hc : e.count = 0
  · simp [addAllCalls_zero g w e r hc, Edge.needsExchange, hc]
  · rw [addAllCalls_pull g w e r hlib hc]
    simp only [List.countP_cons, List.countP_append, countP_open_addReport, Call.isHandleOpen,
      Edge.needsExchange]
    by_cases hsr : e.sendid = e.recvid
    · by_cases hs : r = e.recvid <;>
        simp [hs, hsr, hc, openerCalls, targetCalls, Call.isHandleOpen]
    · have hsr2 : ¬ e.recvid = e.sendid := fun h => hsr h.symm
      by_cases hs : r = e.sendid
      · subst hs
        simp [hsr, hc, openerCalls, targetCalls, Call.isHandleOpen]
      · by_cases hr : r = e.recvid
        · subst hr
          simp [hsr, hsr2, hc, openerCalls, targetCalls, Call.isHandleOpen]
        · simp [hs, hr, hsr, hc, openerCalls, targetCalls, Call.isHandleOpen]

theorem countP_handleSend_pull (g : Group) (w : World) (e : Edge) (r : Nat)
    (hlib : ∀ p, (w p).lib = .IPC_get) :
    (addAllCalls g w e r).countP Call.isHandleSend
      = if r = e.sendid then (if e.needsExchange then 1 else 0) else 0 := by
  by_cases hc : e.count = 0
  · simp [addAllCalls_zero g w e r hc, Edge.needsExchange, hc]
  · rw [addAllCalls_pull g w e r hlib hc]
    simp only [List.countP_cons, List.countP_append, countP_handleSend_addReport,
      Call.isHandleSend, Edge.needsExchange]
    by_cases hsr : e.sendid = e.recvid
    · by_cases hs : r = e.recvid <;>
        simp [hs, hsr, hc, openerCalls, targetCalls, Call.isHandleSend]
    · have hsr2 : ¬ e.recvid = e.sendid := fun h => hsr h.symm
      by_cases hs : r = e.sendid
      · subst hs
        simp [hsr, hc, openerCalls, targetCalls, Call.isHandleSend]
      · by_cases hr : r = e.recvid
        · subst hr
          simp [hsr, hsr2, hc, openerCalls, targetCalls, Call.isHandleSend]
        · simp [hs, hr, hsr, hc, openerCalls, targetCalls, Call.isHandleSend]

theorem handleExchanges_eq (g : Group) (w : World) (es : List Edge)
    (hlib : (∀ p, (w p).lib = .IPC) ∨ (∀ p, (w p).lib = .IPC_get))
    (hids : ∀ e ∈ es, e.sendid < g.numproc ∧ e.recvid < g.numproc) :
    handleExchanges g w es = (es.filter Edge.needsExchange).length ∧
    handleSends g w es = (es.filter Edge.needsExchange).length := by
  induction es generalizing w with
  | nil => exact ⟨rfl, rfl⟩
  | cons e es ih =>
    have he := hids e (List.mem_cons_self _ _)
    have hlib2 : (∀ p, (addAll g w e p).lib = .IPC) ∨ (∀ p, (addAll g w e p).lib = .IPC_get) := by
      rcases hlib with h | h
      · exact Or.inl (fun p => by rw [addAll_lib]; exact h p)
      · exact Or.inr (fun p => by rw [addAll_lib]; exact h p)
    have ih2 := ih (addAll g w e) hlib2 (fun x hx => hids x (List.mem_cons_of_mem _ hx))
    have hone : exchangesAt g w e = (if e.needsExchange then 1 else 0) ∧
        ((List.range g.numproc).map
          (fun r => (addAllCalls g w e r).countP Call.isHandleSend)).sum
          = (if e.needsExchange then 1 else 0) := by
      unfold exchangesAt
      rcases hlib with h | h
      · simp only [countP_open_push g w e _ h, countP_handleSend_push g w e _ h]
        exact ⟨sum_range_ite _ _ _ he.1, sum_range_ite _ _ _ he.2⟩
      · simp only [countP_open_pull g w e _ h, countP_handleSend_pull g w e _ h]
        exact ⟨sum_range_ite _ _ _ he.2, sum_range_ite _ _ _ he.1⟩
    simp only [handleExchanges, handleSends, hone.1, hone.2, ih2.1, ih2.2, List.filter_cons]
    by_cases hn : e.needsExchange = true
    · simp [hn]; omega
    · simp [hn]

theorem addReport_bystander (ctx : Context) (a : AddArgs) (hs : ctx.myid ≠ a.sendid)
    (hr : ctx.myid ≠ a.recvid) :
    addReport ctx a
      = if (ctx.myid : Int) = ctx.printid then
          [Call.recv .comm_mpi a.sendid .bufptr, Call.recv .comm_mpi a.sendid .size,
           Call.recv .comm_mpi a.recvid .bufptr, Call.recv .comm_mpi a.recvid .size]
        else [] := by
  unfold addReport
  by_cases hp : ctx.printid > -1
  · simp [hp, hs, hr]
  · have : ¬ ((ctx.myid : Int) = ctx.printid) := by omega
    simp [hp, this]

theorem add_calls_bystander (ctx : Context) (c : Comm) (a : AddArgs) (rx : HandleMsg)
    (hc : a.count ≠ 0) (hs : ctx.myid ≠ a.sendid) (hr : ctx.myid ≠ a.recvid) :
    (Comm.add ctx c a rx).2
      = Call.barrier .comm_mpi ::
        (if (ctx.myid : Int) = ctx.printid then
          [Call.recv .comm_mpi a.sendid .bufptr, Call.recv .comm_mpi a.sendid .size,
           Call.recv .comm_mpi a.recvid .bufptr, Call.recv .comm_mpi a.recvid .size]
        else []) := by
  simp only [Comm.add, hc, hs, hr, if_false, List.append_nil,
    addReport_bystander ctx a hs hr]

/-! ## The handle exchange of a registered pattern -/

theorem registerAll_lib_of_fresh (g : Group) (es : List Edge) (benchid numcomm0 p : Nat) :
    (registerAll g (g.fresh benchid numcomm0) es p).lib = g.lib := by
  rw [registerAll_lib]; rfl

theorem registerAll_numsend_fresh (g : Group) (es : List Edge) (benchid numcomm0 r : Nat) :
    (registerAll g (g.fresh benchid numcomm0) es r).numsend = (outEdges es r).length := by
  rw [registerAll_numsend]; simp [Group.fresh, Comm.new]

theorem registerAll_numrecv_fresh (g : Group) (es : List Edge) (benchid numcomm0 r : Nat) :
    (registerAll g (g.fresh benchid numcomm0) es r).numrecv = (inEdges es r).length := by
  rw [registerAll_numrecv]; simp [Group.fresh, Comm.new]

/-- C11 (the claim as stated fails): the edge 1 -> 2 is registered on three ranks under the
push backend.  Rank 0 is neither its sender nor its receiver, yet in that call of `add` it
receives four messages for the edge: the buffer pointers and offsets of the `REPORT` block
(`printid = 0`). -/
theorem bystander_receives_report :
    (0 : Nat) ≠ edge12.sendid ∧ (0 : Nat) ≠ edge12.recvid ∧
    addAllCalls (threeRanks .IPC) ((threeRanks .IPC).fresh 0 0) edge12 0
      = [Call.barrier .comm_mpi, Call.recv .comm_mpi 1 .bufptr, Call.recv .comm_mpi 1 .size,
         Call.recv .comm_mpi 2 .bufptr, Call.recv .comm_mpi 2 .size] := by
  decide

/-- C11 (amended): under the push and the pull backend, for a pattern registered by the same
`add` sequence on all ranks (ranks in `0..P-1`), the number of handles opened over the whole
group, and the number of handles sent, is the number of edges with `count != 0` and
`sendid != recvid`.  In the call of such an edge the target exports its handle and sends
handle then offset, the other participant creates its stream, receives the handle, opens it
and receives the offset; a rank that is neither sender nor receiver issues the barrier and,
when it is `printid`, the four receives of the `REPORT` block, and nothing else. -/
theorem handle_exchanges_count (g : Group) (es : List Edge) (benchid numcomm0 : Nat)
    (hlib : g.lib = .IPC ∨ g.lib = .IPC_get)
    (hids : ∀ e ∈ es, e.sendid < g.numproc ∧ e.recvid < g.numproc) :
    handleExchanges g (g.fresh benchid numcomm0) es = (es.filter Edge.needsExchange).length ∧
    handleSends g (g.fresh benchid numcomm0) es = (es.filter Edge.needsExchange).length ∧
    ∀ pre e post, es = pre ++ e :: post → e.needsExchange = true →
      (g.lib = .IPC → ∀ r,
        addAllCalls g (registerAll g (g.fresh benchid numcomm0) pre) e r
          = Call.barrier .comm_mpi :: addReport (g.ctx r) (e.argsOn r) ++
            (if r = e.sendid then
              openerCalls e.recvid (outEdges pre r).length ⟨e.recvid, e.recvbuf e.recvid⟩
             else []) ++
            (if r = e.recvid then targetCalls r e.sendid (e.recvbuf r) (e.recvoffset r)
             else [])) ∧
      (g.lib = .IPC_get → ∀ r,
        addAllCalls g (registerAll g (g.fresh benchid numcomm0) pre) e r
          = Call.barrier .comm_mpi :: addReport (g.ctx r) (e.argsOn r) ++
            (if r = e.sendid then targetCalls r e.recvid (e.sendbuf r) (e.sendoffset r)
             else []) ++
            (if r = e.recvid then
              openerCalls e.sendid (inEdges pre r).length ⟨e.sendid, e.sendbuf e.sendid⟩
             else [])) ∧
      (∀ r, r ≠ e.sendid → r ≠ e.recvid →
        addAllCalls g (registerAll g (g.fresh benchid numcomm0) pre) e r
          = Call.barrier .comm_mpi ::
            (if (r : Int) = g.printid then
              [Call.recv .comm_mpi e.sendid .bufptr, Call.recv .comm_mpi e.sendid .size,
               Call.recv .comm_mpi e.recvid .bufptr, Call.recv .comm_mpi e.recvid .size]
             else [])) := by
  have hfresh : (∀ p, ((g.fresh benchid numcomm0) p).lib = .IPC) ∨
      (∀ p, ((g.fresh benchid numcomm0) p).lib = .IPC_get) := by
    rcases hlib with h | h
    · exact Or.inl (fun p => by simp [Group.fresh, Comm.new, h])
    · exact Or.inr (fun p => by simp [Group.fresh, Comm.new, h])
  have hcount := handleExchanges_eq g (g.fresh benchid numcomm0) es hfresh hids
  refine ⟨hcount.1, hcount.2, ?_⟩
  intro pre e post _ hne
  have hc : e.count ≠ 0 := by
    simp only [Edge.needsExchange, Bool.and_eq_true, bne_iff_ne, ne_eq] at hne
    exact hne.1
  have hsr : e.sendid ≠ e.recvid := by
    simp only [Edge.needsExchange, Bool.and_eq_true, bne_iff_ne, ne_eq] at hne
    exact hne.2
  refine ⟨?_, ?_, ?_⟩
  · intro h r
    rw [addAllCalls_push g _ e r
      (fun p => by rw [registerAll_lib_of_fresh]; exact h) hc, registerAll_numsend_fresh]
    simp [hsr]
  · intro h r
    rw [addAllCalls_pull g _ e r
      (fun p => by rw [registerAll_lib_of_fresh]; exact h) hc, registerAll_numrecv_fresh]
    simp [hsr]
  · intro r hs hr
    unfold addAllCalls
    rw [add_calls_bystander _ _ _ _ (by simpa [Edge.argsOn] using hc)
      (by simpa [Group.ctx, Edge.argsOn] using hs) (by simpa [Group.ctx, Edge.argsOn] using hr)]
    rfl

theorem handle_exchanges_count_witness :
    handleExchanges fourRanksPush (fourRanksPush.fresh 0 0) allToAll4 = 12 :=
  (handle_exchanges_count fourRanksPush allToAll4 0 0 (Or.inl rfl) (by decide)).1.trans
    (by decide)

/-! ## Remote address of an edge -/

theorem getElem?_outEdges_map_mid {β : Type} (pre post : List Edge) (e : Edge) (f : Edge → β)
    (hc : e.count ≠ 0) :
    ((outEdges (pre ++ e :: post) e.sendid).map f)[(outEdges pre e.sendid).length]?
      = some (f e) := by
  unfold outEdges
  exact getElem?_filter_map_mid _ f pre post e (by simp [hc])

theorem getElem?_inEdges_map_mid {β : Type} (pre post : List Edge) (e : Edge) (f : Edge → β)
    (hc : e.count ≠ 0) :
    ((inEdges (pre ++ e :: post) e.recvid).map f)[(inEdges pre e.recvid).length]?
      = some (f e) := by
  unfold inEdges
  exact getElem?_filter_map_mid _ f pre post e (by simp [hc])

/-- C12: for an edge `e` with `sendid != recvid` and `count != 0` in a pattern registered by
the same calls on every rank.  Push: the receiver exports the handle of its `recvbuf` and
sends it, then its `recvoffset`, to the sender; afterwards the sender holds, at the outgoing
index of the edge, the opened handle in `remotebuf` and the receiver's `recvoffset` in
`remoteoffset`, and the copy `start()` issues for that index writes to the opened pointer
plus that offset.  Pull: the sender exports `sendbuf` and sends it with its `sendoffset`;
the receiver holds them at the incoming index of the edge, and the copy of `start()` reads
from the opened pointer plus that offset. -/
theorem remote_offset_exchange (g : Group) (pre post : List Edge) (e : Edge)
    (benchid numcomm0 : Nat) (hc : e.count ≠ 0) (hsr : e.sendid ≠ e.recvid) :
    (g.lib = .IPC →
      addAllCalls g (registerAll g (g.fresh benchid numcomm0) pre) e e.recvid
        = Call.barrier .comm_mpi :: addReport (g.ctx e.recvid) (e.argsOn e.recvid) ++
          targetCalls e.recvid e.sendid (e.recvbuf e.recvid) (e.recvoffset e.recvid) ∧
      (registerAll g (g.fresh benchid numcomm0) (pre ++ e :: post) e.sendid).remotebuf[
          (outEdges pre e.sendid).length]? = some ⟨e.recvid, e.recvbuf e.recvid⟩ ∧
      (registerAll g (g.fresh benchid numcomm0) (pre ++ e :: post) e.sendid).remoteoffset[
          (outEdges pre e.sendid).length]? = some (e.recvoffset e.recvid) ∧
      (deviceCopies ((registerAll g (g.fresh benchid numcomm0) (pre ++ e :: post)
            e.sendid).start (g.ctx e.sendid) ++
          (registerAll g (g.fresh benchid numcomm0) (pre ++ e :: post)
            e.sendid).wait (g.ctx e.sendid)))[(outEdges pre e.sendid).length]?
        = some ⟨(⟨e.recvid, e.recvbuf e.recvid⟩ : DevPtr).offset
                  (e.recvoffset e.recvid * g.sizeofT),
                ⟨e.sendid, e.sendbuf e.sendid + e.sendoffset e.sendid * g.sizeofT⟩,
                toSizeT (e.count * g.sizeofT)⟩) ∧
    (g.lib = .IPC_get →
      addAllCalls g (registerAll g (g.fresh benchid numcomm0) pre) e e.sendid
        = Call.barrier .comm_mpi :: addReport (g.ctx e.sendid) (e.argsOn e.sendid) ++
          targetCalls e.sendid e.recvid (e.sendbuf e.sendid) (e.sendoffset e.sendid) ∧
      (registerAll g (g.fresh benchid numcomm0) (pre ++ e :: post) e.recvid).remotebuf[
          (inEdges pre e.recvid).length]? = some ⟨e.sendid, e.sendbuf e.sendid⟩ ∧
      (registerAll g (g.fresh benchid numcomm0) (pre ++ e :: post) e.recvid).remoteoffset[
          (inEdges pre e.recvid).length]? = some (e.sendoffset e.sendid) ∧
      (deviceCopies ((registerAll g (g.fresh benchid numcomm0) (pre ++ e :: post)
            e.recvid).start (g.ctx e.recvid) ++
          (registerAll g (g.fresh benchid numcomm0) (pre ++ e :: post)
            e.recvid).wait (g.ctx e.recvid)))[(inEdges pre e.recvid).length]?
        = some ⟨⟨e.recvid, e.recvbuf e.recvid + e.recvoffset e.recvid * g.sizeofT⟩,
                (⟨e.sendid, e.sendbuf e.sendid⟩ : DevPtr).offset
                  (e.sendoffset e.sendid * g.sizeofT),
                toSizeT (e.count * g.sizeofT)⟩) := by
  constructor
  · intro h
    have hl : ∀ p, ((g.fresh benchid numcomm0) p).lib = .IPC := fun p => by
      simp [Group.fresh, Comm.new, h]
    refine ⟨?_, ?_, ?_, ?_⟩
    · rw [addAllCalls_push g _ e e.recvid
        (fun p => by rw [registerAll_lib_of_fresh]; exact h) hc]
      simp [hsr, Ne.symm hsr]
    · rw [registerAll_remotebuf_IPC g _ _ e.sendid hl rfl]
      simp only [Group.fresh, Comm.new, List.nil_append]
      exact getElem?_outEdges_map_mid pre post e _ hc
    · rw [registerAll_remoteoffset_IPC g _ _ e.sendid hl rfl]
      simp only [Group.fresh, Comm.new, List.nil_append]
      exact getElem?_outEdges_map_mid pre post e _ hc
    · rw [copies_push g _ benchid numcomm0 e.sendid h]
      exact getElem?_outEdges_map_mid pre post e _ hc
  · intro h
    have hl : ∀ p, ((g.fresh benchid numcomm0) p).lib = .IPC_get := fun p => by
      simp [Group.fresh, Comm.new, h]
    refine ⟨?_, ?_, ?_, ?_⟩
    · rw [addAllCalls_pull g _ e e.sendid
        (fun p => by rw [registerAll_lib_of_fresh]; exact h) hc]
      simp [hsr]
    · rw [registerAll_remotebuf_IPC_get g _ _ e.recvid hl rfl]
      simp only [Group.fresh, Comm.new, List.nil_append]
      exact getElem?_inEdges_map_mid pre post e _ hc
    · rw [registerAll_remoteoffset_IPC_get g _ _ e.recvid hl rfl]
      simp only [Group.fresh, Comm.new, List.nil_append]
      exact getElem?_inEdges_map_mid pre post e _ hc
    · rw [copies_pull g _ benchid numcomm0 e.recvid h]
      exact getElem?_inEdges_map_mid pre post e _ hc

theorem remote_offset_exchange_witness :
    edge12Offset.count ≠ 0 ∧ edge12Offset.sendid ≠ edge12Offset.recvid ∧
    (registerAll (threeRanks .IPC) ((threeRanks .IPC).fresh 0 0)
        ([edge12] ++ edge12Offset :: []) 1).remoteoffset[1]? = some 5 :=
  ⟨by decide, by decide,
   ((remote_offset_exchange (threeRanks .IPC) [edge12] [] edge12Offset 0 0 (by decide)
      (by decide)).1 rfl).2.2.1⟩

/-! ## Self-edges under the handle-based backends -/

theorem addReport_no_handle (ctx : Context) (a : AddArgs) :
    ∀ c ∈ addReport ctx a, c.isHandleExport = false ∧ c.isHandleSend = false ∧
      c.isHandleRecv = false ∧ c.isHandleOpen = false := by
  intro c hc
  unfold addReport at hc
  split_ifs at hc <;> simp at hc <;>
    (try (rcases hc with rfl | rfl | rfl | rfl | rfl | rfl | rfl | rfl | rfl | rfl |
        rfl | rfl)) <;>
    simp [Call.isHandleExport, Call.isHandleSend, Call.isHandleRecv, Call.isHandleOpen]

theorem self_edge_no_handle (ctx : Context) (a : AddArgs) (k : Nat) :
    ∀ c ∈ Call.barrier .comm_mpi :: addReport ctx a ++ [Call.streamCreate k],
      c.isHandleExport = false ∧ c.isHandleSend = false ∧
      c.isHandleRecv = false ∧ c.isHandleOpen = false := by
  intro c hc
  simp only [List.mem_cons, List.mem_append, List.mem_singleton, List.not_mem_nil,
    or_false] at hc
  rcases hc with (rfl | h) | rfl
  · simp [Call.isHandleExport, Call.isHandleSend, Call.isHandleRecv, Call.isHandleOpen]
  · exact addReport_no_handle ctx a c h
  · simp [Call.isHandleExport, Call.isHandleSend, Call.isHandleRecv, Call.isHandleOpen]

/-- C13 (the claim as stated fails): rank 1 registers a self-edge (`sendoffset = 3`,
`recvoffset = 5`) under the push backend with `printid = 0`.  The `REPORT` block of `add`
sends both offsets (and both buffer pointers) from rank 1 to rank 0, which receives them:
offset messages are exchanged for the self-edge. -/
theorem self_edge_offsets_reported :
    addAllCalls (threeRanks .IPC) ((threeRanks .IPC).fresh 0 0) selfEdge1 1
      = [Call.barrier .comm_mpi,
         Call.send .comm_mpi 0 (.bufptr 0), Call.send .comm_mpi 0 (.size 3),
         Call.send .comm_mpi 0 (.bufptr 8), Call.send .comm_mpi 0 (.size 5),
         Call.streamCreate 0] ∧
    addAllCalls (threeRanks .IPC) ((threeRanks .IPC).fresh 0 0) selfEdge1 0
      = [Call.barrier .comm_mpi, Call.recv .comm_mpi 1 .bufptr, Call.recv .comm_mpi 1 .size,
         Call.recv .comm_mpi 1 .bufptr, Call.recv .comm_mpi 1 .size] := by
  decide

/-- C13 (amended): for a call with `sendid == recvid == r` and `count != 0` under the push
or the pull backend, rank `r` issues the barrier, the messages of the `REPORT` block and
the creation of the stream of the edge, and nothing else: no handle is exported, sent,
received or opened.  The stored remote pointer and offset are the own `recvbuf` and
`recvoffset` (push) or `sendbuf` and `sendoffset` (pull), and the copy of `start()` for the
edge is a copy inside rank `r` of `count * sizeof(T)` bytes (in `size_t`) from
`sendbuf + sendoffset` to `recvbuf + recvoffset`. -/
theorem self_edge_local_copy (g : Group) (pre post : List Edge) (e : Edge)
    (benchid numcomm0 r : Nat) (hc : e.count ≠ 0) (hs : e.sendid = r) (hr : e.recvid = r) :
    (g.lib = .IPC →
      addAllCalls g (registerAll g (g.fresh benchid numcomm0) pre) e r
        = Call.barrier .comm_mpi :: addReport (g.ctx r) (e.argsOn r) ++
          [Call.streamCreate (outEdges pre r).length] ∧
      (registerAll g (g.fresh benchid numcomm0) (pre ++ e :: post) r).remotebuf[
          (outEdges pre r).length]? = some ⟨r, e.recvbuf r⟩ ∧
      (registerAll g (g.fresh benchid numcomm0) (pre ++ e :: post) r).remoteoffset[
          (outEdges pre r).length]? = some (e.recvoffset r) ∧
      (deviceCopies ((registerAll g (g.fresh benchid numcomm0) (pre ++ e :: post)
            r).start (g.ctx r) ++
          (registerAll g (g.fresh benchid numcomm0) (pre ++ e :: post)
            r).wait (g.ctx r)))[(outEdges pre r).length]?
        = some ⟨⟨r, e.recvbuf r + e.recvoffset r * g.sizeofT⟩,
                ⟨r, e.sendbuf r + e.sendoffset r * g.sizeofT⟩,
                toSizeT (e.count * g.sizeofT)⟩) ∧
    (g.lib = .IPC_get →
      addAllCalls g (registerAll g (g.fresh benchid numcomm0) pre) e r
        = Call.barrier .comm_mpi :: addReport (g.ctx r) (e.argsOn r) ++
          [Call.streamCreate (inEdges pre r).length] ∧
      (registerAll g (g.fresh benchid numcomm0) (pre ++ e :: post) r).remotebuf[
          (inEdges pre r).length]? = some ⟨r, e.sendbuf r⟩ ∧
      (registerAll g (g.fresh benchid numcomm0) (pre ++ e :: post) r).remoteoffset[
          (inEdges pre r).length]? = some (e.sendoffset r) ∧
      (deviceCopies ((registerAll g (g.fresh benchid numcomm0) (pre ++ e :: post)
            r).start (g.ctx r) ++
          (registerAll g (g.fresh benchid numcomm0) (pre ++ e :: post)
            r).wait (g.ctx r)))[(inEdges pre r).length]?
        = some ⟨⟨r, e.recvbuf r + e.recvoffset r * g.sizeofT⟩,
                ⟨r, e.sendbuf r + e.sendoffset r * g.sizeofT⟩,
                toSizeT (e.count * g.sizeofT)⟩) ∧
    (g.lib = .IPC ∨ g.lib = .IPC_get →
      ∀ c ∈ addAllCalls g (registerAll g (g.fresh benchid numcomm0) pre) e r,
        c.isHandleExport = false ∧ c.isHandleSend = false ∧
        c.isHandleRecv = false ∧ c.isHandleOpen = false) := by
  have hpush : g.lib = .IPC →
      addAllCalls g (registerAll g (g.fresh benchid numcomm0) pre) e r
        = Call.barrier .comm_mpi :: addReport (g.ctx r) (e.argsOn r) ++
          [Call.streamCreate (outEdges pre r).length] := by
    intro h
    rw [addAllCalls_push g _ e r (fun p => by rw [registerAll_lib_of_fresh]; exact h) hc,
      registerAll_numsend_fresh]
    simp [hs, hr]
  have hpull : g.lib = .IPC_get →
      addAllCalls g (registerAll g (g.fresh benchid numcomm0) pre) e r
        = Call.barrier .comm_mpi :: addReport (g.ctx r) (e.argsOn r) ++
          [Call.streamCreate (inEdges pre r).length] := by
    intro h
    rw [addAllCalls_pull g _ e r (fun p => by rw [registerAll_lib_of_fresh]; exact h) hc,
      registerAll_numrecv_fresh]
    simp [hs, hr]
  refine ⟨?_, ?_, ?_⟩
  · intro h
    have hl : ∀ p, ((g.fresh benchid numcomm0) p).lib = .IPC := fun p => by
      simp [Group.fresh, Comm.new, h]
    refine ⟨hpush h, ?_, ?_, ?_⟩
    · rw [registerAll_remotebuf_IPC g _ _ r hl rfl]
      simp only [Group.fresh, Comm.new, List.nil_append]
      subst hs
      rw [getElem?_outEdges_map_mid pre post e _ hc, hr]
    · rw [registerAll_remoteoffset_IPC g _ _ r hl rfl]
      simp only [Group.fresh, Comm.new, List.nil_append]
      subst hs
      rw [getElem?_outEdges_map_mid pre post e _ hc, hr]
    · rw [copies_push g _ benchid numcomm0 r h]
      subst hs
      rw [getElem?_outEdges_map_mid pre post e _ hc, hr]
  · intro h
    have hl : ∀ p, ((g.fresh benchid numcomm0) p).lib = .IPC_get := fun p => by
      simp [Group.fresh, Comm.new, h]
    refine ⟨hpull h, ?_, ?_, ?_⟩
    · rw [registerAll_remotebuf_IPC_get g _ _ r hl rfl]
      simp only [Group.fresh, Comm.new, List.nil_append]
      subst hr
      rw [getElem?_inEdges_map_mid pre post e _ hc, hs]
    · rw [registerAll_remoteoffset_IPC_get g _ _ r hl rfl]
      simp only [Group.fresh, Comm.new, List.nil_append]
      subst hr
      rw [getElem?_inEdges_map_mid pre post e _ hc, hs]
    · rw [copies_pull g _ benchid numcomm0 r h]
      subst hr
      rw [getElem?_inEdges_map_mid pre post e _ hc, hs]
  · intro h
    rcases h with h | h
    · rw [hpush h]; exact self_edge_no_handle _ _ _
    · rw [hpull h]; exact self_edge_no_handle _ _ _

theorem self_edge_local_copy_witness :
    selfEdge1.count ≠ 0 ∧ selfEdge1.sendid = 1 ∧ selfEdge1.recvid = 1 ∧
    (registerAll (threeRanks .IPC) ((threeRanks .IPC).fresh 0 0)
        ([] ++ selfEdge1 :: []) 1).remoteoffset[0]? = some 5 :=
  ⟨by decide, rfl, rfl,
   ((self_edge_local_copy (threeRanks .IPC) [] [] selfEdge1 0 0 1 (by decide) rfl rfl).1
      rfl).2.2.1⟩

/-! ## Frame of `add` on a rank outside the edge -/

/-- C14: a call of `add` with `count != 0` on a rank that is neither `sendid` nor `recvid`
changes nothing of the `Comm` but `numcomm`, which grows by one, whatever the backend
(`numsend`, `numrecv` and every list stay as they are); `numcomm` grows by one on every
rank, participant or not; a call with `count == 0` leaves it as it is. -/
theorem add_bystander_frame (ctx : Context) (c : Comm) (a : AddArgs) (rx : HandleMsg)
    (hc : a.count ≠ 0) (hs : ctx.myid ≠ a.sendid) (hr : ctx.myid ≠ a.recvid) :
    (Comm.add ctx c a rx).1 = { c with numcomm := c.numcomm + 1 } ∧
    (∀ ctx2 rx2, (Comm.add ctx2 c a rx2).1.numcomm = c.numcomm + 1) ∧
    (∀ ctx2 rx2, (Comm.add ctx2 c { a with count := 0 } rx2).1.numcomm = c.numcomm) := by
  refine ⟨?_, ?_, ?_⟩
  · simp [Comm.add, hc, hs, hr]
  · intro ctx2 rx2
    rw [add_numcomm, if_neg hc]
  · intro ctx2 rx2
    rw [add_numcomm, if_pos rfl]

theorem add_bystander_frame_witness :
    (Comm.add ⟨0, 3, 0⟩ (Comm.new .IPC 4 0 7) ⟨100, 0, 200, 0, 5, 1, 2⟩ ⟨⟨0, 0⟩, 0⟩).1
      = { Comm.new .IPC 4 0 7 with numcomm := 7 + 1 } :=
  (add_bystander_frame ⟨0, 3, 0⟩ (Comm.new .IPC 4 0 7) ⟨100, 0, 200, 0, 5, 1, 2⟩ ⟨⟨0, 0⟩, 0⟩
    (by decide) (by decide) (by decide)).1

/-! ## Order of the calls of `start()` and `wait()` -/

theorem flatMap_pair_length {β : Type} (n : Nat) (f h : Nat → β) :
    ((List.range n).flatMap (fun i => [f i, h i])).length = 2 * n := by
  induction n with
  | zero => rfl
  | succ n ih =>
    rw [List.range_succ, List.flatMap_append, List.length_append, ih]
    simp
    omega

theorem flatMap_pair_getElem? {β : Type} (n : Nat) (f h : Nat → β) (i : Nat) (hi : i < n) :
    ((List.range n).flatMap (fun i => [f i, h i]))[2 * i]? = some (f i) ∧
    ((List.range n).flatMap (fun i => [f i, h i]))[2 * i + 1]? = some (h i) := by
  induction n with
  | zero => omega
  | succ n ih =>
    rw [List.range_succ, List.flatMap_append]
    by_cases hlt : i < n
    · have h1 := ih hlt
      have hl := flatMap_pair_length n f h
      rw [List.getElem?_append_left (by omega), List.getElem?_append_left (by omega)]
      exact h1
    · have hin : i = n := by omega
      subst hin
      have hl := flatMap_pair_length i f h
      rw [List.getElem?_append_right (by omega), List.getElem?_append_right (by omega), hl]
      simp

theorem map_range_getElem? {β : Type} (n : Nat) (f : Nat → β) (i : Nat) (hi : i < n) :
    ((List.range n).map f)[i]? = some (f i) := by
  simp [hi]

theorem acksTo_append (dest : Nat) (xs ys : List Call) :
    acksTo dest (xs ++ ys) = acksTo dest xs + acksTo dest ys := by
  induction xs with
  | nil => simp [acksTo]
  | cons x xs ih =>
    cases x
    case send comm d p => cases p <;> simp [acksTo, ih]; omega
    all_goals simp [acksTo, ih]

theorem acksFrom_append (src : Nat) (xs ys : List Call) :
    acksFrom src (xs ++ ys) = acksFrom src xs + acksFrom src ys := by
  induction xs with
  | nil => simp [acksFrom]
  | cons x xs ih =>
    cases x
    case recv comm s k => cases k <;> simp [acksFrom, ih]; omega
    all_goals simp [acksFrom, ih]

theorem acksTo_flatMap_sync_send (dest : Nat) (I : List Nat) (d v : Nat → Nat) :
    acksTo dest (I.flatMap (fun i =>
        [Call.streamSynchronize i, Call.send .comm_mpi (d i) (.ack (v i))]))
      = (I.filter (fun i => d i == dest)).length := by
  induction I with
  | nil => rfl
  | cons i I ih =>
    show acksTo dest (Call.streamSynchronize i :: Call.send .comm_mpi (d i) (.ack (v i)) ::
      I.flatMap _) = _
    simp only [acksTo, ih, List.filter_cons]
    by_cases h : d i = dest <;> simp [h]; omega

theorem acksTo_map_recv (dest : Nat) (I : List Nat) (s : Nat → Nat) :
    acksTo dest (I.map (fun i => Call.recv .comm_mpi (s i) .ack)) = 0 := by
  induction I with
  | nil => rfl
  | cons i I ih => simp [acksTo, ih]

theorem acksFrom_flatMap_sync_send (src : Nat) (I : List Nat) (d v : Nat → Nat) :
    acksFrom src (I.flatMap (fun i =>
        [Call.streamSynchronize i, Call.send .comm_mpi (d i) (.ack (v i))])) = 0 := by
  induction I with
  | nil => rfl
  | cons i I ih =>
    show acksFrom src (Call.streamSynchronize i :: Call.send .comm_mpi (d i) (.ack (v i)) ::
      I.flatMap _) = _
    simp only [acksFrom, ih]

theorem acksFrom_map_recv (src : Nat) (I : List Nat) (s : Nat → Nat) :
    acksFrom src (I.map (fun i => Call.recv .comm_mpi (s i) .ack))
      = (I.filter (fun i => s i == src)).length := by
  induction I with
  | nil => rfl
  | cons i I ih =>
    simp only [List.map_cons, acksFrom, ih, List.filter_cons]
    by_cases h : s i = src <;> simp [h]; omega

theorem filter_range_getD_length (L : List Edge) (f : Edge → Nat) (r : Nat) :
    ((List.range L.length).filter (fun i => (L.map f).getD i 0 == r)).length
      = (L.filter (fun e => f e == r)).length := by
  rw [← List.countP_eq_length_filter, ← List.countP_eq_length_filter]
  have h1 : List.countP (fun i => (L.map f).getD i 0 == r) (List.range L.length)
      = List.countP (fun x => x == r) ((List.range L.length).map (fun i => (L.map f).getD i 0)) := by
    rw [List.countP_map]; rfl
  rw [h1, map_range_eq L _ f (fun i h => getD_map_of_lt L f i h), List.countP_map]
  rfl

theorem acksTo_wait_push (g : Group) (es : List Edge) (benchid numcomm0 s r : Nat)
    (hlib : g.lib = .IPC) :
    acksTo r ((registerAll g (g.fresh benchid numcomm0) es s).wait (g.ctx s))
      = ((outEdges es s).filter (fun e => e.recvid == r)).length := by
  have hlibW : (registerAll g (g.fresh benchid numcomm0) es s).lib = .IPC := by
    rw [registerAll_lib_of_fresh]; exact hlib
  simp only [Comm.wait, hlibW]
  rw [acksTo_append, acksTo_map_recv, acksTo_flatMap_sync_send, registerAll_numsend_fresh,
    registerAll_sendproc]
  simp only [Group.fresh, Comm.new, List.nil_append, Nat.add_zero]
  exact filter_range_getD_length _ _ _

theorem acksFrom_wait_push (g : Group) (es : List Edge) (benchid numcomm0 s r : Nat)
    (hlib : g.lib = .IPC) :
    acksFrom s ((registerAll g (g.fresh benchid numcomm0) es r).wait (g.ctx r))
      = ((inEdges es r).filter (fun e => e.sendid == s)).length := by
  have hlibW : (registerAll g (g.fresh benchid numcomm0) es r).lib = .IPC := by
    rw [registerAll_lib_of_fresh]; exact hlib
  simp only [Comm.wait, hlibW]
  rw [acksFrom_append, acksFrom_map_recv, acksFrom_flatMap_sync_send, registerAll_numrecv_fresh,
    registerAll_recvproc]
  simp only [Group.fresh, Comm.new, List.nil_append, Nat.zero_add]
  exact filter_range_getD_length _ _ _

/-- C15: under the push backend `wait()` issues, for every outgoing edge `i` in registration
order, the synchronization of stream `i` (the stream on which `start()` issued the copy of
edge `i`) immediately followed by the acknowledgment to `sendproc[i]`, and after all of them
one acknowledgment receive from `recvproc[j]` for every incoming edge `j`, in order.  For a
pattern registered by the same calls on every rank the number of acknowledgments rank `s`
sends to rank `r` is the number `r` receives from `s`: the number of registered edges from
`s` to `r`. -/
theorem wait_ack_after_sync (ctx : Context) (c : Comm) (g : Group) (es : List Edge)
    (benchid numcomm0 s r : Nat) (hc : c.lib = .IPC) (hlib : g.lib = .IPC) :
    (c.wait ctx).length = 2 * c.numsend + c.numrecv ∧
    (∀ i, i < c.numsend →
      (∃ dst src bytes, (c.start ctx)[i]? = some (Call.memcpyAsync dst src bytes i)) ∧
      (c.wait ctx)[2 * i]? = some (Call.streamSynchronize i) ∧
      (c.wait ctx)[2 * i + 1]?
        = some (Call.send .comm_mpi (c.sendproc.getD i 0) (.ack (c.ack_sender.getD i 0)))) ∧
    (∀ j, j < c.numrecv →
      (c.wait ctx)[2 * c.numsend + j]?
        = some (Call.recv .comm_mpi (c.recvproc.getD j 0) .ack)) ∧
    acksTo r ((registerAll g (g.fresh benchid numcomm0) es s).wait (g.ctx s))
      = acksFrom s ((registerAll g (g.fresh benchid numcomm0) es r).wait (g.ctx r)) ∧
    acksTo r ((registerAll g (g.fresh benchid numcomm0) es s).wait (g.ctx s))
      = (((es.filter Edge.registered).filter (fun e => r == e.recvid)).filter
          (fun e => s == e.sendid)).length := by
  refine ⟨?_, ?_, ?_, ?_, ?_⟩
  · simp only [Comm.wait, hc, List.length_append, flatMap_pair_length, List.length_map,
      List.length_range]
  · intro i hi
    refine ⟨?_, ?_, ?_⟩
    · simp only [Comm.start, hc]
      exact ⟨_, _, _, map_range_getElem? _ _ i hi⟩
    · simp only [Comm.wait, hc]
      rw [List.getElem?_append_left (by rw [flatMap_pair_length]; omega)]
      exact (flatMap_pair_getElem? _ _ _ i hi).1
    · simp only [Comm.wait, hc]
      rw [List.getElem?_append_left (by rw [flatMap_pair_length]; omega)]
      exact (flatMap_pair_getElem? _ _ _ i hi).2
  · intro j hj
    simp only [Comm.wait, hc]
    rw [List.getElem?_append_right (by rw [flatMap_pair_length]; omega), flatMap_pair_length]
    simp [hj]
  · rw [acksTo_wait_push g es benchid numcomm0 s r hlib,
      acksFrom_wait_push g es benchid numcomm0 s r hlib, pairEdges_out, pairEdges_in]
  · rw [acksTo_wait_push g es benchid numcomm0 s r hlib, pairEdges_out]

theorem wait_ack_after_sync_witness :
    ((pushWorld 0).wait ⟨0, 3, 0⟩)[2 * 0 + 1]?
      = some (Call.send .comm_mpi ((pushWorld 0).sendproc.getD 0 0)
          (.ack ((pushWorld 0).ack_sender.getD 0 0))) ∧
    acksTo 2 ((registerAll (threeRanks .IPC) ((threeRanks .IPC).fresh 0 0) fanIn 1).wait
        ((threeRanks .IPC).ctx 1))
      = acksFrom 1 ((registerAll (threeRanks .IPC) ((threeRanks .IPC).fresh 0 0) fanIn 2).wait
        ((threeRanks .IPC).ctx 2)) :=
  ⟨((wait_ack_after_sync ⟨0, 3, 0⟩ (pushWorld 0) (threeRanks .IPC) fanIn 0 0 1 2 (by decide)
      rfl).2.1 0 (by decide)).2.2,
   (wait_ack_after_sync ⟨0, 3, 0⟩ (pushWorld 0) (threeRanks .IPC) fanIn 0 0 1 2 (by decide)
      rfl).2.2.2.1⟩

/-- C16 (the claim as stated fails): three ranks with the pull backend, one edge 1 -> 2.
`start()` on the receiver (rank 2) issues the device copy of the edge, right after receiving
the acknowledgment of rank 1; `wait()` issues no copy, it only synchronizes the stream. -/
theorem pull_start_issues_copy :
    (pullWorld 2).start ⟨2, 3, 0⟩
      = [Call.recv .comm_mpi 1 .ack, Call.memcpyAsync ⟨2, 8⟩ ⟨1, 0⟩ 1 0] ∧
    (pullWorld 2).wait ⟨2, 3, 0⟩ = [Call.streamSynchronize 0] := by
  decide

/-- C16 (amended): under the pull backend `start()` first sends the acknowledgment of every
outgoing edge to `sendproc[i]`, then for every incoming edge `j`, in order, it receives the
acknowledgment of `recvproc[j]` and issues the asynchronous copy from the remote address
into `recvbuf[j] + recvoffset[j]` on stream `j`; `wait()` issues no copy: it synchronizes the
stream of every incoming edge. -/
theorem pull_start_wait (ctx : Context) (c : Comm) (hc : c.lib = .IPC_get) :
    (c.start ctx).length = c.numsend + 2 * c.numrecv ∧
    (∀ i, i < c.numsend →
      (c.start ctx)[i]?
        = some (Call.send .comm_mpi (c.sendproc.getD i 0) (.ack (c.ack_sender.getD i 0)))) ∧
    (∀ j, j < c.numrecv →
      (c.start ctx)[c.numsend + 2 * j]?
        = some (Call.recv .comm_mpi (c.recvproc.getD j 0) .ack) ∧
      (c.start ctx)[c.numsend + (2 * j + 1)]?
        = some (Call.memcpyAsync
            ⟨ctx.myid, c.recvbuf.getD j 0 + c.recvoffset.getD j 0 * c.sizeofT⟩
            ((c.remotebuf.getD j default).offset (c.remoteoffset.getD j 0 * c.sizeofT))
            (toSizeT (c.recvcount.getD j 0 * c.sizeofT)) j)) ∧
    (deviceCopies (c.start ctx)).length = c.numrecv ∧
    c.wait ctx = (List.range c.numrecv).map (fun j => Call.streamSynchronize j) ∧
    deviceCopies (c.wait ctx) = [] := by
  refine ⟨?_, ?_, ?_, ?_, ?_, ?_⟩
  · simp only [Comm.start, hc, List.length_append, flatMap_pair_length, List.length_map,
      List.length_range]
  · intro i hi
    simp only [Comm.start, hc]
    rw [List.getElem?_append_left (by simpa using hi)]
    exact map_range_getElem? _ _ i hi
  · intro j hj
    simp only [Comm.start, hc]
    rw [List.getElem?_append_right (by simp), List.getElem?_append_right (by simp)]
    simp only [List.length_map, List.length_range, Nat.add_sub_cancel_left]
    exact flatMap_pair_getElem? _ _ _ j hj
  · simp only [Comm.start, hc]
    rw [deviceCopies_append, deviceCopies_map_send, deviceCopies_flatMap_recv_memcpy]
    simp
  · simp only [Comm.wait, hc]
  · simp only [Comm.wait, hc]
    exact deviceCopies_map_sync _

theorem pull_start_wait_witness :
    (deviceCopies ((pullWorld 2).start ⟨2, 3, 0⟩)).length = (pullWorld 2).numrecv ∧
    deviceCopies ((pullWorld 2).wait ⟨2, 3, 0⟩) = [] :=
  ⟨(pull_start_wait ⟨2, 3, 0⟩ (pullWorld 2) (by decide)).2.2.2.1,
   (pull_start_wait ⟨2, 3, 0⟩ (pullWorld 2) (by decide)).2.2.2.2.2⟩

/-! ## The communicator of the control traffic -/

theorem addReport_onWorld (ctx : Context) (a : AddArgs) :
    ∀ x ∈ addReport ctx a, x.onWorld = false := by
  intro x hx
  unfold addReport at hx
  split_ifs at hx <;> simp at hx <;>
    (try (rcases hx with rfl | rfl | rfl | rfl | rfl | rfl | rfl | rfl | rfl | rfl |
        rfl | rfl)) <;>
    simp [Call.onWorld, Call.communicator]

theorem addSender_onWorld (ctx : Context) (c : Comm) (a : AddArgs) (rx : HandleMsg) :
    ∀ x ∈ (addSender ctx c a rx).2, x.onWorld = false := by
  intro x hx
  unfold addSender at hx
  split at hx <;> (try split_ifs at hx) <;> simp at hx <;>
    (try (rcases hx with rfl | rfl | rfl | rfl)) <;>
    simp [Call.onWorld, Call.communicator]

theorem addRecver_onWorld (ctx : Context) (c : Comm) (a : AddArgs) (rx : HandleMsg) :
    ∀ x ∈ (addRecver ctx c a rx).2, x.onWorld = false := by
  intro x hx
  unfold addRecver at hx
  split at hx <;> (try split_ifs at hx) <;> simp at hx <;>
    (try (rcases hx with rfl | rfl | rfl | rfl)) <;>
    simp [Call.onWorld, Call.communicator]

theorem add_onWorld (ctx : Context) (c : Comm) (a : AddArgs) (rx : HandleMsg) :
    ∀ x ∈ (Comm.add ctx c a rx).2, x.onWorld = false := by
  intro x hx
  unfold Comm.add at hx
  by_cases hc : a.count = 0
  · simp [hc] at hx
  · simp only [hc, if_false, List.mem_cons, List.mem_append] at hx
    rcases hx with ((rfl | h) | h) | h
    · rfl
    · exact addReport_onWorld ctx a x h
    · split_ifs at h
      · exact addSender_onWorld _ _ _ _ x h
      · simp at h
    · split_ifs at h
      all_goals first
        | exact addRecver_onWorld _ _ _ _ x h
        | exact absurd h (by simp)

theorem start_onWorld (ctx : Context) (c : Comm) : ∀ x ∈ c.start ctx, x.onWorld = false := by
  intro x hx
  unfold Comm.start at hx
  split at hx <;>
    simp only [List.mem_append, List.mem_map, List.mem_flatMap, List.mem_range, List.mem_cons,
      List.mem_singleton, List.not_mem_nil, or_false] at hx
  · rcases hx with ⟨i, _, rfl⟩ | ⟨i, _, rfl⟩ <;> rfl
  · rcases hx with ((rfl | ⟨i, _, rfl⟩) | ⟨i, _, rfl⟩) | rfl <;> rfl
  · rcases hx with ⟨i, _, rfl⟩; rfl
  · rcases hx with ⟨i, _, rfl⟩ | ⟨i, _, rfl | rfl⟩ <;> rfl

theorem wait_onWorld (ctx : Context) (c : Comm) : ∀ x ∈ c.wait ctx, x.onWorld = false := by
  intro x hx
  unfold Comm.wait at hx
  split at hx <;>
    simp only [List.mem_append, List.mem_map, List.mem_flatMap, List.mem_range, List.mem_cons,
      List.mem_singleton, List.not_mem_nil, or_false] at hx
  · rcases hx with rfl | rfl <;> rfl
  · subst hx; rfl
  · rcases hx with ⟨i, _, rfl | rfl⟩ | ⟨i, _, rfl⟩ <;> rfl
  · rcases hx with ⟨i, _, rfl⟩; rfl

/-- C17 (the code departs from the claim): `report()` issues two `MPI_Allgather` calls on
`MPI_COMM_WORLD`, and so does `Comm<T>::measure`, which calls it; every call of `add`,
`getMatrix`, `start()` and `wait()` goes over `comm_mpi`. -/
theorem report_uses_world_communicator (ctx : Context) (c : Comm)
    (sendcontrib recvcontrib : Nat → List Nat) (warmup numiter : Int)
    (startOf timeOf : Nat → Nat → ℚ) (garbage : Nat → ℚ) (a : AddArgs) (rx : HandleMsg)
    (matrix : List Nat) :
    (c.report ctx sendcontrib recvcontrib).filter Call.onWorld
      = [Call.allgather .MPI_COMM_WORLD, Call.allgather .MPI_COMM_WORLD] ∧
    Call.allgather .MPI_COMM_WORLD
      ∈ c.measure ctx warmup numiter sendcontrib recvcontrib startOf timeOf garbage ∧
    (∀ x ∈ (Comm.add ctx c a rx).2, x.onWorld = false) ∧
    (∀ x ∈ (c.getMatrix ctx matrix sendcontrib recvcontrib).2, x.onWorld = false) ∧
    (∀ x ∈ c.start ctx, x.onWorld = false) ∧
    (∀ x ∈ c.wait ctx, x.onWorld = false) := by
  refine ⟨by simp [Comm.report, Comm.getMatrix, Call.onWorld, Call.communicator], ?_,
    add_onWorld ctx c a rx, ?_, start_onWorld ctx c, wait_onWorld ctx c⟩
  · simp [Comm.measure, Comm.report]
  · intro x hx
    simp only [Comm.getMatrix, List.mem_cons, List.mem_singleton, List.not_mem_nil,
      or_false] at hx
    rcases hx with rfl | rfl <;> rfl

/-! ## `init` and `finalize` -/

/-- C18: a second call of `init()` changes nothing and issues no call.  `MPI_Init` is called
exactly when the call is the first one and the runtime was not yet initialized; the
communicator is duplicated once by the first call and never again, whether the host had
initialized the runtime or not; after `init()` the runtime is initialized. -/
theorem init_idempotent (p : Process) :
    init (init p).1 = ((init p).1, []) ∧
    (init p).2 ++ (init (init p).1).2 = (init p).2 ∧
    (BootCall.MPI_Init ∈ (init p).2 ↔ (p.init = false ∧ p.mpi_initialized = false)) ∧
    ((init p).2 ++ (init (init p).1).2).count BootCall.MPI_Comm_dup
      = (if p.init then 0 else 1) ∧
    ((init p).2 ++ (init (init p).1).2).count BootCall.MPI_Init
      = (if p.init || p.mpi_initialized then 0 else 1) ∧
    (init (init p).1).1.duplicated = (init p).1.duplicated ∧
    (p.init = false → (init p).1.mpi_initialized = true
      ∧ (init p).1.duplicated = p.duplicated + 1) := by
  rcases p with ⟨i, f, mi, mf, n⟩
  cases i <;> cases mi <;> simp [init]

theorem init_idempotent_witness :
    init (init ⟨false, false, true, false, 0⟩).1 = ((init ⟨false, false, true, false, 0⟩).1, []) :=
  (init_idempotent ⟨false, false, true, false, 0⟩).1

/-- C19: a second call of `finalize()` changes nothing and issues no call; `MPI_Finalize`
is called exactly when the call is the first one and the runtime was not yet finalized. -/
theorem finalize_idempotent (p : Process) :
    finalize (finalize p).1 = ((finalize p).1, []) ∧
    (finalize p).2 ++ (finalize (finalize p).1).2 = (finalize p).2 ∧
    (BootCall.MPI_Finalize ∈ (finalize p).2 ↔ (p.finalize = false ∧ p.mpi_finalized = false)) ∧
    ((finalize p).2 ++ (finalize (finalize p).1).2).count BootCall.MPI_Finalize
      = (if p.finalize || p.mpi_finalized then 0 else 1) := by
  rcases p with ⟨i, f, mi, mf, n⟩
  cases f <;> cases mf <;> simp [finalize]

theorem finalize_idempotent_witness :
    (BootCall.MPI_Finalize ∈ (finalize ⟨true, false, true, true, 1⟩).2
      ↔ ((⟨true, false, true, true, 1⟩ : Process).finalize = false
          ∧ (⟨true, false, true, true, 1⟩ : Process).mpi_finalized = false)) :=
  (finalize_idempotent ⟨true, false, true, true, 1⟩).2.2.1

/-! ## Messages of `broadcast` -/

theorem pair_calls {α : Type} (ctx : Context) (sendbuf recvbuf : α) (sendid recvid : Nat)
    (incoming : α) :
    (pair ctx sendbuf recvbuf sendid recvid incoming).2
      = if sendid = recvid then []
        else (if ctx.myid = sendid then [Call.ssend .comm_mpi recvid] else []) ++
             (if ctx.myid = recvid then [Call.recv .comm_mpi sendid .value] else []) := by
  unfold pair
  split_ifs <;> rfl

theorem broadcast_calls_upto {α : Type} (ctx : Context) (sendbuf : α) (root : Nat)
    (incoming temp0 : α) (n : Nat) :
    ((List.range n).foldl
      (fun st i => ((pair ctx sendbuf st.1 root i incoming).1,
                    st.2 ++ (pair ctx sendbuf st.1 root i incoming).2))
      (temp0, ([] : List Call))).2
    = (List.range n).flatMap (fun i =>
        if root = i then []
        else (if ctx.myid = root then [Call.ssend .comm_mpi i] else []) ++
             (if ctx.myid = i then [Call.recv .comm_mpi root .value] else [])) := by
  induction n with
  | zero => rfl
  | succ n ih =>
    rw [List.range_succ, List.foldl_append, List.flatMap_append]
    simp only [List.foldl_cons, List.foldl_nil]
    rw [ih, pair_calls]
    simp

theorem flatMap_root_sends (root : Nat) (I : List Nat) :
    I.flatMap (fun i =>
        if root = i then []
        else (if root = root then [Call.ssend .comm_mpi i] else []) ++
             (if root = i then [Call.recv .comm_mpi root .value] else []))
      = (I.filter (fun i => i != root)).map (fun i => Call.ssend .comm_mpi i) := by
  induction I with
  | nil => rfl
  | cons i I ih =>
    rw [List.flatMap_cons, ih, List.filter_cons]
    by_cases h : root = i
    · subst h; simp
    · have h2 : i ≠ root := fun e => h e.symm
      simp [h, h2]

theorem flatMap_other_recv (root r n : Nat) (hr : r ≠ root) :
    (List.range n).flatMap (fun i =>
        if root = i then []
        else (if r = root then [Call.ssend .comm_mpi i] else []) ++
             (if r = i then [Call.recv .comm_mpi root .value] else []))
      = if r < n then [Call.recv .comm_mpi root .value] else [] := by
  induction n with
  | zero => rfl
  | succ n ih =>
    rw [List.range_succ, List.flatMap_append, ih]
    by_cases h1 : r < n
    · have h2 : r < n + 1 := by omega
      have h3 : r ≠ n := by omega
      by_cases h4 : root = n <;> simp [h1, h2, h3, h4, hr]
    · by_cases h2 : r = n
      · have h3 : r < n + 1 := by omega
        have h4 : root ≠ n := by omega
        have h5 : ¬ n = root := by omega
        simp [h1, h3, h4, h5, hr, h2]
      · have h3 : ¬ r < n + 1 := by omega
        by_cases h4 : root = n <;> simp [h1, h2, h3, h4, hr]

theorem filter_ne_range_length (P root : Nat) (h : root < P) :
    ((List.range P).filter (fun i => i != root)).length = P - 1 := by
  have h1 : (List.range P).filter (fun i => i != root) = (List.range P).erase root :=
    ((List.nodup_range P).erase_eq_filter root).symm
  rw [h1, List.length_erase_of_mem (List.mem_range.mpr h), List.length_range]

/-- C20: `broadcast(sendbuf, recvbuf, root)` called on all `P` ranks, `root < P`.  Every rank
ends with the root's `*sendbuf` in `*recvbuf`.  The root issues no receive: its calls are one
synchronous send to each rank other than itself, in ascending rank order, `P - 1` sends in
all; every other rank issues exactly one receive from the root. -/
theorem broadcast_delivers_root_value {α : Type} (P root : Nat) (printid : Int)
    (sendbuf : Nat → α) (temp0 : α) (hroot : root < P) :
    (∀ r, r < P →
      (broadcast ⟨r, P, printid⟩ (sendbuf r) root (sendbuf root) temp0).1 = sendbuf root) ∧
    (broadcast ⟨root, P, printid⟩ (sendbuf root) root (sendbuf root) temp0).2
      = ((List.range P).filter (fun i => i != root)).map (fun i => Call.ssend .comm_mpi i) ∧
    ((List.range P).filter (fun i => i != root)).length = P - 1 ∧
    ((List.range P).filter (fun i => i != root)).Sorted (· < ·) ∧
    (∀ r, r < P → r ≠ root →
      (broadcast ⟨r, P, printid⟩ (sendbuf r) root (sendbuf root) temp0).2
        = [Call.recv .comm_mpi root .value]) := by
  refine ⟨?_, ?_, filter_ne_range_length P root hroot, ?_, ?_⟩
  · intro r hr
    rw [broadcast_val _ _ _ _ _ hr]
    split_ifs with h
    · simp only at h; rw [h]
    · rfl
  · unfold broadcast
    rw [broadcast_calls_upto]
    exact flatMap_root_sends root _
  · exact (List.sorted_lt_range P).filter _
  · intro r hr hne
    unfold broadcast
    rw [broadcast_calls_upto]
    simp only
    rw [flatMap_other_recv root r P hne, if_pos hr]

theorem broadcast_delivers_root_value_witness :
    (1 : Nat) < 3 ∧
    (broadcast ⟨1, 3, 0⟩ (demoVals 1) 1 (demoVals 1) 0).2
      = ((List.range 3).filter (fun i => i != 1)).map (fun i => Call.ssend .comm_mpi i) :=
  ⟨by decide, (broadcast_delivers_root_value 3 1 0 demoVals 0 (by decide)).2.1⟩

/-! ## The mean of the samples -/

theorem foldl_add_eq_sum (l : List ℚ) (init : ℚ) :
    l.foldl (fun avg x => avg + x) init = init + l.sum := by
  induction l generalizing init with
  | nil => simp
  | cons a l ih => rw [List.foldl_cons, ih, List.sum_cons]; ring

theorem statsOf_avgTime (l : List ℚ) (N : Nat) (hlen : l.length = N) :
    (statsOf l (N : Int)).avgTime = l.sum / N := by
  have h : ((N : Int)).toNat = l.length := by omega
  simp only [statsOf, h]
  rw [foldl_range_eq l (fun iter => l.getD iter 0) (fun x => x) (fun avg x => avg + x) 0
    (fun i hi => by simp [List.getD_eq_getElem?_getD, List.getElem?_eq_getElem hi]),
    foldl_add_eq_sum, zero_add]
  simp

theorem sorted_mean_bounds (l : List ℚ) (N : Nat) (hN : 1 ≤ N) (hlen : l.length = N)
    (hs : l.Sorted (· ≤ ·)) :
    l.getD 0 0 ≤ l.sum / N ∧ l.sum / N ≤ l.getD (N - 1) 0 := by
  have hpos : (0 : ℚ) < N := by exact_mod_cast hN
  have hlo : ∀ x ∈ l, l.getD 0 0 ≤ x := by
    intro x hx
    obtain ⟨i, hi, rfl⟩ := List.getElem_of_mem hx
    have e := getD_eq_of_lt l i hi
    rw [List.getElem?_eq_getElem hi] at e
    rw [Option.some.inj e]
    exact sorted_getD_le l hs 0 i (by omega) hi
  have hhi : ∀ x ∈ l, x ≤ l.getD (N - 1) 0 := by
    intro x hx
    obtain ⟨i, hi, rfl⟩ := List.getElem_of_mem hx
    have e := getD_eq_of_lt l i hi
    rw [List.getElem?_eq_getElem hi] at e
    rw [Option.some.inj e]
    exact sorted_getD_le l hs i (N - 1) (by omega) (by omega)
  have h1 := List.card_nsmul_le_sum l (l.getD 0 0) hlo
  have h2 := List.sum_le_card_nsmul l (l.getD (N - 1) 0) hhi
  rw [hlen, nsmul_eq_mul] at h1 h2
  constructor
  · rw [le_div_iff₀ hpos]; linarith
  · rw [div_le_iff₀ hpos]; linarith

/-- C21: for `numiter >= 1` the `avgTime` returned by `measure` is the sum of the `numiter`
samples divided by `numiter` (exact rational arithmetic); any arrangement of the samples
gives the same value, so the sort does not affect it; and
`minTime <= avgTime <= maxTime`.  The same holds for `print_stats` on a vector of `numiter`
timings. -/
theorem avg_is_arithmetic_mean (ctx : Context) (c : Comm) (W N : Nat)
    (startOf timeOf : Nat → Nat → ℚ) (garbage : Nat → ℚ) (hN : 1 ≤ N) :
    (measure ctx c (W : Int) (N : Int) startOf timeOf garbage).1.avgTime
      = (samples ctx W N timeOf).sum / N ∧
    (∀ l : List ℚ, l.Perm (samples ctx W N timeOf) →
      (statsOf l (N : Int)).avgTime = (samples ctx W N timeOf).sum / N) ∧
    (measure ctx c (W : Int) (N : Int) startOf timeOf garbage).1.minTime
      ≤ (measure ctx c (W : Int) (N : Int) startOf timeOf garbage).1.avgTime ∧
    (measure ctx c (W : Int) (N : Int) startOf timeOf garbage).1.avgTime
      ≤ (measure ctx c (W : Int) (N : Int) startOf timeOf garbage).1.maxTime ∧
    (∀ (times : List ℚ) (data : Nat), times.length = N →
      (print_stats times data).avgTime = times.sum / N ∧
      (print_stats times data).minTime ≤ (print_stats times data).avgTime ∧
      (print_stats times data).avgTime ≤ (print_stats times data).maxTime) := by
  have key : ∀ S : List ℚ, S.length = N →
      (statsOf (S.insertionSort (· ≤ ·)) (N : Int)).avgTime = S.sum / N ∧
      (statsOf (S.insertionSort (· ≤ ·)) (N : Int)).minTime
        ≤ (statsOf (S.insertionSort (· ≤ ·)) (N : Int)).avgTime ∧
      (statsOf (S.insertionSort (· ≤ ·)) (N : Int)).avgTime
        ≤ (statsOf (S.insertionSort (· ≤ ·)) (N : Int)).maxTime := by
    intro S hS
    have hlen : (S.insertionSort (· ≤ ·)).length = N := by
      rw [List.length_insertionSort, hS]
    have hperm := List.perm_insertionSort (· ≤ ·) S
    have hb := sorted_mean_bounds _ N hN hlen (sorted_samples S)
    rw [statsOf_avgTime _ N hlen, statsOf_minTime, statsOf_maxTime, hperm.sum_eq]
    rw [hperm.sum_eq] at hb
    exact ⟨rfl, hb.1, hb.2⟩
  have hk := key (samples ctx W N timeOf) (samples_length ctx W N timeOf)
  rw [measure_stats]
  refine ⟨hk.1, ?_, hk.2.1, hk.2.2, ?_⟩
  · intro l hl
    rw [statsOf_avgTime l N (by rw [hl.length_eq, samples_length]), hl.sum_eq]
  · intro times data ht
    unfold print_stats
    rw [ht]
    exact key times ht

theorem avg_is_arithmetic_mean_witness :
    1 ≤ 5 ∧
    (measure demoCtx demoComm ((2 : Nat) : Int) ((5 : Nat) : Int) demoTime demoTime
        (fun _ => 0)).1.avgTime
      = (samples demoCtx 2 5 demoTime).sum / (5 : Nat) ∧
    (print_stats [5, 1, 4, 2, 3] 4096).avgTime = ([5, 1, 4, 2, 3] : List ℚ).sum / (5 : Nat) :=
  ⟨by decide,
   (avg_is_arithmetic_mean demoCtx demoComm 2 5 demoTime demoTime (fun _ => 0) (by decide)).1,
   ((avg_is_arithmetic_mean demoCtx demoComm 2 5 demoTime demoTime (fun _ => 0)
      (by decide)).2.2.2.2 [5, 1, 4, 2, 3] 4096 rfl).1⟩

/-! ## `start()` and `wait()` under the message-passing backend -/

/-- C22 (the code departs from the claim): an outgoing edge of `2^31` one-byte elements
under the message-passing backend.  `start()` passes the `size_t` byte count
`sendcount[0] * sizeof(T) = 2^31` as the `int` count parameter of `MPI_Isend` (line 504): the
send is issued with the count `-2^31` instead of `2^31` bytes.  For an edge of `10^9`
four-byte elements, the size used in `main.cpp`, the count would be `-294967296`. -/
theorem mpi_send_count_truncated :
    (mpiWorld2GiB 0).sendcount.getD 0 0 * (mpiWorld2GiB 0).sizeofT = 2 ^ 31 ∧
    (mpiWorld2GiB 0).start ⟨0, 3, 0⟩ = [Call.isend .comm_mpi 0 (-2147483648) 1 0] ∧
    toInt32 (toSizeT (1000000000 * 4)) = -294967296 := by
  decide

/-- Edges below `2^31` bytes under the message-passing backend: when every
`sendcount[i] * sizeof(T)` and `recvcount[j] * sizeof(T)` is below `2^31`, `start()` issues `numsend` non-blocking sends
followed by `numrecv` non-blocking receives and no completion wait; send `i` has the buffer
`sendbuf[i] + sendoffset[i]`, the byte count `sendcount[i] * sizeof(T)`, the destination
`sendproc[i]` and the request `sendrequest[i]`, receive `j` likewise from the incoming lists;
`wait()` is `MPI_Waitall` on the `numsend` send requests followed by `MPI_Waitall` on the
`numrecv` receive requests. -/
theorem mpi_start_wait (ctx : Context) (c : Comm) (hc : c.lib = .MPI)
    (hs : ∀ i, i < c.numsend → c.sendcount.getD i 0 * c.sizeofT < 2 ^ 31)
    (hr : ∀ j, j < c.numrecv → c.recvcount.getD j 0 * c.sizeofT < 2 ^ 31) :
    (c.start ctx).length = c.numsend + c.numrecv ∧
    (∀ i, i < c.numsend →
      (c.start ctx)[i]?
        = some (Call.isend .comm_mpi (c.sendbuf.getD i 0 + c.sendoffset.getD i 0 * c.sizeofT)
            ((c.sendcount.getD i 0 * c.sizeofT : Nat) : Int) (c.sendproc.getD i 0) i)) ∧
    (∀ j, j < c.numrecv →
      (c.start ctx)[c.numsend + j]?
        = some (Call.irecv .comm_mpi (c.recvbuf.getD j 0 + c.recvoffset.getD j 0 * c.sizeofT)
            ((c.recvcount.getD j 0 * c.sizeofT : Nat) : Int) (c.recvproc.getD j 0) j)) ∧
    (∀ x ∈ c.start ctx, x.isWait = false) ∧
    c.wait ctx = [Call.waitall c.numsend .sendrequest, Call.waitall c.numrecv .recvrequest] := by
  have hcnt : ∀ n, n < 2 ^ 31 → toInt32 (toSizeT n) = (n : Int) := by
    intro n hn
    rw [toSizeT_of_lt n (by omega), toInt32_of_lt n hn]
  refine ⟨?_, ?_, ?_, ?_, ?_⟩
  · simp only [Comm.start, hc, List.length_append, List.length_map, List.length_range]
  · intro i hi
    simp only [Comm.start, hc]
    rw [List.getElem?_append_left (by simpa using hi), map_range_getElem? _ _ i hi,
      hcnt _ (hs i hi)]
  · intro j hj
    simp only [Comm.start, hc]
    rw [List.getElem?_append_right (by simp)]
    simp only [List.length_map, List.length_range, Nat.add_sub_cancel_left]
    rw [map_range_getElem? _ _ j hj, hcnt _ (hr j hj)]
  · intro x hx
    simp only [Comm.start, hc, List.mem_append, List.mem_map, List.mem_range] at hx
    rcases hx with ⟨i, _, rfl⟩ | ⟨i, _, rfl⟩ <;> rfl
  · simp only [Comm.wait, hc]

theorem mpi_start_wait_witness :
    (mpiWorldOneEdge 0).start ⟨0, 2, 0⟩ = [Call.isend .comm_mpi 4096 4096 1 0] ∧
    ((mpiWorldOneEdge 0).start ⟨0, 2, 0⟩)[0]?
      = some (Call.isend .comm_mpi
          ((mpiWorldOneEdge 0).sendbuf.getD 0 0
            + (mpiWorldOneEdge 0).sendoffset.getD 0 0 * (mpiWorldOneEdge 0).sizeofT)
          (((mpiWorldOneEdge 0).sendcount.getD 0 0 * (mpiWorldOneEdge 0).sizeofT : Nat) : Int)
          ((mpiWorldOneEdge 0).sendproc.getD 0 0) 0) ∧
    (mpiWorldOneEdge 1).wait ⟨1, 2, 0⟩
      = [Call.waitall (mpiWorldOneEdge 1).numsend .sendrequest,
         Call.waitall (mpiWorldOneEdge 1).numrecv .recvrequest] :=
  ⟨by decide,
   (mpi_start_wait ⟨0, 2, 0⟩ (mpiWorldOneEdge 0) (by decide) (by decide) (by decide)).2.1 0
     (by decide),
   (mpi_start_wait ⟨1, 2, 0⟩ (mpiWorldOneEdge 1) (by decide) (by decide) (by decide)).2.2.2.2⟩

/-! ## Pattern and data volume of the full group-to-group test -/

theorem lengthsAgree_new (lib : library) (sizeofT benchid numcomm0 : Nat) :
    (Comm.new lib sizeofT benchid numcomm0).lengthsAgree := by
  simp [Comm.lengthsAgree, Comm.new]

theorem addSender_lengthsAgree (ctx : Context) (c : Comm) (a : AddArgs) (rx : HandleMsg)
    (h : c.lengthsAgree) : (addSender ctx c a rx).1.lengthsAgree := by
  obtain ⟨⟨h1, h2, h3, h4⟩, ⟨h5, h6, h7, h8⟩, hM, hP, hG⟩ := h
  unfold addSender
  split
  all_goals rename_i hlib
  all_goals (try split_ifs)
  all_goals
    simp only [Comm.lengthsAgree, hlib, List.length_append, List.length_singleton,
      List.length_set, h1, h2, h3, h4, h5, h6, h7, h8, true_and, and_true, and_self,
      false_implies, true_implies, reduceCtorEq, implies_true, forall_const]
  · have := hM hlib; simp [this]
  · have := hP hlib; simp [this]
  · have := hP hlib; simp [this]
  · have := hG hlib; simp [this]
  · have := hG hlib; simp [this]

theorem addRecver_lengthsAgree (ctx : Context) (c : Comm) (a : AddArgs) (rx : HandleMsg)
    (h : c.lengthsAgree) : (addRecver ctx c a rx).1.lengthsAgree := by
  obtain ⟨⟨h1, h2, h3, h4⟩, ⟨h5, h6, h7, h8⟩, hM, hP, hG⟩ := h
  unfold addRecver
  split
  all_goals rename_i hlib
  all_goals (try split_ifs)
  all_goals
    simp only [Comm.lengthsAgree, hlib, List.length_append, List.length_singleton,
      List.length_set, h1, h2, h3, h4, h5, h6, h7, h8, true_and, and_true, and_self,
      false_implies, true_implies, reduceCtorEq, implies_true, forall_const]
  · have := hM hlib; simp [this]
  · have := hP hlib; simp [this]
  · have := hP hlib; simp [this]
  · have := hG hlib; simp [this]
  · have := hG hlib; simp [this]

theorem add_lengthsAgree (ctx : Context) (c : Comm) (a : AddArgs) (rx : HandleMsg)
    (h : c.lengthsAgree) : (Comm.add ctx c a rx).1.lengthsAgree := by
  unfold Comm.add
  have h1 : ({ c with numcomm := c.numcomm + 1 } : Comm).lengthsAgree := h
  split_ifs
  · exact h
  · exact addRecver_lengthsAgree _ _ _ _ (addSender_lengthsAgree _ _ _ _ h1)
  · exact addSender_lengthsAgree _ _ _ _ h1
  · exact addRecver_lengthsAgree _ _ _ _ h1
  · exact h1

theorem addSeq_lengthsAgree (ctx : Context) (c : Comm) (calls : List (AddArgs × HandleMsg))
    (h : c.lengthsAgree) : (Comm.addSeq ctx c calls).lengthsAgree := by
  induction calls generalizing c with
  | nil => exact h
  | cons x xs ih =>
    rw [addSeq_cons]
    exact ih _ (add_lengthsAgree ctx c x.1 x.2 h)

theorem access_index_lt (n : Nat) :
    ∀ (x : Access), ∀ i < n, x = { index := i, size := n } → x.index < x.size := by
  intro x i hi hx
  subst hx
  exact hi

theorem startAccesses_inRange (c : Comm) (h : c.lengthsAgree) :
    ∀ x ∈ c.startAccesses, x.inRange = true := by
  obtain ⟨⟨h1, h2, h3, h4⟩, ⟨h5, h6, h7, h8⟩, hM, hP, hG⟩ := h
  unfold Comm.startAccesses
  split
  · rename_i hlib
    have := hM hlib
    simp only [Access.inRange, h1, h2, h3, h4, h5, h6, h7, h8, this, or_imp, forall_and,
      List.mem_append, List.mem_flatMap, List.mem_range, List.mem_cons, List.mem_singleton,
      List.not_mem_nil, or_false, decide_eq_true_eq, forall_exists_index, and_imp, and_self]
    exact ⟨access_index_lt _, access_index_lt _⟩
  · simp only [Access.inRange, h1, h2, h3, h4, h5, h6, h7, h8, or_imp, forall_and,
      List.mem_append, List.mem_flatMap, List.mem_range, List.mem_cons, List.mem_singleton,
      List.not_mem_nil, or_false, decide_eq_true_eq, forall_exists_index, and_imp, and_self]
    exact ⟨access_index_lt _, access_index_lt _⟩
  · rename_i hlib
    have := hP hlib
    simp only [Access.inRange, h1, h2, h3, h4, h5, h6, h7, h8, this, or_imp, forall_and,
      List.mem_append, List.mem_flatMap, List.mem_range, List.mem_cons, List.mem_singleton,
      List.not_mem_nil, or_false, decide_eq_true_eq, forall_exists_index, and_imp, and_self]
    exact access_index_lt _
  · rename_i hlib
    have := hG hlib
    simp only [Access.inRange, h1, h2, h3, h4, h5, h6, h7, h8, this, or_imp, forall_and,
      List.mem_append, List.mem_flatMap, List.mem_range, List.mem_cons, List.mem_singleton,
      List.not_mem_nil, or_false, decide_eq_true_eq, forall_exists_index, and_imp, and_self]
    exact ⟨access_index_lt _, access_index_lt _⟩
  · simp

theorem waitAccesses_inRange (c : Comm) (h : c.lengthsAgree) :
    ∀ x ∈ c.waitAccesses, x.inRange = true := by
  obtain ⟨⟨h1, h2, h3, h4⟩, ⟨h5, h6, h7, h8⟩, hM, hP, hG⟩ := h
  unfold Comm.waitAccesses
  split
  · rename_i hlib
    have := hM hlib
    simp only [Access.inRange, this, or_imp, forall_and,
      List.mem_append, List.mem_map, List.mem_range, decide_eq_true_eq, forall_exists_index,
      and_imp]
    exact ⟨fun x i hi hx => access_index_lt _ x i hi hx.symm,
      fun x i hi hx => access_index_lt _ x i hi hx.symm⟩
  · rename_i hlib
    have := hP hlib
    simp only [Access.inRange, h1, h2, h3, h4, h5, h6, h7, h8, this, or_imp, forall_and,
      List.mem_append, List.mem_flatMap, List.mem_range, List.mem_cons, List.mem_singleton,
      List.not_mem_nil, or_false, decide_eq_true_eq, forall_exists_index, and_imp, and_self]
    exact ⟨access_index_lt _, access_index_lt _⟩
  · rename_i hlib
    have := hG hlib
    simp only [Access.inRange, this, List.mem_map, List.mem_range, decide_eq_true_eq,
      forall_exists_index, and_imp]
    exact fun x i hi hx => access_index_lt _ x i hi hx.symm
  · simp

theorem getD_lt_of_forall (l : List Nat) (P i : Nat) (hi : i < l.length)
    (h : ∀ x ∈ l, x < P) : l.getD i 0 < P := by
  have : l.getD i 0 = l[i] := by simp [List.getD_eq_getElem?_getD, List.getElem?_eq_getElem hi]
  rw [this]
  exact h _ (List.getElem_mem hi)

theorem getMatrixAccesses_inRange (ctx : Context) (c : Comm) (h : c.lengthsAgree)
    (hs : ∀ x ∈ c.sendproc, x < ctx.numproc) (hr : ∀ x ∈ c.recvproc, x < ctx.numproc) :
    ∀ x ∈ c.getMatrixAccesses ctx, x.inRange = true := by
  obtain ⟨⟨h1, h2, h3, h4⟩, ⟨h5, h6, h7, h8⟩, hM, hP, hG⟩ := h
  intro x hx
  unfold Comm.getMatrixAccesses at hx
  simp only [List.mem_append, List.mem_flatMap, List.mem_map, List.mem_range, List.mem_cons,
    List.mem_singleton, List.not_mem_nil, or_false] at hx
  rcases hx with (⟨i, hi, rfl | rfl | rfl⟩ | ⟨i, hi, rfl | rfl | rfl⟩) | ⟨s, hs2, r, hr2, rfl⟩
  · simp [Access.inRange, h2, hi]
  · simp only [Access.inRange, decide_eq_true_eq]
    exact getD_lt_of_forall _ _ i (by omega) hs
  · simp [Access.inRange, h3, hi]
  · simp [Access.inRange, h6, hi]
  · simp only [Access.inRange, decide_eq_true_eq]
    exact getD_lt_of_forall _ _ i (by omega) hr
  · simp [Access.inRange, h7, hi]
  · simp only [Access.inRange, decide_eq_true_eq]
    have : (s + 1) * ctx.numproc ≤ ctx.numproc * ctx.numproc := by
      rw [Nat.mul_comm]; exact Nat.mul_le_mul_left _ hs2
    have h2 : (s + 1) * ctx.numproc = s * ctx.numproc + ctx.numproc := by ring
    omega

/-- C24 (the claim as stated fails): rank 0 of a group of two, `printid = -1`, one call
`add(..., count = 1, sendid = 0, recvid = 7)`.  The registries have length `numsend = 1`, but
`getMatrix` evaluates `sendcount_temp[sendproc[0]]` with `sendproc[0] = 7` on a vector of
`numproc = 2` elements. -/
theorem getMatrix_index_out_of_range :
    strayComm.numsend = 1 ∧ strayComm.sendproc = [7] ∧
    (⟨7, 2⟩ : Access) ∈ strayComm.getMatrixAccesses ⟨0, 2, -1⟩ ∧
    (⟨7, 2⟩ : Access).inRange = false := by
  decide

/-- C24 (amended): after any sequence of `add` calls on a freshly constructed `Comm` of any
backend, the four outgoing registries have length `numsend` and the four incoming ones length
`numrecv`; `sendrequest` and `recvrequest` have lengths `numsend` and `numrecv` under MPI;
`ack_sender`, `remotebuf`, `remoteoffset` and `stream_ipc` have length `numsend` and
`ack_recver` length `numrecv` under IPC; `ack_sender` has length `numsend` and `ack_recver`,
`remotebuf`, `remoteoffset` and `stream_ipc` length `numrecv` under IPC_get.  Hence every
subscript evaluated by `start()` and `wait()` is within range, and so is every subscript
evaluated by `getMatrix` when all `sendid` and `recvid` passed to `add` are below
`numproc`. -/
theorem registry_lengths (ctx : Context) (lib : library) (sizeofT benchid numcomm0 : Nat)
    (calls : List (AddArgs × HandleMsg)) :
    (Comm.addSeq ctx (Comm.new lib sizeofT benchid numcomm0) calls).lengthsAgree ∧
    (∀ x ∈ (Comm.addSeq ctx (Comm.new lib sizeofT benchid numcomm0) calls).startAccesses,
      x.inRange = true) ∧
    (∀ x ∈ (Comm.addSeq ctx (Comm.new lib sizeofT benchid numcomm0) calls).waitAccesses,
      x.inRange = true) ∧
    ((∀ a ∈ calls, a.1.sendid < ctx.numproc ∧ a.1.recvid < ctx.numproc) →
      ∀ x ∈ (Comm.addSeq ctx (Comm.new lib sizeofT benchid numcomm0) calls).getMatrixAccesses
          ctx, x.inRange = true) := by
  have hl := addSeq_lengthsAgree ctx _ calls (lengthsAgree_new lib sizeofT benchid numcomm0)
  refine ⟨hl, startAccesses_inRange _ hl, waitAccesses_inRange _ hl, ?_⟩
  intro hids
  apply getMatrixAccesses_inRange ctx _ hl
  · intro x hx
    rw [addSeq_sendproc] at hx
    simp only [Comm.new, List.nil_append, List.mem_map, List.mem_filter] at hx
    obtain ⟨a, ⟨ha, _⟩, rfl⟩ := hx
    obtain ⟨p, hp, rfl⟩ := ha
    exact (hids p hp).2
  · intro x hx
    rw [addSeq_recvproc] at hx
    simp only [Comm.new, List.nil_append, List.mem_map, List.mem_filter] at hx
    obtain ⟨a, ⟨ha, _⟩, rfl⟩ := hx
    obtain ⟨p, hp, rfl⟩ := ha
    exact (hids p hp).1

theorem registry_lengths_witness :
    mixedComm.remotebuf.length = mixedComm.numsend ∧ mixedComm.numsend = 2 ∧
    mixedComm.ack_recver.length = mixedComm.numrecv ∧
    (∀ x ∈ mixedComm.getMatrixAccesses ⟨0, 3, 0⟩, x.inRange = true) :=
  ⟨((registry_lengths ⟨0, 3, 0⟩ .IPC 4 0 0
      [(⟨0, 0, 64, 0, 1, 0, 0⟩, default), (⟨0, 0, 64, 0, 1, 0, 1⟩, ⟨⟨1, 64⟩, 0⟩)]).1.2.2.2.1
      rfl).2.1,
   by decide,
   ((registry_lengths ⟨0, 3, 0⟩ .IPC 4 0 0
      [(⟨0, 0, 64, 0, 1, 0, 0⟩, default), (⟨0, 0, 64, 0, 1, 0, 1⟩, ⟨⟨1, 64⟩, 0⟩)]).1.2.2.2.1
      rfl).2.2.2.2,
   (registry_lengths ⟨0, 3, 0⟩ .IPC 4 0 0
      [(⟨0, 0, 64, 0, 1, 0, 0⟩, default), (⟨0, 0, 64, 0, 1, 0, 1⟩, ⟨⟨1, 64⟩, 0⟩)]).2.2.2
      (by decide)⟩

end CommBench
